import Mathlib

/-!
Shallow embedding of the three-way merge / conflict-detection engine of
`src/src/utils/browserCollaborationService.js` and of the sync coordinator
`safeSyncWithRepository` of the enhanced GitHub service, together with
theorems settling the specification claims about them.

JSON-compatible values are modelled by the inductive type `Json`.  A missing
object key (JavaScript `undefined`) is modelled by `Option Json` with `none`;
an explicit JSON `null` is `Json.null`.  Objects are ordered association
lists, which matches JavaScript property insertion order and makes structural
equality of `Json` coincide with the `JSON.stringify`-based comparison used
throughout the source (the documents reaching the merge are
`JSON.parse(JSON.stringify(...))` clones, so they contain no `undefined`
values, no `NaN` and no shared references).
-/

namespace AbsScenes

inductive Json where
  | null : Json
  | bool (b : Bool) : Json
  | num (n : Int) : Json
  | str (s : String) : Json
  | arr (items : List Json) : Json
  | obj (fields : List (String × Json)) : Json
deriving Repr

mutual

def jbeq : Json → Json → Bool
  | Json.null, Json.null => true
  | Json.bool a, Json.bool b => a == b
  | Json.num a, Json.num b => a == b
  | Json.str a, Json.str b => a == b
  | Json.arr a, Json.arr b => jbeqL a b
  | Json.obj a, Json.obj b => jbeqO a b
  | _, _ => false

def jbeqL : List Json → List Json → Bool
  | [], [] => true
  | a :: as, b :: bs => jbeq a b && jbeqL as bs
  | _, _ => false

def jbeqO : List (String × Json) → List (String × Json) → Bool
  | [], [] => true
  | (k, v) :: as, (k2, v2) :: bs => k == k2 && jbeq v v2 && jbeqO as bs
  | _, _ => false

end

theorem jbeq_correct : ∀ a b, (jbeq a b = true ↔ a = b) := by
  apply jbeq.induct
    (fun a b => jbeq a b = true ↔ a = b)
    (fun a b => jbeqO a b = true ↔ a = b)
    (fun a b => jbeqL a b = true ↔ a = b)
  · simp [jbeq]
  · intro a b; simp [jbeq]
  · intro a b; simp [jbeq]
  · intro a b; simp [jbeq]
  · intro a b ih; simpa [jbeq] using ih
  · intro a b ih; simpa [jbeq] using ih
  · intro t x h1 h2 h3 h4 h5 h6
    cases t <;> cases x <;>
      first
        | exact (h1 rfl rfl).elim
        | exact (h2 _ _ rfl rfl).elim
        | exact (h3 _ _ rfl rfl).elim
        | exact (h4 _ _ rfl rfl).elim
        | exact (h5 _ _ rfl rfl).elim
        | exact (h6 _ _ rfl rfl).elim
        | simp [jbeq]
  · simp [jbeqL]
  · intro a as b bs ih1 ih2; simp [jbeqL, ih1, ih2]
  · intro t x h1 h2
    cases t with
    | nil =>
      cases x with
      | nil => exact (h1 rfl rfl).elim
      | cons b bs => simp [jbeqL]
    | cons a as =>
      cases x with
      | nil => simp [jbeqL]
      | cons b bs => exact (h2 _ _ _ _ rfl rfl).elim
  · simp [jbeqO]
  · intro k v as k2 v2 bs ih1 ih2; simp [jbeqO, ih1, ih2, and_assoc]
  · intro t x h1 h2
    cases t with
    | nil =>
      cases x with
      | nil => exact (h1 rfl rfl).elim
      | cons b bs => simp [jbeqO]
    | cons a as =>
      cases x with
      | nil => obtain ⟨k, v⟩ := a; simp [jbeqO]
      | cons b bs =>
        obtain ⟨k, v⟩ := a; obtain ⟨k2, v2⟩ := b
        exact (h2 _ _ _ _ _ _ rfl rfl).elim

instance : DecidableEq Json := fun a b =>
  decidable_of_iff (jbeq a b = true) (jbeq_correct a b)

namespace Json

/-- JavaScript truthiness: `undefined`, `null`, `false`, `0` and `""` are
falsy; every other value (including `[]` and `{}`) is truthy. -/
def truthy : Option Json → Bool
  | Option.none => false
  | Option.some Json.null => false
  | Option.some (Json.bool b) => b
  | Option.some (Json.num n) => n != 0
  | Option.some (Json.str s) => s != ""
  | Option.some (Json.arr _) => true
  | Option.some (Json.obj _) => true

/-- `typeof v === 'object' && v !== null`: arrays and objects. -/
def objLike : Json → Bool
  | Json.arr _ => true
  | Json.obj _ => true
  | _ => false

def isArr : Json → Bool
  | Json.arr _ => true
  | _ => false

/-- JavaScript strict equality `===` between two (possibly missing) values
originating from distinct `JSON.parse` clones: primitives compare by value,
while two object/array values are never identical references, so `===` is
false on them.  (Within a single document the object case is unreachable in
the source, because every branch using `===` first dispatches object-shaped
values to a recursive merge.) -/
def jsEq (a b : Option Json) : Bool :=
  match a, b with
  | Option.none, Option.none => true
  | Option.some x, Option.some y => !x.objLike && !y.objLike && decide (x = y)
  | _, _ => false

/-- Object key lookup `v[k]`; on arrays, a decimal key indexes the array.
Keyed access on primitives yields `undefined` (character indexing of strings
is not modelled; no reachable configuration below applies keys to strings). -/
def getK : Json → String → Option Json
  | Json.obj kvs, k => (kvs.find? (fun p => p.1 == k)).map (·.2)
  | Json.arr xs, k =>
      match k.toNat? with
      | Option.some i => xs.get? i
      | Option.none => Option.none
  | _, _ => Option.none

/-- `v?.[k]` on a possibly-missing value (optional-chaining flavour). -/
def getKO : Option Json → String → Option Json
  | Option.some j, k => j.getK k
  | Option.none, _ => Option.none

/-- `Object.keys(v)`: property names of an object, index strings of an
array, `[]` for primitives (string character indices are not modelled). -/
def keysOf : Json → List String
  | Json.obj kvs => kvs.map (·.1)
  | Json.arr xs => (List.range xs.length).map toString
  | _ => []

/-- Assignment `target[k] = v` where `v = none` models assigning
`undefined` (observationally an erased key, since every later observation of
the document goes through `JSON.stringify`, key iteration of the inputs, or
keyed access).  Assignment keeps the position of an existing key and appends
a new key, as JavaScript does.  Assignment on a primitive target is a no-op
here (the source, a strict-mode module, would throw; the configurations used
below never assign into primitives without the surrounding code throwing
earlier). -/
def setK : Json → String → Option Json → Json
  | Json.obj kvs, k, Option.some v =>
      if kvs.any (fun p => p.1 == k) then
        Json.obj (kvs.map (fun p => if p.1 == k then (k, v) else p))
      else
        Json.obj (kvs ++ [(k, v)])
  | Json.obj kvs, k, Option.none => Json.obj (kvs.filter (fun p => p.1 != k))
  | Json.arr xs, k, Option.some v =>
      match k.toNat? with
      | Option.some i => Json.arr (xs.set i v)
      | Option.none => Json.arr xs
  | Json.arr xs, _, Option.none => Json.arr xs
  | j, _, _ => j

/-- `delete v[k]` (a no-op on primitives and arrays for our purposes). -/
def delK : Json → String → Json
  | Json.obj kvs, k => Json.obj (kvs.filter (fun p => p.1 != k))
  | j, _ => j

/-- `x || []` as used on array-valued fields. -/
def orEmptyArr (v : Option Json) : Json :=
  if truthy v then v.getD (Json.arr []) else Json.arr []

/-- `x || {}` as used on object-valued fields. -/
def orEmptyObj (v : Option Json) : Json :=
  if truthy v then v.getD (Json.obj []) else Json.obj []

/-- Spread `{ ...v }`: copies an object's fields; an array spreads to an
object keyed by index strings; spreading a primitive or `null`/`undefined`
yields `{}` (string character spreading is not modelled). -/
def spreadObj : Option Json → Json
  | Option.some (Json.obj kvs) => Json.obj kvs
  | Option.some (Json.arr xs) =>
      Json.obj (((List.range xs.length).map toString).zip xs)
  | _ => Json.obj []

/-- Template-literal display of an interpolated value, as in
`` `${fieldName}_${id}` ``.  (Array display is not modelled element-wise;
every id interpolated below is primitive.) -/
def jdisplay : Option Json → String
  | Option.none => "undefined"
  | Option.some Json.null => "null"
  | Option.some (Json.bool b) => if b then "true" else "false"
  | Option.some (Json.num n) => toString n
  | Option.some (Json.str s) => s
  | Option.some (Json.arr _) => ""
  | Option.some (Json.obj _) => "[object Object]"

end Json

open Json

/-- `new Set([...])` followed by iteration: keeps the first occurrence of
each element, in insertion order.  JavaScript `Set` uses SameValueZero
(reference identity on objects); structural equality coincides with it on
primitive elements, which is the only case exercised by the theorems
below. -/
def dedupSeen {α : Type} [DecidableEq α] : List α → List α → List α
  | _, [] => []
  | seen, x :: xs =>
      if x ∈ seen then dedupSeen seen xs
      else x :: dedupSeen (seen ++ [x]) xs

/-- Deduplication of possibly-missing id values. -/
def dedupIds (l : List (Option Json)) : List (Option Json) := dedupSeen [] l

/-- Deduplication of element values (`new Set(array)`). -/
def dedupJ (l : List Json) : List Json := dedupSeen [] l

/-- Deduplication of key names
(`new Set([...Object.keys(a), ...Object.keys(b), ...])`). -/
def dedupStr (l : List String) : List String := dedupSeen [] l

theorem sizeOf_lt_of_mem_arr {x : Json} {xs : List Json} (h : x ∈ xs) :
    sizeOf x < sizeOf (Json.arr xs) := by
  have h1 : sizeOf x < sizeOf xs := List.sizeOf_lt_of_mem h
  have h2 : sizeOf (Json.arr xs) = 1 + sizeOf xs := by simp
  omega

theorem sizeOf_getK_lt {j : Json} {k : String} {v : Json}
    (h : j.getK k = Option.some v) : sizeOf v < sizeOf j := by
  cases j with
  | obj kvs =>
    simp only [Json.getK, Option.map_eq_some'] at h
    obtain ⟨p, hp, hv⟩ := h
    have hmem : p ∈ kvs := List.mem_of_find?_eq_some hp
    have h1 : sizeOf p < sizeOf kvs := List.sizeOf_lt_of_mem hmem
    obtain ⟨k', v'⟩ := p
    have hv' : v' = v := hv
    subst hv'
    have h2 : sizeOf (Json.obj kvs) = 1 + sizeOf kvs := by simp
    have h3 : sizeOf (k', v') = 1 + sizeOf k' + sizeOf v' := rfl
    omega
  | arr xs =>
    simp only [Json.getK] at h
    cases hn : k.toNat? with
    | none => rw [hn] at h; exact absurd h (by simp)
    | some i =>
      rw [hn] at h
      have hmem : v ∈ xs := List.get?_mem h
      exact sizeOf_lt_of_mem_arr hmem
  | null => exact absurd h (by simp [Json.getK])
  | bool b => exact absurd h (by simp [Json.getK])
  | num n => exact absurd h (by simp [Json.getK])
  | str s => exact absurd h (by simp [Json.getK])

/-- One entry of the `contradictions` list built by `mergeSimpleArray`:
`{ item, localAction, remoteAction }`. -/
structure Contra where
  item : Json
  localAction : String
  remoteAction : String
deriving Repr, DecidableEq

/-- A conflict record.  The source builds plain objects of varying shape
(`{type, localContent, remoteContent, baseContent}`, `{type, id, ...}`,
`{type, sceneId, ...}`, `{type, characterId, field, ...}`,
`{type, contradictions}`); absent properties are modelled by `none` / `[]`. -/
structure Conflict where
  type : String
  localContent : Option Json
  remoteContent : Option Json
  baseContent : Option Json
  cid : Option Json
  cfield : Option String
  contradictions : List Contra
deriving Repr, DecidableEq

def Conflict.scalar (t : String) (l r b : Option Json) : Conflict :=
  Conflict.mk t l r b Option.none Option.none []

def Conflict.withId (t : String) (id : Option Json) (l r b : Option Json) :
    Conflict :=
  Conflict.mk t l r b id Option.none []

def Conflict.charField (id : Option Json) (f : String) (l r : Option Json) :
    Conflict :=
  Conflict.mk "character" l r Option.none id (Option.some f) []

def Conflict.arrayContra (t : String) (cs : List Contra) : Conflict :=
  Conflict.mk t Option.none Option.none Option.none Option.none Option.none cs

/-- `local !== remote && local !== base && remote !== base` (the strict
all-three-differ test of `compareObjectsThreeWay`). -/
def strictTripleDiff (bv lv rv : Option Json) : Bool :=
  !jsEq lv rv && !jsEq lv bv && !jsEq rv bv

/-- The guard of the arrays-with-ids special case:
`Array.isArray(localValue) && Array.isArray(remoteValue) &&
 (localValue.length > 0 || remoteValue.length > 0) &&
 (localValue[0]?.id || remoteValue[0]?.id)`. -/
def idArrayGuard (ls rs : List Json) : Bool :=
  (decide (0 < ls.length) || decide (0 < rs.length)) &&
    (truthy (getKO (ls.get? 0) "id") || truthy (getKO (rs.get? 0) "id"))

/-- `Array.isArray(baseValue) ? baseValue : []`. -/
def arrOrEmpty : Option Json → List Json
  | Option.some (Json.arr bs) => bs
  | _ => []

/-- `list.filter(item => item && item.id)`. -/
def filterWithIds (xs : List Json) : List Json :=
  xs.filter (fun i => truthy (Option.some i) && truthy (i.getK "id"))

/-- `list.find(item => item.id === id)` (structural id comparison; ids are
primitive in every configuration considered, where `===` agrees). -/
def findById (xs : List Json) (id : Option Json) : Option Json :=
  xs.find? (fun i => i.getK "id" == id)

/-- `compareObjectsThreeWay(baseObj, localObj, remoteObj, prefix)`:
3-way comparison of objects, with arrays of id-bearing items compared
per id and nested objects compared recursively. -/
def compareObjectsThreeWay (baseObj localObj remoteObj : Json)
    (pfx : String) : List Conflict :=
  let allKeys :=
    dedupStr (baseObj.keysOf ++ localObj.keysOf ++ remoteObj.keysOf)
  (allKeys.map fun key =>
    let baseValue := baseObj.getK key
    match hl : localObj.getK key, hr : remoteObj.getK key with
    | Option.some (Json.arr ls), Option.some (Json.arr rs) =>
        if idArrayGuard ls rs then
          let safeBase := filterWithIds (arrOrEmpty baseValue)
          let safeLocal := filterWithIds ls
          let safeRemote := filterWithIds rs
          let allIds := dedupIds
            (safeBase.map (·.getK "id") ++ safeLocal.map (·.getK "id") ++
              safeRemote.map (·.getK "id"))
          (allIds.map fun id =>
            match hfl : findById safeLocal id, hfr : findById safeRemote id with
            | Option.some li, Option.some ri =>
                compareObjectsThreeWay
                  (orEmptyObj (findById safeBase id)) li ri
                  (pfx ++ "." ++ key ++ "." ++ jdisplay id)
            | _, _ => []).flatten
        else
          compareObjectsThreeWay (orEmptyObj baseValue)
            (Json.arr ls) (Json.arr rs) (pfx ++ "." ++ key)
    | Option.some lv, Option.some rv =>
        if lv.objLike && rv.objLike then
          compareObjectsThreeWay (orEmptyObj baseValue) lv rv
            (pfx ++ "." ++ key)
        else if strictTripleDiff baseValue (Option.some lv) (Option.some rv) then
          [Conflict.scalar (pfx ++ "." ++ key)
            (Option.some lv) (Option.some rv) baseValue]
        else []
    | lvO, rvO =>
        if strictTripleDiff baseValue lvO rvO then
          [Conflict.scalar (pfx ++ "." ++ key) lvO rvO baseValue]
        else []).flatten
termination_by sizeOf localObj
decreasing_by
  · have h1 : li ∈ filterWithIds ls := List.mem_of_find?_eq_some hfl
    have h2 : li ∈ ls := by
      simp only [filterWithIds, List.mem_filter, Bool.and_eq_true] at h1
      exact h1.1
    have h3 : sizeOf li < sizeOf (Json.arr ls) := sizeOf_lt_of_mem_arr h2
    have h4 : sizeOf (Json.arr ls) < sizeOf localObj := sizeOf_getK_lt hl
    omega
  · exact sizeOf_getK_lt hl
  · exact sizeOf_getK_lt hl

/-- `mergeObjectFields(baseObj, localObj, remoteObj)`: per-key 3-way merge of
two records against a base, recursing into object-shaped values; strict
(`===`) comparison on the scalar branches. -/
def mergeObjectFields (baseObj localObj remoteObj : Json) : Json :=
  let allKeys :=
    dedupStr (baseObj.keysOf ++ localObj.keysOf ++ remoteObj.keysOf)
  let updates := allKeys.map fun key =>
    let bv := baseObj.getK key
    match hl : localObj.getK key, hr : remoteObj.getK key with
    | Option.some lv, Option.some rv =>
        if lv.objLike && rv.objLike then
          (key, Option.some (mergeObjectFields (orEmptyObj bv) lv rv))
        else if jsEq (Option.some lv) (Option.some rv) then
          (key, Option.some lv)
        else if jsEq (Option.some lv) bv then (key, Option.some rv)
        else if jsEq (Option.some rv) bv then (key, Option.some lv)
        else (key, Option.some rv)
    | lvO, rvO =>
        if jsEq lvO rvO then (key, lvO)
        else if jsEq lvO bv then (key, rvO)
        else if jsEq rvO bv then (key, lvO)
        else (key, rvO)
  updates.foldl (fun m kv => m.setK kv.1 kv.2)
    (spreadObj (Option.some baseObj))
termination_by sizeOf localObj
decreasing_by exact sizeOf_getK_lt hl

/-- `list.find(item => item && item.id === id)`. -/
def findTruthyById (xs : List Json) (id : Option Json) : Option Json :=
  xs.find? (fun i => truthy (Option.some i) && i.getK "id" == id)

/-- Spread `{ ...acc, ...v }` realised as assignments of `v`'s keys into
`acc` (overriding values in place, appending new keys). -/
def spreadInto (acc : Json) (v : Option Json) : Json :=
  match v with
  | Option.some j => j.keysOf.foldl (fun m k => m.setK k (j.getK k)) acc
  | Option.none => acc

/-- `mergeNestedArrayWithIds(baseArray, localArray, remoteArray)`: merge of
nested id-bearing arrays (e.g. scenes inside a chapter); the both-changed
branch does a flat per-key 3-way merge without recursing further into
arrays. -/
def mergeNestedArrayWithIds (baseArray localArray remoteArray : List Json) :
    List Json :=
  let allIds := dedupIds
    ((filterWithIds baseArray).map (·.getK "id") ++
     (filterWithIds localArray).map (·.getK "id") ++
     (filterWithIds remoteArray).map (·.getK "id"))
  (allIds.map fun id =>
    let baseItem := findTruthyById baseArray id
    let localItem := findTruthyById localArray id
    let remoteItem := findTruthyById remoteArray id
    match localItem, remoteItem with
    | Option.some li, Option.some ri =>
        if li = ri then [spreadObj (Option.some li)]
        else if truthy baseItem && (Option.some li == baseItem) then
          [spreadObj (Option.some ri)]
        else if truthy baseItem && (Option.some ri == baseItem) then
          [spreadObj (Option.some li)]
        else
          let start := spreadInto
            (spreadInto (spreadObj baseItem) (Option.some ri))
            (Option.some li)
          let keyObj := spreadInto
            (spreadInto (spreadObj baseItem) (Option.some li))
            (Option.some ri)
          [keyObj.keysOf.foldl (fun m key =>
            let baseVal := getKO baseItem key
            let localVal := li.getK key
            let remoteVal := ri.getK key
            if localVal = remoteVal then m.setK key localVal
            else if localVal = baseVal then m.setK key remoteVal
            else if remoteVal = baseVal then m.setK key localVal
            else m.setK key remoteVal) start]
    | Option.some li, Option.none => [spreadObj (Option.some li)]
    | Option.none, Option.some ri => [spreadObj (Option.some ri)]
    | Option.none, Option.none => []).flatten

/-- The value assigned by `mergeItemFields` for one key. -/
def mergeItemFieldValue (baseItem localItem remoteItem : Json)
    (key : String) : Option Json :=
  let bv := baseItem.getK key
  let lv := localItem.getK key
  let rv := remoteItem.getK key
  match lv, rv with
  | Option.some (Json.arr ls), Option.some (Json.arr rs) =>
      if idArrayGuard ls rs then
        Option.some (Json.arr (mergeNestedArrayWithIds (arrOrEmpty bv) ls rs))
      else if lv = rv then lv
      else if lv = bv then rv
      else if rv = bv then lv
      else rv
  | _, _ =>
      if lv = rv then lv
      else if lv = bv then rv
      else if rv = bv then lv
      else rv

/-- `mergeItemFields(baseItem, localItem, remoteItem)`: per-key 3-way merge
of one collection item (deep `JSON.stringify` comparison), dispatching
id-bearing array values to `mergeNestedArrayWithIds`. -/
def mergeItemFields (baseItem localItem remoteItem : Json) : Json :=
  let allKeys :=
    dedupStr (baseItem.keysOf ++ localItem.keysOf ++ remoteItem.keysOf)
  allKeys.foldl (fun merged key =>
    merged.setK key (mergeItemFieldValue baseItem localItem remoteItem key))
    (spreadObj (Option.some baseItem))

/-- `mergeSimpleField`: strict 3-way merge of one field by deep
(`JSON.stringify`) equality, defaulting to remote and recording a conflict
when all three differ. -/
def mergeSimpleField (fieldName : String)
    (baseContent localContent remoteContent merged : Json)
    (conflicts : List Conflict) : Json × List Conflict :=
  let baseValue := baseContent.getK fieldName
  let localValue := localContent.getK fieldName
  let remoteValue := remoteContent.getK fieldName
  if localValue = remoteValue then
    (merged.setK fieldName localValue, conflicts)
  else if localValue = baseValue then
    (merged.setK fieldName remoteValue, conflicts)
  else if remoteValue = baseValue then
    (merged.setK fieldName localValue, conflicts)
  else
    (merged.setK fieldName remoteValue,
     conflicts ++ [Conflict.scalar fieldName localValue remoteValue baseValue])

/-- `field || []` followed by `.map(...)`/`.filter(...)`/iteration: a falsy
value degrades to `[]`, an array is used as-is, and a truthy non-array value
makes the subsequent array-method call throw a `TypeError`. -/
def asArrThrow (v : Option Json) (methodName : String) :
    Except String (List Json) :=
  if truthy v then
    match v with
    | Option.some (Json.arr xs) => Except.ok xs
    | _ => Except.error ("TypeError: " ++ methodName ++ " is not a function")
  else Except.ok []

/-- The body of the per-id loop of `mergeArrayWithIds`: the item(s) pushed
into the merged collection for this id and the conflicts pushed for it. -/
def mergeArrayItem (fieldName : String)
    (baseArray localArray remoteArray : List Json) (id : Option Json) :
    List Json × List Conflict :=
  let baseItem := findById baseArray id
  let localItem := findById localArray id
  let remoteItem := findById remoteArray id
  match localItem, remoteItem with
  | Option.some li, Option.some ri =>
      if li = ri then ([spreadObj (Option.some li)], [])
      else if truthy baseItem && (Option.some li == baseItem) then
        ([spreadObj (Option.some ri)], [])
      else if truthy baseItem && (Option.some ri == baseItem) then
        ([spreadObj (Option.some li)], [])
      else
        let itemConflicts := compareObjectsThreeWay (orEmptyObj baseItem)
          li ri (fieldName ++ "_" ++ jdisplay id)
        let mergedItem := mergeItemFields (orEmptyObj baseItem) li ri
        ([mergedItem], itemConflicts)
  | Option.some li, Option.none =>
      if truthy baseItem then
        ([spreadObj (Option.some li)],
         [Conflict.withId (fieldName ++ "_deleted") id
           (Option.some li) (Option.some Json.null) baseItem])
      else ([spreadObj (Option.some li)], [])
  | Option.none, Option.some ri =>
      if truthy baseItem then
        ([spreadObj (Option.some ri)],
         [Conflict.withId (fieldName ++ "_deleted") id
           (Option.some Json.null) (Option.some ri) baseItem])
      else ([spreadObj (Option.some ri)], [])
  | Option.none, Option.none => ([], [])

/-- `mergeArrayWithIds(fieldName, ...)`: merge of a top-level id-bearing
collection.  Deletion of a base item by either side is reported as a
`<field>_deleted` conflict whether or not the surviving side changed the
item; an id absent from both local and remote produces no output item. -/
def mergeArrayWithIds (fieldName : String)
    (baseContent localContent remoteContent merged : Json)
    (conflicts : List Conflict) : Except String (Json × List Conflict) := do
  let baseArray ← asArrThrow (baseContent.getK fieldName) "map"
  let localArray ← asArrThrow (localContent.getK fieldName) "map"
  let remoteArray ← asArrThrow (remoteContent.getK fieldName) "map"
  let allIds := dedupIds
    (baseArray.map (·.getK "id") ++ localArray.map (·.getK "id") ++
     remoteArray.map (·.getK "id"))
  return (merged.setK fieldName (Option.some (Json.arr
            (allIds.flatMap fun id =>
              (mergeArrayItem fieldName baseArray localArray remoteArray id).1))),
          conflicts ++ (allIds.flatMap fun id =>
            (mergeArrayItem fieldName baseArray localArray remoteArray id).2))

/-- `new Set(xs)` then `mergedSet.add(x)`. -/
def setAdd (s : List Json) (x : Json) : List Json :=
  if s.contains x then s else s ++ [x]

/-- The pure set-merge logic of `mergeSimpleArray` on the three extracted
arrays: the merged element list and the `contradictions` list. -/
def mergeSimpleArrayCore (baseArray localArray remoteArray : List Json) :
    List Json × List Contra :=
  let localAdded := localArray.filter (fun x => !(baseArray.contains x))
  let remoteAdded := remoteArray.filter (fun x => !(baseArray.contains x))
  let localRemoved := baseArray.filter (fun x => !(localArray.contains x))
  let remoteRemoved := baseArray.filter (fun x => !(remoteArray.contains x))
  let s0 := (localAdded ++ remoteAdded).foldl setAdd (dedupJ baseArray)
  let s1 := localRemoved.foldl (fun s x =>
    if remoteAdded.contains x then s else s.filter (fun y => y ≠ x)) s0
  let s2 := remoteRemoved.foldl (fun s x =>
    if localAdded.contains x then s else s.filter (fun y => y ≠ x)) s1
  let contradictions :=
    (localAdded.filter (fun x => remoteRemoved.contains x)).map
      (fun x => Contra.mk x "added" "removed") ++
    (remoteAdded.filter (fun x => localRemoved.contains x)).map
      (fun x => Contra.mk x "removed" "added")
  (s2, contradictions)

/-- `mergeSimpleArray(fieldName, ...)`: set-semantics merge of an unordered
scalar collection. -/
def mergeSimpleArray (fieldName : String)
    (baseContent localContent remoteContent merged : Json)
    (conflicts : List Conflict) : Except String (Json × List Conflict) := do
  let baseArray ← asArrThrow (baseContent.getK fieldName) "iterate"
  let localArray ← asArrThrow (localContent.getK fieldName) "filter"
  let remoteArray ← asArrThrow (remoteContent.getK fieldName) "filter"
  let core := mergeSimpleArrayCore baseArray localArray remoteArray
  let newConflicts :=
    if core.2.length > 0 then
      conflicts ++ [Conflict.arrayContra (fieldName ++ "_array") core.2]
    else conflicts
  return (merged.setK fieldName (Option.some (Json.arr core.1)), newConflicts)

/-- The body of the per-key loop of `mergeObject`: the value assigned to
`merged[fieldName][key]` and the conflicts pushed for this key. -/
def mergeObjectKey (baseObj localObj remoteObj : Json)
    (fieldName key : String) : Option Json × List Conflict :=
  let bv := baseObj.getK key
  let lv := localObj.getK key
  let rv := remoteObj.getK key
  match lv, rv with
  | Option.some lvj, Option.some rvj =>
      if lvj.objLike && rvj.objLike then
        (Option.some (mergeObjectFields (orEmptyObj bv) lvj rvj),
         compareObjectsThreeWay (orEmptyObj bv) lvj rvj
           (fieldName ++ "." ++ key))
      else if jsEq lv rv then (lv, [])
      else if jsEq lv bv then (rv, [])
      else if jsEq rv bv then (lv, [])
      else (rv, [Conflict.scalar (fieldName ++ "." ++ key) lv rv bv])
  | _, _ =>
      if jsEq lv rv then (lv, [])
      else if jsEq lv bv then (rv, [])
      else if jsEq rv bv then (lv, [])
      else (rv, [Conflict.scalar (fieldName ++ "." ++ key) lv rv bv])

/-- `mergeObject(fieldName, ...)`: per-key 3-way merge of a known nested
record field, recursing into object-shaped values and using strict (`===`)
comparison on the scalar branches. -/
def mergeObject (fieldName : String)
    (baseContent localContent remoteContent merged : Json)
    (conflicts : List Conflict) : Json × List Conflict :=
  let baseObj := orEmptyObj (baseContent.getK fieldName)
  let localObj := orEmptyObj (localContent.getK fieldName)
  let remoteObj := orEmptyObj (remoteContent.getK fieldName)
  let allKeys :=
    dedupStr (baseObj.keysOf ++ localObj.keysOf ++ remoteObj.keysOf)
  let inner := allKeys.foldl (fun inner key =>
    inner.setK key (mergeObjectKey baseObj localObj remoteObj fieldName key).1)
    baseObj
  (merged.setK fieldName (Option.some inner),
   conflicts ++ (allKeys.flatMap fun key =>
     (mergeObjectKey baseObj localObj remoteObj fieldName key).2))

/-- The fields handled explicitly by `mergeContent`. -/
def handledFields : List String :=
  ["title", "author", "scenes", "characters", "chapters", "parts",
   "locations", "backgroundFolders", "frontMatter",
   "characterDetectionBlacklist", "template", "github", "metadata",
   "collaboration"]

/-- `mergeRemainingFields`: generic scalar merge of every field of any of
the three documents that is not in the known-field set. -/
def mergeRemainingFields (baseContent localContent remoteContent merged : Json)
    (conflicts : List Conflict) : Json × List Conflict :=
  let allKeys := dedupStr
    (baseContent.keysOf ++ localContent.keysOf ++ remoteContent.keysOf)
  allKeys.foldl (fun (acc : Json × List Conflict) key =>
    if handledFields.contains key then acc
    else mergeSimpleField key baseContent localContent remoteContent
      acc.1 acc.2) (merged, conflicts)

structure MergeResult where
  content : Json
  hasConflicts : Bool
  conflicts : List Conflict
deriving Repr, DecidableEq

/-- `mergeContent(baseContent, remoteContent, localContent)`: the top-level
3-way merge.  It starts from a deep clone of the base and merges every known
schema field, then the remaining fields; a thrown `TypeError` (e.g. a truthy
non-array value in a known collection field) is modelled by
`Except.error`. -/
def mergeContent (baseContent remoteContent localContent : Json) :
    Except String MergeResult := do
  let merged := baseContent
  let s1 := mergeSimpleField "title" baseContent localContent remoteContent
    merged []
  let s2 := mergeSimpleField "author" baseContent localContent remoteContent
    s1.1 s1.2
  let s3 ← mergeArrayWithIds "scenes" baseContent localContent remoteContent
    s2.1 s2.2
  let s4 ← mergeArrayWithIds "characters" baseContent localContent
    remoteContent s3.1 s3.2
  let s5 ← mergeArrayWithIds "chapters" baseContent localContent
    remoteContent s4.1 s4.2
  let s6 ← mergeArrayWithIds "parts" baseContent localContent remoteContent
    s5.1 s5.2
  let s7 ← mergeArrayWithIds "locations" baseContent localContent
    remoteContent s6.1 s6.2
  let s8 ← mergeArrayWithIds "backgroundFolders" baseContent localContent
    remoteContent s7.1 s7.2
  let s9 ← mergeArrayWithIds "frontMatter" baseContent localContent
    remoteContent s8.1 s8.2
  let s10 ← mergeSimpleArray "characterDetectionBlacklist" baseContent
    localContent remoteContent s9.1 s9.2
  let s11 := mergeObject "template" baseContent localContent remoteContent
    s10.1 s10.2
  let s12 := mergeObject "github" baseContent localContent remoteContent
    s11.1 s11.2
  let s13 := mergeObject "metadata" baseContent localContent remoteContent
    s12.1 s12.2
  let s14 := mergeObject "collaboration" baseContent localContent
    remoteContent s13.1 s13.2
  let s15 := mergeRemainingFields baseContent localContent remoteContent
    s14.1 s14.2
  return MergeResult.mk s15.1 (decide (0 < s15.2.length)) s15.2

/-- `detectConflicts(localContent, remoteContent)`: the pairwise diff used
for UI preview.  Title conflicts require both titles truthy; scene-content
conflicts are driven by the local scene list and use bare strict inequality
of contents; character conflicts require both field values truthy. -/
def detectConflicts (localContent remoteContent : Json) :
    Except String (List Conflict) := do
  let titleConfs :=
    if truthy (localContent.getK "title") &&
       truthy (remoteContent.getK "title") &&
       !jsEq (localContent.getK "title") (remoteContent.getK "title") then
      [Conflict.scalar "title" (localContent.getK "title")
        (remoteContent.getK "title") Option.none]
    else []
  let sceneConfs ←
    if truthy (localContent.getK "scenes") &&
       truthy (remoteContent.getK "scenes") then do
      let ls ← asArrThrow (localContent.getK "scenes") "iterate"
      match ls with
      | [] => pure ([] : List Conflict)
      | _ => do
        let rs ← asArrThrow (remoteContent.getK "scenes") "find"
        pure (ls.flatMap fun localScene =>
          match rs.find? (fun s => s.getK "id" == localScene.getK "id") with
          | Option.some remoteScene =>
              if !jsEq (localScene.getK "content")
                   (remoteScene.getK "content") then
                [Conflict.mk "scene_content" (localScene.getK "content")
                  (remoteScene.getK "content") Option.none
                  (localScene.getK "id") Option.none []]
              else []
          | Option.none => [])
    else pure []
  let charConfs ←
    if truthy (localContent.getK "characters") &&
       truthy (remoteContent.getK "characters") then do
      let ls ← asArrThrow (localContent.getK "characters") "iterate"
      match ls with
      | [] => pure ([] : List Conflict)
      | _ => do
        let rs ← asArrThrow (remoteContent.getK "characters") "find"
        pure (ls.flatMap fun localChar =>
          match rs.find? (fun c => c.getK "id" == localChar.getK "id") with
          | Option.some remoteChar =>
              ["name", "description", "notes"].flatMap fun f =>
                if truthy (localChar.getK f) && truthy (remoteChar.getK f) &&
                   !jsEq (localChar.getK f) (remoteChar.getK f) then
                  [Conflict.charField (localChar.getK "id") f
                    (localChar.getK f) (remoteChar.getK f)]
                else []
          | Option.none => [])
    else pure []
  return titleConfs ++ sceneConfs ++ charConfs

/-!
## Sync coordinator (`safeSyncWithRepository` of the enhanced GitHub service)

The external repository store (GitHub API wrappers) is modelled by an
environment of responses indexed by the attempt number (0 = first pass,
1 = the automatic retry, for which the SHA caches have been cleared and all
remote state is re-fetched).  Network writes performed by
`pushToRepository` are recorded in an explicit `pushes` log.
-/

/-- `hay.includes(needle)` (String.prototype.includes). -/
def strIncludes (hay needle : String) : Bool :=
  decide (needle.data <:+: hay.data)

/-- Outcome of `pushToRepository`: `{success: true, commitSha}` or
`{success: false, error}`. -/
inductive PushOutcome where
  | ok (commitSha : Option String) : PushOutcome
  | fail (msg : String) : PushOutcome
deriving Repr, DecidableEq

/-- Responses of the external repository store, per attempt. -/
structure SyncEnv where
  remoteBook : Nat → Option Json
  baseAtSha : Nat → Option Json
  pushResult : Nat → PushOutcome
  latestSha : Nat → Option String

/-- The result object returned by `safeSyncWithRepository` /
`resolveConflictsAndSync`; absent properties are `none`. -/
structure SyncResult where
  success : Bool
  conflicts : Option (List Conflict)
  error : Option String
  requiresResolution : Bool
  remoteContent : Option Json
  mergedContent : Option Json
  wasPushed : Option Bool
deriving Repr, DecidableEq

/-- One pass of `safeSyncWithRepository` at a given `retryCount`:
the `retry` flag is set exactly when the source re-invokes itself
(`error includes 'does not match'` and `retryCount === 0`); in that case
`result` holds the error result the source would return were the retry
guard false. -/
structure PassOut where
  result : SyncResult
  retry : Bool
  pushes : List Json
deriving Repr

/-- Strip the sync-marker fields:
`delete doc.github?.lastSyncedContent; delete doc.github?.lastSyncCommitSha`
(applied to fresh `JSON.parse(JSON.stringify(doc))` clones in the
source). -/
def stripSyncMeta (j : Json) : Json :=
  match j.getK "github" with
  | Option.some g =>
      if g.objLike then
        j.setK "github"
          (Option.some ((g.delK "lastSyncedContent").delK "lastSyncCommitSha"))
      else j
  | Option.none => j

/-- Stamp the merged document:
`content.github = { ...content.github, lastSyncCommitSha: sha }`, then
delete the legacy `lastSyncedContent` snapshot if (truthily) present
(the source re-reads `content.github`, which is the freshly assigned
spread object). -/
def stampSha (content : Json) (sha : Option Json) : Json :=
  let g2 := (spreadObj (content.getK "github")).setK "lastSyncCommitSha" sha
  if truthy (g2.getK "lastSyncedContent") then
    content.setK "github" (Option.some (g2.delK "lastSyncedContent"))
  else
    content.setK "github" (Option.some g2)

/-- The base document selected for the 3-way merge (before stripping):
the file at the stored `lastSyncCommitSha` when that marker is (truthily)
present, else the legacy `lastSyncedContent` snapshot, else the remote
document itself. -/
def syncBaseRaw (env : SyncEnv) (bookData : Json) (attempt : Nat) : Json :=
  let remoteBookData := (env.remoteBook attempt).getD Json.null
  let base0 : Option Json :=
    if truthy (getKO (bookData.getK "github") "lastSyncCommitSha") then
      env.baseAtSha attempt
    else Option.none
  let base1 : Option Json :=
    if !truthy base0 &&
       truthy (getKO (bookData.getK "github") "lastSyncedContent") then
      getKO (bookData.getK "github") "lastSyncedContent"
    else base0
  let base2 : Option Json :=
    if !truthy base1 then Option.some remoteBookData else base1
  base2.getD Json.null

/-- The stripped base actually handed to `mergeContent`. -/
def syncBaseContent (env : SyncEnv) (bookData : Json) (attempt : Nat) : Json :=
  stripSyncMeta (syncBaseRaw env bookData attempt)

/-- The stripped remote actually handed to `mergeContent`. -/
def syncCleanRemote (env : SyncEnv) (attempt : Nat) : Json :=
  stripSyncMeta ((env.remoteBook attempt).getD Json.null)

/-- One body execution of `safeSyncWithRepository(repository, bookData,
commitMessage, currentFilePath, retryCount)`.  The surrounding
`try`/`catch` converts a thrown merge `TypeError` into
`{success: false, error}`. -/
def syncPass (env : SyncEnv) (bookData : Json) (attempt : Nat) : PassOut :=
  let remoteO := env.remoteBook attempt
  if !truthy remoteO then
    -- no remote content, safe to push directly
    match env.pushResult attempt with
    | PushOutcome.ok _ =>
        PassOut.mk (SyncResult.mk true (Option.some []) Option.none false
          Option.none Option.none Option.none) false [bookData]
    | PushOutcome.fail m =>
        PassOut.mk (SyncResult.mk false (Option.some []) (Option.some m) false
          Option.none Option.none Option.none) false [bookData]
  else
    let baseContent := syncBaseContent env bookData attempt
    let cleanRemote := syncCleanRemote env attempt
    let cleanLocal := stripSyncMeta bookData
    match mergeContent baseContent cleanRemote cleanLocal with
    | Except.error e =>
        PassOut.mk (SyncResult.mk false Option.none (Option.some e) false
          Option.none Option.none Option.none) false []
    | Except.ok mergeResult =>
        if mergeResult.hasConflicts then
          PassOut.mk (SyncResult.mk false (Option.some mergeResult.conflicts)
            Option.none true (Option.some cleanRemote) Option.none
            Option.none) false []
        else
          let mergedContentClean := stripSyncMeta mergeResult.content
          if mergedContentClean ≠ cleanRemote then
            match env.pushResult attempt with
            | PushOutcome.fail m =>
                PassOut.mk (SyncResult.mk false (Option.some [])
                    (Option.some m) false Option.none Option.none Option.none)
                  (strIncludes m "does not match" && attempt == 0)
                  [mergeResult.content]
            | PushOutcome.ok shaO =>
                let content2 := stampSha mergeResult.content (shaO.map Json.str)
                PassOut.mk (SyncResult.mk true (Option.some []) Option.none
                    false Option.none (Option.some content2)
                    (Option.some true)) false [mergeResult.content]
          else
            let shaJ : Json :=
              match env.latestSha attempt with
              | Option.some s => Json.str s
              | Option.none => Json.null
            let content2 := stampSha mergeResult.content (Option.some shaJ)
            PassOut.mk (SyncResult.mk true (Option.some []) Option.none false
              Option.none (Option.some content2) (Option.some false)) false []

/-- The final outcome of a call to `safeSyncWithRepository` together with
the log of network writes and the number of passes executed. -/
structure SyncRun where
  result : SyncResult
  pushes : List Json
  attempts : Nat
deriving Repr

/-- `safeSyncWithRepository`: runs the pass at `retryCount = 0`; on a
stale-marker push rejection it re-runs once at `retryCount = 1` (a pass at
`retryCount = 1` never sets `retry`, since the source guard requires
`retryCount === 0`). -/
def safeSyncWithRepository (env : SyncEnv) (bookData : Json) : SyncRun :=
  let p0 := syncPass env bookData 0
  if p0.retry then
    let p1 := syncPass env bookData 1
    SyncRun.mk p1.result (p0.pushes ++ p1.pushes) 2
  else SyncRun.mk p0.result p0.pushes 1

/-! ## Infrastructure lemmas about the embedded JavaScript primitives -/

theorem find?_map_update {kvs : List (String × Json)} {k : String}
    (w : Json) (h : kvs.any (fun p => p.1 == k) = true) :
    ((kvs.map (fun p => if p.1 == k then (k, w) else p)).find?
      (fun p => p.1 == k)) = Option.some (k, w) := by
  induction kvs with
  | nil => simp at h
  | cons p rest ih =>
    by_cases hk : p.1 = k
    · have hk' : (p.1 == k) = true := by simpa using hk
      simp only [List.map, hk', if_true]
      exact List.find?_cons_of_pos _ (by simp)
    · have hk' : (p.1 == k) = false := by simpa using hk
      simp only [List.map, hk', if_false]
      rw [List.find?_cons_of_neg _ (by simp [hk'])]
      simp only [List.any_cons, hk', Bool.false_or] at h
      exact ih h

theorem getK_setK_self (kvs : List (String × Json)) (k : String)
    (v : Option Json) : ((Json.obj kvs).setK k v).getK k = v := by
  cases v with
  | some w =>
    simp only [Json.setK]
    by_cases h : kvs.any (fun p => p.1 == k) = true
    · rw [if_pos h]
      simp only [Json.getK]
      rw [find?_map_update w h]
      rfl
    · rw [if_neg h]
      simp only [Json.getK]
      have hfind : kvs.find? (fun p => p.1 == k) = Option.none := by
        rw [List.find?_eq_none]
        intro p hp hpk
        exact h (List.any_eq_true.mpr ⟨p, hp, hpk⟩)
      rw [List.find?_append, hfind]
      simp [List.find?_cons_of_pos]
  | none =>
    simp only [Json.setK, Json.getK]
    have : (kvs.filter (fun p => p.1 != k)).find? (fun p => p.1 == k) =
        Option.none := by
      rw [List.find?_eq_none]
      intro p hp
      have := (List.mem_filter.mp hp).2
      simpa using this
    rw [this]
    rfl

theorem find?_map_update_ne {kvs : List (String × Json)} {k k' : String}
    (w : Json) (hne : k' ≠ k) :
    ((kvs.map (fun p => if p.1 == k then (k, w) else p)).find?
      (fun p => p.1 == k')) = kvs.find? (fun p => p.1 == k') := by
  induction kvs with
  | nil => rfl
  | cons p rest ih =>
    by_cases hpk : p.1 = k
    · have h1 : (p.1 == k) = true := by simpa using hpk
      simp only [List.map, h1, if_true]
      rw [List.find?_cons_of_neg _ (by simpa using (Ne.symm hne)),
        List.find?_cons_of_neg _
          (by simp only [hpk]; simpa using (Ne.symm hne))]
      exact ih
    · have h1 : (p.1 == k) = false := by simpa using hpk
      simp only [List.map, h1, if_false]
      by_cases hp' : p.1 = k'
      · rw [List.find?_cons_of_pos _ (by simpa using hp'),
          List.find?_cons_of_pos _ (by simpa using hp')]
        simp
      · rw [List.find?_cons_of_neg _ (by simpa using hp'),
          List.find?_cons_of_neg _ (by simpa using hp')]
        exact ih

theorem find?_filter_ne {kvs : List (String × Json)} {k k' : String}
    (hne : k' ≠ k) :
    ((kvs.filter (fun p => p.1 != k)).find? (fun p => p.1 == k')) =
      kvs.find? (fun p => p.1 == k') := by
  induction kvs with
  | nil => rfl
  | cons p rest ih =>
    by_cases hpk : p.1 = k
    · have h1 : (p.1 != k) = false := by simp [hpk]
      simp only [List.filter, h1]
      rw [List.find?_cons_of_neg _
        (by simp only [hpk]; simpa using (Ne.symm hne))]
      exact ih
    · have h1 : (p.1 != k) = true := by simpa using hpk
      simp only [List.filter, h1]
      by_cases hp' : p.1 = k'
      · rw [List.find?_cons_of_pos _ (by simpa using hp'),
          List.find?_cons_of_pos _ (by simpa using hp')]
      · rw [List.find?_cons_of_neg _ (by simpa using hp'),
          List.find?_cons_of_neg _ (by simpa using hp')]
        exact ih

theorem getK_setK_ne (kvs : List (String × Json)) {k k' : String}
    (v : Option Json) (hne : k' ≠ k) :
    ((Json.obj kvs).setK k v).getK k' = (Json.obj kvs).getK k' := by
  cases v with
  | some w =>
    simp only [Json.setK]
    by_cases h : kvs.any (fun p => p.1 == k) = true
    · rw [if_pos h]
      simp only [Json.getK]
      rw [find?_map_update_ne w hne]
    · rw [if_neg h]
      simp only [Json.getK]
      rw [List.find?_append]
      cases hfind : kvs.find? (fun p => p.1 == k') with
      | some q => rfl
      | none =>
        simp only [Option.none_or]
        rw [List.find?_cons_of_neg _ (by simpa using (Ne.symm hne))]
        rfl
  | none =>
    simp only [Json.setK, Json.getK]
    rw [find?_filter_ne hne]

theorem mem_dedupSeen {α : Type} [DecidableEq α] :
    ∀ (seen l : List α) (x : α),
      x ∈ dedupSeen seen l ↔ x ∈ l ∧ x ∉ seen := by
  intro seen l
  induction l generalizing seen with
  | nil => intro x; simp [dedupSeen]
  | cons a rest ih =>
    intro x
    by_cases ha : a ∈ seen
    · rw [dedupSeen, if_pos ha, ih]
      constructor
      · rintro ⟨h1, h2⟩; exact ⟨List.mem_cons_of_mem _ h1, h2⟩
      · rintro ⟨h1, h2⟩
        rcases List.mem_cons.mp h1 with h | h
        · exact absurd (h ▸ ha) h2
        · exact ⟨h, h2⟩
    · rw [dedupSeen, if_neg ha]
      constructor
      · intro h
        rcases List.mem_cons.mp h with h | h
        · exact ⟨h ▸ List.mem_cons_self _ _, h ▸ ha⟩
        · have := (ih _ x).mp h
          refine ⟨List.mem_cons_of_mem _ this.1, ?_⟩
          intro hx
          exact this.2 (by simp [hx])
      · rintro ⟨h1, h2⟩
        rcases List.mem_cons.mp h1 with h | h
        · exact h ▸ List.mem_cons_self _ _
        · by_cases hxa : x = a
          · exact hxa ▸ List.mem_cons_self _ _
          · exact List.mem_cons_of_mem _
              ((ih _ x).mpr ⟨h, by simp [h2, hxa]⟩)

theorem nodup_dedupSeen {α : Type} [DecidableEq α] :
    ∀ (seen l : List α), (dedupSeen seen l).Nodup := by
  intro seen l
  induction l generalizing seen with
  | nil => simp [dedupSeen]
  | cons a rest ih =>
    by_cases ha : a ∈ seen
    · rw [dedupSeen, if_pos ha]; exact ih _
    · rw [dedupSeen, if_neg ha]
      refine List.nodup_cons.mpr ⟨?_, ih _⟩
      intro hmem
      have := (mem_dedupSeen _ _ _).mp hmem
      exact this.2 (by simp)

theorem dedupSeen_congr {α : Type} [DecidableEq α] :
    ∀ (s1 s2 l : List α), (∀ x, x ∈ s1 ↔ x ∈ s2) →
      dedupSeen s1 l = dedupSeen s2 l := by
  intro s1 s2 l
  induction l generalizing s1 s2 with
  | nil => intro _; rfl
  | cons a rest ih =>
    intro h
    by_cases ha : a ∈ s1
    · rw [dedupSeen, if_pos ha, dedupSeen, if_pos ((h a).mp ha)]
      exact ih _ _ h
    · rw [dedupSeen, if_neg ha, dedupSeen,
        if_neg (fun hx => ha ((h a).mpr hx))]
      refine congrArg _ (ih _ _ ?_)
      intro x
      simp only [List.mem_append, List.mem_singleton]
      exact Iff.or (h x) Iff.rfl

theorem dedupSeen_append {α : Type} [DecidableEq α] :
    ∀ (seen l1 l2 : List α),
      dedupSeen seen (l1 ++ l2) =
        dedupSeen seen l1 ++ dedupSeen (seen ++ l1) l2 := by
  intro seen l1 l2
  induction l1 generalizing seen with
  | nil =>
    simp only [List.nil_append, dedupSeen, List.append_nil]
  | cons a rest ih =>
    by_cases ha : a ∈ seen
    · rw [List.cons_append, dedupSeen, if_pos ha, dedupSeen, if_pos ha, ih]
      refine congrArg _ (dedupSeen_congr _ _ _ ?_)
      intro x
      simp only [List.mem_append, List.mem_cons]
      constructor
      · rintro (h | h)
        · exact Or.inl h
        · exact Or.inr (Or.inr h)
      · rintro (h | h | h)
        · exact Or.inl h
        · exact Or.inl (h ▸ ha)
        · exact Or.inr h
    · rw [List.cons_append, dedupSeen, if_neg ha, dedupSeen, if_neg ha, ih]
      rw [List.cons_append]
      refine congrArg _ (congrArg _ (dedupSeen_congr _ _ _ ?_))
      intro x
      simp only [List.mem_append, List.mem_cons, List.mem_singleton]
      tauto

theorem dedupSeen_of_nodup {α : Type} [DecidableEq α] :
    ∀ (seen l : List α), l.Nodup → (∀ x ∈ l, x ∉ seen) →
      dedupSeen seen l = l := by
  intro seen l
  induction l generalizing seen with
  | nil => intro _ _; rfl
  | cons a rest ih =>
    intro hnd hdisj
    rw [dedupSeen, if_neg (hdisj a (List.mem_cons_self _ _))]
    refine congrArg _ (ih _ (List.nodup_cons.mp hnd).2 ?_)
    intro x hx
    simp only [List.mem_append, List.mem_singleton]
    rintro (h | h)
    · exact hdisj x (List.mem_cons_of_mem _ hx) h
    · exact (List.nodup_cons.mp hnd).1 (h ▸ hx)

theorem dedupSeen_filter {α : Type} [DecidableEq α] :
    ∀ (seen l : List α), l.Nodup →
      dedupSeen seen l = l.filter (fun x => decide (x ∉ seen)) := by
  intro seen l
  induction l generalizing seen with
  | nil => intro _; rfl
  | cons a rest ih =>
    intro hnd
    by_cases ha : a ∈ seen
    · rw [dedupSeen, if_pos ha, List.filter_cons,
        if_neg (by simpa using ha)]
      exact ih _ (List.nodup_cons.mp hnd).2
    · rw [dedupSeen, if_neg ha, List.filter_cons,
        if_pos (by simpa using ha)]
      rw [ih _ (List.nodup_cons.mp hnd).2]
      refine congrArg _ (List.filter_congr ?_)
      intro x hx
      have hxa : x ≠ a := fun h => (List.nodup_cons.mp hnd).1 (h ▸ hx)
      simp [hxa, ha]

theorem dedupSeen_all_seen {α : Type} [DecidableEq α] :
    ∀ (seen l : List α), (∀ x ∈ l, x ∈ seen) → dedupSeen seen l = [] := by
  intro seen l
  induction l generalizing seen with
  | nil => intro _; rfl
  | cons a rest ih =>
    intro h
    rw [dedupSeen, if_pos (h a (List.mem_cons_self _ _))]
    exact ih _ (fun x hx => h x (List.mem_cons_of_mem _ hx))

/-- Object test for documents. -/
def Json.isObjB : Json → Bool
  | Json.obj _ => true
  | _ => false

theorem setK_obj_shape (kvs : List (String × Json)) (k : String)
    (v : Option Json) : ∃ kvs', (Json.obj kvs).setK k v = Json.obj kvs' := by
  cases v with
  | some w =>
    simp only [Json.setK]
    by_cases h : kvs.any (fun p => p.1 == k) = true
    · exact ⟨_, by rw [if_pos h]⟩
    · exact ⟨_, by rw [if_neg h]⟩
  | none => exact ⟨_, rfl⟩

/-- Folding key-wise assignments over an object: a key not in the list is
untouched. -/
theorem foldl_setK_not_mem (keys : List String) (g : String → Option Json)
    (kvs : List (String × Json)) {k : String} (hk : k ∉ keys) :
    (keys.foldl (fun m key => m.setK key (g key)) (Json.obj kvs)).getK k =
      (Json.obj kvs).getK k := by
  induction keys generalizing kvs with
  | nil => rfl
  | cons a rest ih =>
    simp only [List.foldl_cons]
    obtain ⟨kvs', h'⟩ := setK_obj_shape kvs a (g a)
    rw [h', ih _ (fun hmem => hk (List.mem_cons_of_mem _ hmem)), ← h']
    exact getK_setK_ne kvs (g a) (fun he => hk (he ▸ List.mem_cons_self _ _))

/-- Folding key-wise assignments over an object: a key in a duplicate-free
list ends up with its assigned value. -/
theorem foldl_setK_mem (keys : List String) (g : String → Option Json)
    (kvs : List (String × Json)) {k : String} (hnd : keys.Nodup)
    (hk : k ∈ keys) :
    (keys.foldl (fun m key => m.setK key (g key)) (Json.obj kvs)).getK k =
      g k := by
  induction keys generalizing kvs with
  | nil => exact absurd hk (List.not_mem_nil k)
  | cons a rest ih =>
    simp only [List.foldl_cons]
    obtain ⟨kvs', h'⟩ := setK_obj_shape kvs a (g a)
    rcases List.mem_cons.mp hk with h | h
    · subst h
      rw [h', foldl_setK_not_mem _ _ _ (List.nodup_cons.mp hnd).1, ← h']
      exact getK_setK_self kvs k (g k)
    · rw [h']
      exact ih _ (List.nodup_cons.mp hnd).2 h

/-- The folded object is still an object. -/
theorem foldl_setK_shape (keys : List String) (g : String → Option Json)
    (kvs : List (String × Json)) :
    ∃ kvs', (keys.foldl (fun m key => m.setK key (g key)) (Json.obj kvs)) =
      Json.obj kvs' := by
  induction keys generalizing kvs with
  | nil => exact ⟨kvs, rfl⟩
  | cons a rest ih =>
    simp only [List.foldl_cons]
    obtain ⟨kvs', h'⟩ := setK_obj_shape kvs a (g a)
    rw [h']
    exact ih kvs'

/-- `setK` writing back the value already present is the identity (on an
object with duplicate-free keys). -/
theorem setK_getK_self {kvs : List (String × Json)} (k : String)
    (hnd : (kvs.map Prod.fst).Nodup) :
    (Json.obj kvs).setK k ((Json.obj kvs).getK k) = Json.obj kvs := by
  cases hfind : (Json.obj kvs).getK k with
  | none =>
    simp only [Json.setK]
    refine congrArg _ (List.filter_eq_self.mpr ?_)
    intro p hp
    simp only [Json.getK, Option.map_eq_none'] at hfind
    have := List.find?_eq_none.mp hfind p hp
    simpa using this
  | some w =>
    simp only [Json.getK, Option.map_eq_some'] at hfind
    obtain ⟨p, hp, hv⟩ := hfind
    have hpm := List.mem_of_find?_eq_some hp
    have hpk : p.1 = k := by simpa using List.find?_some hp
    simp only [Json.setK]
    rw [if_pos (List.any_eq_true.mpr ⟨p, hpm, by simpa using hpk⟩)]
    refine congrArg _ ?_
    obtain ⟨k1, w1⟩ := p
    simp only at hpk hv
    subst hpk
    subst hv
    have hall : ∀ q ∈ kvs, (if q.1 == k1 then (k1, w1) else q) = q := by
      intro q hq
      by_cases hqk : q.1 = k1
      · have heq : q = (k1, w1) := by
          obtain ⟨q1, q2⟩ := q
          simp only at hqk
          subst hqk
          have := List.inj_on_of_nodup_map hnd hq hpm (by simp)
          simpa using this
        rw [heq, if_pos (by simp)]
      · rw [if_neg (by simpa using hqk)]
    calc (kvs.map (fun p => if p.1 == k1 then (k1, w1) else p)) =
        kvs.map id := List.map_congr_left hall
      _ = kvs := List.map_id kvs

/-- `findById` on the head id of an id-bearing list. -/
theorem findById_cons_self (x : Json) (xs : List Json) :
    findById (x :: xs) (x.getK "id") = Option.some x := by
  simp [findById, List.find?_cons_of_pos]

/-- Mapping `findById` back over the id list of a list with duplicate-free
ids recovers the original items. -/
theorem findById_map_ids {xs : List Json}
    (hnd : (xs.map (fun x => x.getK "id")).Nodup) :
    (xs.map (fun x => x.getK "id")).map (fun id => findById xs id) =
      xs.map Option.some := by
  induction xs with
  | nil => rfl
  | cons x rest ih =>
    simp only [List.map_cons] at hnd ⊢
    rw [findById_cons_self]
    refine congrArg _ ?_
    have hx : x.getK "id" ∉ rest.map (fun x => x.getK "id") :=
      (List.nodup_cons.mp hnd).1
    have step : ∀ id ∈ rest.map (fun x => x.getK "id"),
        findById (x :: rest) id = findById rest id := by
      intro id hid
      have hne : (x.getK "id" == id) = false := by
        simp only [beq_eq_false_iff_ne, ne_eq]
        intro he
        exact hx (he ▸ hid)
      simp [findById, List.find?_cons_of_neg, hne]
    calc (rest.map (fun x => x.getK "id")).map (fun id => findById (x :: rest) id)
        = (rest.map (fun x => x.getK "id")).map (fun id => findById rest id) :=
          List.map_congr_left step
      _ = rest.map Option.some := ih (List.nodup_cons.mp hnd).2

/-!
## Claim C5 — the four-branch rule of `mergeSimpleField`
-/

/-- The §4.1 `merge3` value rule, written from the specification's words
(refinement target for C5): deep-equal local/remote keep the value; one
side unchanged yields the other side; otherwise the value defaults to
remote and exactly one conflict is recorded. -/
def valueMerge3Spec (b l r : Option Json) : Option Json × Bool :=
  if l = r then (l, false)
  else if l = b then (r, false)
  else if r = b then (l, false)
  else (r, true)

/-- C5: `mergeSimpleField` follows the strict four-branch 3-way rule: equal
local/remote win, an unchanged side yields the other side's value, and in
the all-differ case it records exactly one conflict carrying the field name
as type with the local, remote and base values, the merged value defaulting
to remote. -/
theorem C5_mergeSimpleField_four_branch_rule
    (fieldName : String) (baseContent localContent remoteContent merged : Json)
    (conflicts : List Conflict) :
    mergeSimpleField fieldName baseContent localContent remoteContent merged
        conflicts =
      (merged.setK fieldName
        (valueMerge3Spec (baseContent.getK fieldName)
          (localContent.getK fieldName) (remoteContent.getK fieldName)).1,
       if (valueMerge3Spec (baseContent.getK fieldName)
            (localContent.getK fieldName) (remoteContent.getK fieldName)).2 then
         conflicts ++ [Conflict.scalar fieldName (localContent.getK fieldName)
           (remoteContent.getK fieldName) (baseContent.getK fieldName)]
       else conflicts) := by
  simp only [mergeSimpleField, valueMerge3Spec]
  split_ifs <;> simp_all

/-!
## Claim C2 — `mergeSimpleArray` contradictions

The contradiction detection of `mergeSimpleArray` is vacuous: an element
"added" by one side is by construction absent from the base, while an
element "removed" by the other side is by construction present in the base,
so the two lists intersected by the detection code are always disjoint.
-/

theorem mem_setAdd (s : List Json) (x y : Json) :
    y ∈ setAdd s x ↔ y ∈ s ∨ y = x := by
  by_cases h : s.contains x
  · rw [setAdd, if_pos h]
    constructor
    · exact Or.inl
    · rintro (hy | hy)
      · exact hy
      · subst hy; simpa using h
  · rw [setAdd, if_neg h]
    simp

theorem mem_foldl_setAdd (xs : List Json) (s : List Json) (y : Json) :
    y ∈ xs.foldl setAdd s ↔ y ∈ s ∨ y ∈ xs := by
  induction xs generalizing s with
  | nil => simp
  | cons a rest ih =>
    simp only [List.foldl_cons]
    rw [ih, mem_setAdd]
    simp only [List.mem_cons]
    tauto

theorem mem_foldl_removeAll (del guard s : List Json)
    (hdisj : ∀ x ∈ del, guard.contains x = false) (y : Json) :
    y ∈ del.foldl (fun s x =>
        if guard.contains x then s else s.filter (fun z => z ≠ x)) s ↔
      y ∈ s ∧ y ∉ del := by
  induction del generalizing s with
  | nil => simp
  | cons a rest ih =>
    simp only [List.foldl_cons]
    rw [hdisj a (List.mem_cons_self _ _)]
    simp only [Bool.false_eq_true, if_false]
    rw [ih _ (fun x hx => hdisj x (List.mem_cons_of_mem _ hx))]
    simp only [List.mem_filter, List.mem_cons, decide_eq_true_eq]
    constructor
    · rintro ⟨⟨h1, h2⟩, h3⟩
      exact ⟨h1, by rintro (h | h) <;> [exact h2 h; exact h3 h]⟩
    · rintro ⟨h1, h2⟩
      exact ⟨⟨h1, fun h => h2 (Or.inl h)⟩, fun h => h2 (Or.inr h)⟩

/-- The contradictions list of the set merge is always empty. -/
theorem mergeSimpleArrayCore_no_contradictions
    (bs ls rs : List Json) : (mergeSimpleArrayCore bs ls rs).2 = [] := by
  simp only [mergeSimpleArrayCore]
  rw [List.append_eq_nil]
  constructor
  · rw [List.map_eq_nil_iff, List.filter_eq_nil_iff]
    intro a ha hc
    have h1 : a ∉ bs := by
      have := (List.mem_filter.mp ha).2
      simpa using this
    exact h1 ((by simpa using hc : a ∈ bs ∧ a ∉ rs)).1
  · rw [List.map_eq_nil_iff, List.filter_eq_nil_iff]
    intro a ha hc
    have h1 : a ∉ bs := by
      have := (List.mem_filter.mp ha).2
      simpa using this
    exact h1 ((by simpa using hc : a ∈ bs ∧ a ∉ ls)).1

/-- Membership in the merged set: an element of the base survives exactly
when kept by both sides; an element outside the base is present exactly
when added by either side. -/
theorem mergeSimpleArrayCore_mem (bs ls rs : List Json) (y : Json) :
    y ∈ (mergeSimpleArrayCore bs ls rs).1 ↔
      ((y ∈ bs ∧ y ∈ ls ∧ y ∈ rs) ∨ ((y ∈ ls ∨ y ∈ rs) ∧ y ∉ bs)) := by
  simp only [mergeSimpleArrayCore]
  rw [mem_foldl_removeAll _ _ _ (by
    intro x hx
    have hxb : x ∈ bs := (List.mem_filter.mp hx).1
    refine Bool.eq_false_iff.mpr (fun hc => ?_)
    exact ((by simpa using hc : x ∈ ls ∧ x ∉ bs)).2 hxb)]
  rw [mem_foldl_removeAll _ _ _ (by
    intro x hx
    have hxb : x ∈ bs := (List.mem_filter.mp hx).1
    refine Bool.eq_false_iff.mpr (fun hc => ?_)
    exact ((by simpa using hc : x ∈ rs ∧ x ∉ bs)).2 hxb)]
  rw [mem_foldl_setAdd]
  have hded : y ∈ dedupJ bs ↔ y ∈ bs := by
    rw [dedupJ, mem_dedupSeen]
    simp
  rw [hded]
  simp only [List.mem_append, List.mem_filter, Bool.not_eq_true', decide_eq_true_eq]
  by_cases hb : y ∈ bs <;> by_cases hl : y ∈ ls <;> by_cases hr : y ∈ rs <;>
    simp [hb, hl, hr]

/-- C2 counterexample: with base `["x"]`, local keeping `"x"` and remote
removing it, the claimed `<field>_array` contradiction is NOT reported —
the conflict list stays empty — and `"x"` is silently removed. -/
theorem C2_counterexample_no_contradiction_reported :
    mergeSimpleArray "characterDetectionBlacklist"
      (Json.obj [("characterDetectionBlacklist", Json.arr [Json.str "x"])])
      (Json.obj [("characterDetectionBlacklist", Json.arr [Json.str "x"])])
      (Json.obj [("characterDetectionBlacklist", Json.arr [])])
      (Json.obj []) [] =
    Except.ok (Json.obj [("characterDetectionBlacklist", Json.arr [])],
      ([] : List Conflict)) := rfl

/-- C2 (amended): `mergeSimpleArray` never reports a contradiction — the
two add/remove intersections tested by the code are always empty, because
additions are computed relative to the same base as removals — and the
merged set keeps a base element exactly when both sides kept it and keeps a
non-base element exactly when either side added it (a removal is never
suppressed). -/
theorem C2_amended_mergeSimpleArray_never_reports
    (fieldName : String) (B L R m : Json) (c : List Conflict)
    (bs ls rs : List Json)
    (hB : asArrThrow (B.getK fieldName) "iterate" = Except.ok bs)
    (hL : asArrThrow (L.getK fieldName) "filter" = Except.ok ls)
    (hR : asArrThrow (R.getK fieldName) "filter" = Except.ok rs) :
    mergeSimpleArray fieldName B L R m c =
      Except.ok (m.setK fieldName
        (Option.some (Json.arr (mergeSimpleArrayCore bs ls rs).1)), c) ∧
    ∀ y, y ∈ (mergeSimpleArrayCore bs ls rs).1 ↔
      ((y ∈ bs ∧ y ∈ ls ∧ y ∈ rs) ∨ ((y ∈ ls ∨ y ∈ rs) ∧ y ∉ bs)) := by
  constructor
  · simp only [mergeSimpleArray]
    rw [hB, hL, hR]
    simp only [mergeSimpleArrayCore_no_contradictions]
    rfl
  · exact mergeSimpleArrayCore_mem bs ls rs

/-- Witness for C2 (amended) at a concrete instance. -/
theorem C2_amended_witness :
    asArrThrow ((Json.obj [("b", Json.arr [Json.str "x"])]).getK "b")
      "iterate" = Except.ok [Json.str "x"] ∧
    (mergeSimpleArray "b"
      (Json.obj [("b", Json.arr [Json.str "x"])])
      (Json.obj [("b", Json.arr [Json.str "x", Json.str "y"])])
      (Json.obj [("b", Json.arr [])])
      (Json.obj []) [] =
        Except.ok ((Json.obj []).setK "b"
          (Option.some (Json.arr (mergeSimpleArrayCore
            [Json.str "x"] [Json.str "x", Json.str "y"] []).1)), []) ∧
      ∀ y, y ∈ (mergeSimpleArrayCore
          [Json.str "x"] [Json.str "x", Json.str "y"] []).1 ↔
        ((y ∈ [Json.str "x"] ∧ y ∈ [Json.str "x", Json.str "y"] ∧
            y ∈ ([] : List Json)) ∨
         ((y ∈ [Json.str "x", Json.str "y"] ∨ y ∈ ([] : List Json)) ∧
            y ∉ [Json.str "x"]))) :=
  ⟨rfl, C2_amended_mergeSimpleArray_never_reports "b" _ _ _ _ []
    [Json.str "x"] [Json.str "x", Json.str "y"] [] rfl rfl rfl⟩

/-!
## Claim C1 — timestamp fields and conflict detection

The source has no exclusion list for timestamp/provenance fields:
`mergeObject('metadata', ...)` treats `modified`/`created` like every other
key, so pairwise-different timestamps do produce a reported conflict
(while the merged value does default to remote).
-/

/-- C1 counterexample: with `metadata.modified` equal to `"t0"`/`"t1"`/`"t2"`
in base/local/remote, `mergeContent` reports a conflict of type
`metadata.modified` — contradicting the claim that timestamp fields are
excluded from conflict detection. -/
theorem C1_counterexample_modified_conflict_reported :
    mergeContent
      (Json.obj [("metadata", Json.obj [("modified", Json.str "t0")])])
      (Json.obj [("metadata", Json.obj [("modified", Json.str "t2")])])
      (Json.obj [("metadata", Json.obj [("modified", Json.str "t1")])]) =
    Except.ok (MergeResult.mk
      (Json.obj [("metadata", Json.obj [("modified", Json.str "t2")]),
        ("scenes", Json.arr []), ("characters", Json.arr []),
        ("chapters", Json.arr []), ("parts", Json.arr []),
        ("locations", Json.arr []), ("backgroundFolders", Json.arr []),
        ("frontMatter", Json.arr []),
        ("characterDetectionBlacklist", Json.arr []),
        ("template", Json.obj []), ("github", Json.obj []),
        ("collaboration", Json.obj [])])
      true
      [Conflict.scalar "metadata.modified" (Option.some (Json.str "t1"))
        (Option.some (Json.str "t2")) (Option.some (Json.str "t0"))]) := rfl

/-- C1 (amended): three pairwise-different primitive `metadata.modified`
values produce exactly one conflict, of type `metadata.modified` (timestamp
fields are not excluded from conflict detection), and the merged value
deterministically takes the remote timestamp. -/
theorem C1_amended_modified_is_a_conflict
    (B L R m : Json) (c : List Conflict) (tb tl tr : Json)
    (hB : B.getK "metadata" = Option.some (Json.obj [("modified", tb)]))
    (hL : L.getK "metadata" = Option.some (Json.obj [("modified", tl)]))
    (hR : R.getK "metadata" = Option.some (Json.obj [("modified", tr)]))
    (hbP : tb.objLike = false) (hlP : tl.objLike = false)
    (hrP : tr.objLike = false)
    (hlr : tl ≠ tr) (hlb : tl ≠ tb) (hrb : tr ≠ tb) :
    mergeObject "metadata" B L R m c =
      (m.setK "metadata" (Option.some (Json.obj [("modified", tr)])),
       c ++ [Conflict.scalar "metadata.modified" (Option.some tl)
         (Option.some tr) (Option.some tb)]) := by
  have hget : ∀ t : Json,
      (Json.obj [("modified", t)]).getK "modified" = Option.some t := by
    intro t; rfl
  have hkeys : ∀ t : Json,
      (Json.obj [("modified", t)]).keysOf = ["modified"] := by
    intro t; rfl
  have horE : ∀ t : Json, Json.orEmptyObj
      (Option.some (Json.obj [("modified", t)])) =
      Json.obj [("modified", t)] := fun t => rfl
  simp only [mergeObject, hB, hL, hR, horE, hkeys]
  rw [show dedupStr (["modified"] ++ ["modified"] ++ ["modified"]) =
    ["modified"] from rfl]
  have hkey : mergeObjectKey (Json.obj [("modified", tb)])
      (Json.obj [("modified", tl)]) (Json.obj [("modified", tr)])
      "metadata" "modified" =
      (Option.some tr,
       [Conflict.scalar "metadata.modified" (Option.some tl)
         (Option.some tr) (Option.some tb)]) := by
    simp only [mergeObjectKey, hget]
    have h1 : (tl.objLike && tr.objLike) = false := by rw [hlP]; rfl
    rw [h1]
    simp only [Bool.false_eq_true, if_false]
    have h2 : jsEq (Option.some tl) (Option.some tr) = false := by
      simp [Json.jsEq, hlr]
    have h3 : jsEq (Option.some tl) (Option.some tb) = false := by
      simp [Json.jsEq, hlb]
    have h4 : jsEq (Option.some tr) (Option.some tb) = false := by
      simp [Json.jsEq, hrb]
    rw [h2, h3, h4]
    rfl
  simp only [List.foldl_cons, List.foldl_nil, List.flatMap_cons,
    List.flatMap_nil, hkey]
  rfl

/-- Witness for C1 (amended) at the concrete timestamps of the
counterexample. -/
theorem C1_amended_witness :
    (Json.obj [("metadata", Json.obj [("modified", Json.str "t0")])]).getK
      "metadata" = Option.some (Json.obj [("modified", Json.str "t0")]) ∧
    mergeObject "metadata"
      (Json.obj [("metadata", Json.obj [("modified", Json.str "t0")])])
      (Json.obj [("metadata", Json.obj [("modified", Json.str "t1")])])
      (Json.obj [("metadata", Json.obj [("modified", Json.str "t2")])])
      (Json.obj []) [] =
    ((Json.obj []).setK "metadata"
      (Option.some (Json.obj [("modified", Json.str "t2")])),
     [] ++ [Conflict.scalar "metadata.modified"
       (Option.some (Json.str "t1")) (Option.some (Json.str "t2"))
       (Option.some (Json.str "t0"))]) :=
  ⟨rfl, C1_amended_modified_is_a_conflict _ _ _ _ []
    (Json.str "t0") (Json.str "t1") (Json.str "t2")
    rfl rfl rfl rfl rfl rfl (by decide) (by decide) (by decide)⟩

/-!
## Claim C10 — the pairwise `detectConflicts` preview

The title and character comparisons do require both sides truthy, but the
scene-content comparison does not: any strict inequality of the `content`
properties of two id-matched scenes is reported, including when one side's
content is missing or empty.
-/

/-- C10 counterexample: a scene whose local copy has no `content` property
at all is still reported as a `scene_content` conflict (with
`localContent: undefined`), refuting "a conflict is reported only when both
sides hold a truthy value". -/
theorem C10_counterexample_untruthy_scene_content_reported :
    detectConflicts
      (Json.obj [("scenes", Json.arr [Json.obj [("id", Json.str "1")]])])
      (Json.obj [("scenes", Json.arr [Json.obj [("id", Json.str "1"),
        ("content", Json.str "x")]])]) =
    Except.ok [Conflict.mk "scene_content" Option.none
      (Option.some (Json.str "x")) Option.none
      (Option.some (Json.str "1")) Option.none []] := rfl

/-- Modelled from the amended claim: the title part of the pairwise diff —
reported only when both titles are truthy and strictly differ. -/
def titleConflictsSpec (localContent remoteContent : Json) : List Conflict :=
  if truthy (localContent.getK "title") &&
     truthy (remoteContent.getK "title") &&
     !jsEq (localContent.getK "title") (remoteContent.getK "title") then
    [Conflict.scalar "title" (localContent.getK "title")
      (remoteContent.getK "title") Option.none]
  else []

/-- Modelled from the amended claim: the scene part of the pairwise diff —
driven by the local scene list (remote-only scenes are ignored), matched by
id, and reported on BARE strict inequality of the contents, even when a
side's content is missing or empty. -/
def sceneConflictsSpec (localScenes remoteScenes : List Json) :
    List Conflict :=
  localScenes.flatMap fun localScene =>
    match remoteScenes.find? (fun s => s.getK "id" == localScene.getK "id") with
    | Option.some remoteScene =>
        if !jsEq (localScene.getK "content") (remoteScene.getK "content") then
          [Conflict.mk "scene_content" (localScene.getK "content")
            (remoteScene.getK "content") Option.none
            (localScene.getK "id") Option.none []]
        else []
    | Option.none => []

/-- Modelled from the amended claim: the character part of the pairwise
diff — limited to `name`, `description`, `notes`, reported only when both
values are truthy and strictly differ; remote-only characters ignored. -/
def charConflictsSpec (localChars remoteChars : List Json) : List Conflict :=
  localChars.flatMap fun localChar =>
    match remoteChars.find? (fun c => c.getK "id" == localChar.getK "id") with
    | Option.some remoteChar =>
        ["name", "description", "notes"].flatMap fun f =>
          if truthy (localChar.getK f) && truthy (remoteChar.getK f) &&
             !jsEq (localChar.getK f) (remoteChar.getK f) then
            [Conflict.charField (localChar.getK "id") f
              (localChar.getK f) (remoteChar.getK f)]
          else []
    | Option.none => []

/-- C10 (amended): on documents whose `scenes`/`characters` fields are
arrays, `detectConflicts` returns exactly the title conflicts (both-truthy,
differing), the scene-content conflicts for ids present in the local list
(compared by bare strict inequality, so an emptied or missing content on
one side IS reported), and the character conflicts on `name`, `description`
and `notes` with both values truthy; remote-only scenes and characters
never appear. -/
theorem C10_amended_detectConflicts_characterisation
    (L R : Json) (lsc rsc lch rch : List Json)
    (hLs : L.getK "scenes" = Option.some (Json.arr lsc))
    (hRs : R.getK "scenes" = Option.some (Json.arr rsc))
    (hLc : L.getK "characters" = Option.some (Json.arr lch))
    (hRc : R.getK "characters" = Option.some (Json.arr rch)) :
    detectConflicts L R =
      Except.ok (titleConflictsSpec L R ++ sceneConflictsSpec lsc rsc ++
        charConflictsSpec lch rch) := by
  simp only [detectConflicts, hLs, hRs, hLc, hRc]
  cases lsc with
  | nil =>
    cases lch with
    | nil => rfl
    | cons c cs => rfl
  | cons s ss =>
    cases lch with
    | nil => rfl
    | cons c cs => rfl

/-- Witness for C10 (amended) at the counterexample documents. -/
theorem C10_amended_witness :
    (Json.obj [("scenes", Json.arr [Json.obj [("id", Json.str "1")]]),
      ("characters", Json.arr [])]).getK "scenes" =
      Option.some (Json.arr [Json.obj [("id", Json.str "1")]]) ∧
    detectConflicts
      (Json.obj [("scenes", Json.arr [Json.obj [("id", Json.str "1")]]),
        ("characters", Json.arr [])])
      (Json.obj [("scenes", Json.arr [Json.obj [("id", Json.str "1"),
        ("content", Json.str "x")]]), ("characters", Json.arr [])]) =
      Except.ok (titleConflictsSpec
        (Json.obj [("scenes", Json.arr [Json.obj [("id", Json.str "1")]]),
          ("characters", Json.arr [])])
        (Json.obj [("scenes", Json.arr [Json.obj [("id", Json.str "1"),
          ("content", Json.str "x")]]), ("characters", Json.arr [])]) ++
        sceneConflictsSpec [Json.obj [("id", Json.str "1")]]
          [Json.obj [("id", Json.str "1"), ("content", Json.str "x")]] ++
        charConflictsSpec [] []) :=
  ⟨rfl, C10_amended_detectConflicts_characterisation _ _ _ _ _ _
    rfl rfl rfl rfl⟩

/-!
## Claim C7 — structurally mismatched documents

A known collection field holding a truthy non-array scalar makes
`mergeContent` throw a `TypeError` (`"oops".map` is not a function) instead
of producing a maximal conflict; the exception is converted into a
structured `{success: false, error}` only by the `try`/`catch` of
`safeSyncWithRepository`.
-/

/-- C7 counterexample: `mergeContent` throws (models as `Except.error`) on
a document whose `chapters` field is the string `"oops"` — it neither
returns a conflict on that field nor prefers the remote value. -/
theorem C7_counterexample_mergeContent_throws :
    mergeContent (Json.obj [("chapters", Json.str "oops")])
      (Json.obj [("chapters", Json.str "oops")])
      (Json.obj [("chapters", Json.str "oops")]) =
    Except.error "TypeError: map is not a function" := rfl

/-- C7 (amended): `mergeContent` propagates a `TypeError` on structurally
mismatched documents, but `safeSyncWithRepository` catches every merge
exception and returns the structured failure `{success: false, error}`
without pushing and without retrying, so no exception escapes the sync
entry point. -/
theorem C7_amended_sync_wraps_merge_exception
    (env : SyncEnv) (book : Json) (e : String)
    (hremote : truthy (env.remoteBook 0) = true)
    (hmerge : mergeContent (syncBaseContent env book 0)
      (syncCleanRemote env 0) (stripSyncMeta book) = Except.error e) :
    safeSyncWithRepository env book =
      SyncRun.mk (SyncResult.mk false Option.none (Option.some e) false
        Option.none Option.none Option.none) [] 1 := by
  have h0 : syncPass env book 0 =
      PassOut.mk (SyncResult.mk false Option.none (Option.some e) false
        Option.none Option.none Option.none) false [] := by
    rw [syncPass, hremote]
    simp only [Bool.not_true, Bool.false_eq_true, if_false]
    simp only [hmerge]
  rw [safeSyncWithRepository, h0]
  rfl

/-- Witness for C7 (amended): a concrete environment and local book whose
`chapters` field is a scalar string. -/
theorem C7_amended_witness :
    truthy ((SyncEnv.mk (fun _ => Option.some (Json.obj []))
      (fun _ => Option.none) (fun _ => PushOutcome.ok Option.none)
      (fun _ => Option.none)).remoteBook 0) = true ∧
    safeSyncWithRepository
      (SyncEnv.mk (fun _ => Option.some (Json.obj []))
        (fun _ => Option.none) (fun _ => PushOutcome.ok Option.none)
        (fun _ => Option.none))
      (Json.obj [("chapters", Json.str "oops")]) =
    SyncRun.mk (SyncResult.mk false Option.none
      (Option.some "TypeError: map is not a function") false
      Option.none Option.none Option.none) [] 1 :=
  ⟨rfl, C7_amended_sync_wraps_merge_exception _ _ _ rfl rfl⟩

/-!
## Claim C6 — list union completeness of `mergeArrayWithIds`

An id present in local or remote yields exactly one merged item, but an id
present ONLY in the base list (deleted concurrently by both sides) yields
no item at all.
-/

/-- Number of items of a list carrying a given id. -/
def countWithId (xs : List Json) (id : Option Json) : Nat :=
  (xs.filter (fun i => i.getK "id" == id)).length

/-- Id values are primitive (or absent): the shape under which JavaScript
`Set`/`===` id handling agrees with structural equality. -/
def idPrimB (x : Json) : Bool :=
  match x.getK "id" with
  | Option.some v => !v.objLike
  | Option.none => true

theorem spreadObj_obj {x : Json} (h : Json.isObjB x = true) :
    spreadObj (Option.some x) = x := by
  cases x <;> first | rfl | exact absurd h (by simp [Json.isObjB])

theorem isObjB_shape {x : Json} (h : Json.isObjB x = true) :
    ∃ kvs, x = Json.obj kvs := by
  cases x <;> first | exact ⟨_, rfl⟩ | exact absurd h (by simp [Json.isObjB])

theorem truthy_of_isObjB {x : Json} (h : Json.isObjB x = true) :
    truthy (Option.some x) = true := by
  obtain ⟨kvs, hk⟩ := isObjB_shape h
  subst hk
  rfl

theorem findById_eq_some {xs : List Json} {id : Option Json} {li : Json}
    (h : findById xs id = Option.some li) :
    li ∈ xs ∧ li.getK "id" = id :=
  ⟨List.mem_of_find?_eq_some h, by simpa using List.find?_some h⟩

theorem findById_isSome_iff {xs : List Json} {id : Option Json} :
    (findById xs id).isSome = true ↔ id ∈ xs.map (fun x => x.getK "id") := by
  rw [findById, List.find?_isSome]
  constructor
  · rintro ⟨x, hx, hp⟩
    exact List.mem_map.mpr ⟨x, hx, by simpa using hp⟩
  · intro h
    obtain ⟨x, hx, hxid⟩ := List.mem_map.mp h
    exact ⟨x, hx, by simpa using hxid⟩

theorem findById_eq_none {xs : List Json} {id : Option Json}
    (h : id ∉ xs.map (fun x => x.getK "id")) :
    findById xs id = Option.none := by
  cases hf : findById xs id with
  | none => rfl
  | some li =>
    exact absurd (findById_isSome_iff.mp (by rw [hf]; rfl)) h

theorem getK_none_not_mem_keys {kvs : List (String × Json)} {k : String}
    (h : (Json.obj kvs).getK k = Option.none) : k ∉ kvs.map Prod.fst := by
  simp only [Json.getK, Option.map_eq_none'] at h
  intro hmem
  obtain ⟨p, hp, hpk⟩ := List.mem_map.mp hmem
  exact absurd (by simpa using hpk : (p.1 == k) = true)
    (by simpa using List.find?_eq_none.mp h p hp)

theorem getK_some_mem_keys {kvs : List (String × Json)} {k : String}
    {v : Json} (h : (Json.obj kvs).getK k = Option.some v) :
    k ∈ kvs.map Prod.fst := by
  simp only [Json.getK, Option.map_eq_some'] at h
  obtain ⟨p, hp, _⟩ := h
  exact List.mem_map.mpr ⟨p, List.mem_of_find?_eq_some hp,
    by simpa using List.find?_some hp⟩

/-- The item produced by `mergeItemFields` keeps the common id of its
(local/remote) inputs. -/
theorem mergeItemFields_getK_id {b li ri : Json} {id : Option Json}
    (hb : Json.isObjB b = true) (hlo : Json.isObjB li = true)
    (hro : Json.isObjB ri = true)
    (hbid : id = Option.none → b.getK "id" = Option.none)
    (hli : li.getK "id" = id) (hri : ri.getK "id" = id)
    (hvp : ∀ v, id = Option.some v → v.objLike = false) :
    (mergeItemFields b li ri).getK "id" = id := by
  obtain ⟨bk, hbk⟩ := isObjB_shape hb
  obtain ⟨lk, hlk⟩ := isObjB_shape hlo
  obtain ⟨rk, hrk⟩ := isObjB_shape hro
  subst hbk
  rw [mergeItemFields, spreadObj_obj hb]
  cases id with
  | none =>
    have hnotmem : "id" ∉ dedupStr ((Json.obj bk).keysOf ++ li.keysOf ++
        ri.keysOf) := by
      intro hmem
      have hm2 := (mem_dedupSeen _ _ _).mp hmem
      rcases List.mem_append.mp hm2.1 with h12 | h3
      · rcases List.mem_append.mp h12 with h1 | h2
        · exact getK_none_not_mem_keys (hbid rfl) h1
        · rw [hlk] at hli h2
          exact getK_none_not_mem_keys hli h2
      · rw [hrk] at hri h3
        exact getK_none_not_mem_keys hri h3
    exact (foldl_setK_not_mem _ _ _ hnotmem).trans (hbid rfl)
  | some v =>
    have hmem : "id" ∈ dedupStr ((Json.obj bk).keysOf ++ li.keysOf ++
        ri.keysOf) := by
      refine (mem_dedupSeen _ _ _).mpr ⟨?_, List.not_mem_nil _⟩
      refine List.mem_append.mpr (Or.inl (List.mem_append.mpr (Or.inr ?_)))
      rw [hlk]
      exact getK_some_mem_keys (hlk ▸ hli)
    refine (foldl_setK_mem _ _ _ (nodup_dedupSeen _ _) hmem).trans ?_
    simp only [mergeItemFieldValue, hli, hri]
    cases v with
    | arr xs => exact absurd (hvp _ rfl) (by simp [Json.objLike])
    | obj kv => exact absurd (hvp _ rfl) (by simp [Json.objLike])
    | null => simp
    | bool bb => simp
    | num n => simp
    | str s => simp

/-- Every item pushed by the per-id loop carries the loop's id. -/
theorem mergeArrayItem_getK_id {f : String} {bs ls rs : List Json}
    {id : Option Json}
    (hObj : ∀ x ∈ bs ++ ls ++ rs, Json.isObjB x = true)
    (hPrim : ∀ x ∈ bs ++ ls ++ rs, idPrimB x = true) :
    ∀ x ∈ (mergeArrayItem f bs ls rs id).1, x.getK "id" = id := by
  intro x hx
  have hObjL : ∀ y ∈ ls, Json.isObjB y = true := fun y hy =>
    hObj y (List.mem_append.mpr (Or.inl (List.mem_append.mpr (Or.inr hy))))
  have hObjR : ∀ y ∈ rs, Json.isObjB y = true := fun y hy =>
    hObj y (List.mem_append.mpr (Or.inr hy))
  have hObjB : ∀ y ∈ bs, Json.isObjB y = true := fun y hy =>
    hObj y (List.mem_append.mpr (Or.inl (List.mem_append.mpr (Or.inl hy))))
  cases hfl : findById ls id with
  | some li =>
    cases hfr : findById rs id with
    | some ri =>
      obtain ⟨hliM, hliI⟩ := findById_eq_some hfl
      obtain ⟨hriM, hriI⟩ := findById_eq_some hfr
      have hliO := hObjL li hliM
      have hriO := hObjR ri hriM
      simp only [mergeArrayItem, hfl, hfr] at hx
      have hvp : ∀ v, id = Option.some v → v.objLike = false := by
        intro v hv
        have := hPrim li (List.mem_append.mpr
          (Or.inl (List.mem_append.mpr (Or.inr hliM))))
        rw [idPrimB, hliI, hv] at this
        simpa using this
      split at hx
      · rcases List.mem_singleton.mp hx with rfl
        rw [spreadObj_obj hliO]
        exact hliI
      · split at hx
        · rcases List.mem_singleton.mp hx with rfl
          rw [spreadObj_obj hriO]
          exact hriI
        · split at hx
          · rcases List.mem_singleton.mp hx with rfl
            rw [spreadObj_obj hliO]
            exact hliI
          · rcases List.mem_singleton.mp hx with rfl
            cases hfb : findById bs id with
            | some bi =>
              obtain ⟨hbiM, hbiI⟩ := findById_eq_some hfb
              have hbiO := hObjB bi hbiM
              have hoe : Json.orEmptyObj (Option.some bi) = bi := by
                rw [Json.orEmptyObj, if_pos (truthy_of_isObjB hbiO)]
                rfl
              rw [hoe]
              exact mergeItemFields_getK_id hbiO hliO hriO
                (fun hn => hn ▸ hbiI) hliI hriI hvp
            | none =>
              exact mergeItemFields_getK_id rfl hliO hriO
                (fun _ => rfl) hliI hriI hvp
    | none =>
      obtain ⟨hliM, hliI⟩ := findById_eq_some hfl
      have hliO := hObjL li hliM
      simp only [mergeArrayItem, hfl, hfr] at hx
      split at hx <;>
        · rcases List.mem_singleton.mp hx with rfl
          rw [spreadObj_obj hliO]
          exact hliI
  | none =>
    cases hfr : findById rs id with
    | some ri =>
      obtain ⟨hriM, hriI⟩ := findById_eq_some hfr
      have hriO := hObjR ri hriM
      simp only [mergeArrayItem, hfl, hfr] at hx
      split at hx <;>
        · rcases List.mem_singleton.mp hx with rfl
          rw [spreadObj_obj hriO]
          exact hriI
    | none =>
      simp only [mergeArrayItem, hfl, hfr] at hx
      exact absurd hx (List.not_mem_nil x)

/-- The per-id loop pushes exactly one item when local or remote has the
id. -/
theorem mergeArrayItem_length_one {f : String} {bs ls rs : List Json}
    {id : Option Json}
    (h : id ∈ ls.map (fun x => x.getK "id") ∨
         id ∈ rs.map (fun x => x.getK "id")) :
    (mergeArrayItem f bs ls rs id).1.length = 1 := by
  cases hfl : findById ls id with
  | some li =>
    cases hfr : findById rs id with
    | some ri =>
      simp only [mergeArrayItem, hfl, hfr]
      split
      · rfl
      · split
        · rfl
        · split <;> rfl
    | none =>
      simp only [mergeArrayItem, hfl, hfr]
      split <;> rfl
  | none =>
    cases hfr : findById rs id with
    | some ri =>
      simp only [mergeArrayItem, hfl, hfr]
      split <;> rfl
    | none =>
      rcases h with h | h
      · have hs := findById_isSome_iff.mpr h
        rw [hfl] at hs
        exact absurd hs (by simp)
      · have hs := findById_isSome_iff.mpr h
        rw [hfr] at hs
        exact absurd hs (by simp)

/-- The per-id loop pushes no item when neither local nor remote has the
id. -/
theorem mergeArrayItem_length_zero {f : String} {bs ls rs : List Json}
    {id : Option Json}
    (h1 : id ∉ ls.map (fun x => x.getK "id"))
    (h2 : id ∉ rs.map (fun x => x.getK "id")) :
    (mergeArrayItem f bs ls rs id).1.length = 0 := by
  simp only [mergeArrayItem, findById_eq_none h1, findById_eq_none h2]
  rfl

/-- Counting ids across the per-id chunks of the merged list. -/
theorem countWithId_flatMap (ids : List (Option Json))
    (F : Option Json → List Json)
    (hchunk : ∀ id ∈ ids, ∀ x ∈ F id, x.getK "id" = id)
    (hnd : ids.Nodup) (id : Option Json) :
    countWithId (ids.flatMap F) id =
      if id ∈ ids then (F id).length else 0 := by
  induction ids with
  | nil => simp [countWithId]
  | cons a rest ih =>
    rw [List.flatMap_cons, countWithId, List.filter_append,
      List.length_append]
    by_cases hia : id = a
    · subst hia
      have hfa : (F id).filter (fun i => i.getK "id" == id) = F id := by
        rw [List.filter_eq_self]
        intro x hx
        rw [hchunk id (List.mem_cons_self _ _) x hx]
        simp
      rw [hfa]
      have hrest : countWithId (rest.flatMap F) id = 0 := by
        rw [ih (fun i hi x hx => hchunk i (List.mem_cons_of_mem _ hi) x hx)
          (List.nodup_cons.mp hnd).2]
        rw [if_neg (List.nodup_cons.mp hnd).1]
      rw [countWithId] at hrest
      rw [hrest, if_pos (List.mem_cons_self _ _)]
      omega
    · have hfa : (F a).filter (fun i => i.getK "id" == id) = [] := by
        rw [List.filter_eq_nil_iff]
        intro x hx
        rw [hchunk a (List.mem_cons_self _ _) x hx]
        simpa using (fun h => hia h.symm)
      rw [hfa]
      have := ih (fun i hi x hx => hchunk i (List.mem_cons_of_mem _ hi) x hx)
        (List.nodup_cons.mp hnd).2
      rw [countWithId] at this
      rw [this]
      simp only [List.length_nil, Nat.zero_add]
      by_cases hir : id ∈ rest
      · rw [if_pos hir, if_pos (List.mem_cons_of_mem _ hir)]
      · rw [if_neg hir, if_neg (by
          intro hm
          rcases List.mem_cons.mp hm with h | h
          · exact hia h
          · exact hir h)]

/-- C6 counterexample: an id present only in the base list (both sides
deleted it) yields NO item in the merged list — not "exactly one". -/
theorem C6_counterexample_base_only_id_dropped :
    mergeArrayWithIds "chapters"
      (Json.obj [("chapters", Json.arr [Json.obj [("id", Json.str "1")]])])
      (Json.obj [("chapters", Json.arr [])])
      (Json.obj [("chapters", Json.arr [])])
      (Json.obj []) [] =
    Except.ok (Json.obj [("chapters", Json.arr [])],
      ([] : List Conflict)) := rfl

/-- C6 (amended): for identity lists of objects with primitive (or absent)
ids, the merged list contains exactly one item with id `i` for every `i`
occurring in the local or the remote list, and no item at all for an id
occurring only in the base list (an item deleted by both sides is dropped;
delete-conflict resolution is a separate later stage). -/
theorem C6_amended_union_completeness (f : String) (B L R m : Json)
    (c : List Conflict) (bs ls rs : List Json)
    (hB : asArrThrow (B.getK f) "map" = Except.ok bs)
    (hL : asArrThrow (L.getK f) "map" = Except.ok ls)
    (hR : asArrThrow (R.getK f) "map" = Except.ok rs)
    (hObj : ∀ x ∈ bs ++ ls ++ rs, Json.isObjB x = true)
    (hPrim : ∀ x ∈ bs ++ ls ++ rs, idPrimB x = true) :
    ∃ out confs,
      mergeArrayWithIds f B L R m c =
        Except.ok (m.setK f (Option.some (Json.arr out)), c ++ confs) ∧
      (∀ id, (id ∈ ls.map (fun x => x.getK "id") ∨
              id ∈ rs.map (fun x => x.getK "id")) →
        countWithId out id = 1) ∧
      (∀ id, id ∉ ls.map (fun x => x.getK "id") →
             id ∉ rs.map (fun x => x.getK "id") →
        countWithId out id = 0) := by
  refine ⟨(dedupIds (bs.map (fun x => x.getK "id") ++
      ls.map (fun x => x.getK "id") ++
      rs.map (fun x => x.getK "id"))).flatMap
        (fun id => (mergeArrayItem f bs ls rs id).1),
    (dedupIds (bs.map (fun x => x.getK "id") ++
      ls.map (fun x => x.getK "id") ++
      rs.map (fun x => x.getK "id"))).flatMap
        (fun id => (mergeArrayItem f bs ls rs id).2), ?_, ?_, ?_⟩
  · simp only [mergeArrayWithIds]
    rw [hB, hL, hR]
    rfl
  · intro id hid
    have hmemid : id ∈ (bs.map (fun x => x.getK "id") ++
        ls.map (fun x => x.getK "id") ++ rs.map (fun x => x.getK "id")) := by
      rcases hid with h | h
      · exact List.mem_append.mpr (Or.inl (List.mem_append.mpr (Or.inr h)))
      · exact List.mem_append.mpr (Or.inr h)
    rw [countWithId_flatMap
      (dedupIds (bs.map (fun x => x.getK "id") ++
        ls.map (fun x => x.getK "id") ++ rs.map (fun x => x.getK "id")))
      (fun i => (mergeArrayItem f bs ls rs i).1)
      (fun i _ x hx => mergeArrayItem_getK_id hObj hPrim x hx)
      (nodup_dedupSeen _ _) id]
    rw [if_pos (show id ∈ dedupIds (bs.map (fun x => x.getK "id") ++
        ls.map (fun x => x.getK "id") ++ rs.map (fun x => x.getK "id")) from
      (mem_dedupSeen _ _ _).mpr ⟨hmemid, List.not_mem_nil _⟩)]
    exact mergeArrayItem_length_one hid
  · intro id h1 h2
    rw [countWithId_flatMap
      (dedupIds (bs.map (fun x => x.getK "id") ++
        ls.map (fun x => x.getK "id") ++ rs.map (fun x => x.getK "id")))
      (fun i => (mergeArrayItem f bs ls rs i).1)
      (fun i _ x hx => mergeArrayItem_getK_id hObj hPrim x hx)
      (nodup_dedupSeen _ _) id]
    by_cases hin : id ∈ dedupIds (bs.map (fun x => x.getK "id") ++
        ls.map (fun x => x.getK "id") ++ rs.map (fun x => x.getK "id"))
    · rw [if_pos hin]
      exact mergeArrayItem_length_zero h1 h2
    · rw [if_neg hin]

/-- Witness for C6 (amended) at a concrete instance: base has id "0",
local adds id "1", remote is empty. -/
theorem C6_amended_witness :
    (∀ x ∈ ([Json.obj [("id", Json.str "0")]] ++
        [Json.obj [("id", Json.str "1")]] ++ ([] : List Json)),
      Json.isObjB x = true) ∧
    ∃ out confs,
      mergeArrayWithIds "chapters"
        (Json.obj [("chapters", Json.arr [Json.obj [("id", Json.str "0")]])])
        (Json.obj [("chapters", Json.arr [Json.obj [("id", Json.str "1")]])])
        (Json.obj [("chapters", Json.arr [])])
        (Json.obj []) [] =
        Except.ok ((Json.obj []).setK "chapters"
          (Option.some (Json.arr out)), [] ++ confs) ∧
      (∀ id, (id ∈ [Json.obj [("id", Json.str "1")]].map
                (fun x => x.getK "id") ∨
              id ∈ ([] : List Json).map (fun x => x.getK "id")) →
        countWithId out id = 1) ∧
      (∀ id, id ∉ [Json.obj [("id", Json.str "1")]].map
               (fun x => x.getK "id") →
             id ∉ ([] : List Json).map (fun x => x.getK "id") →
        countWithId out id = 0) :=
  ⟨by decide, C6_amended_union_completeness "chapters" _ _ _ _ []
    [Json.obj [("id", Json.str "0")]] [Json.obj [("id", Json.str "1")]] []
    rfl rfl rfl (by decide) (by decide)⟩

/-!
## Claims C8 and C9 — the sync coordinator

C8: the bounded automatic retry exists only on the merge path; the
no-remote direct-push path returns a stale-marker rejection without any
retry.  C9: on the identical-to-remote path nothing is pushed and the
marker is refreshed from `getLatestCommitSha`; every document returned in
`mergedContent` has been stamped by the marker-update epilogue.
-/

theorem getK_delK_self (kvs : List (String × Json)) (k : String) :
    (Json.delK (Json.obj kvs) k).getK k = Option.none := by
  simp only [Json.delK, Json.getK, Option.map_eq_none']
  rw [List.find?_eq_none]
  intro p hp
  have h2 := (List.mem_filter.mp hp).2
  simpa using h2

theorem getK_delK_ne (kvs : List (String × Json)) {k k' : String}
    (hne : k' ≠ k) :
    (Json.delK (Json.obj kvs) k).getK k' = (Json.obj kvs).getK k' := by
  simp only [Json.delK, Json.getK]
  rw [find?_filter_ne hne]

theorem spreadObj_shape (o : Option Json) :
    ∃ gks, spreadObj o = Json.obj gks := by
  cases o with
  | none => exact ⟨[], rfl⟩
  | some j => cases j <;> exact ⟨_, rfl⟩

/-- The marker-update epilogue records the commit SHA in
`github.lastSyncCommitSha` (also when the SHA is `undefined`). -/
theorem stampSha_marker {c : Json} (sha : Option Json)
    (hc : Json.isObjB c = true) :
    getKO ((stampSha c sha).getK "github") "lastSyncCommitSha" = sha := by
  obtain ⟨cks, rfl⟩ := isObjB_shape hc
  obtain ⟨gks, hg⟩ := spreadObj_shape ((Json.obj cks).getK "github")
  obtain ⟨g2ks, hG⟩ := setK_obj_shape gks "lastSyncCommitSha" sha
  simp only [stampSha, hg]
  by_cases ht : truthy (((Json.obj gks).setK "lastSyncCommitSha" sha).getK
      "lastSyncedContent") = true
  · rw [if_pos ht, getK_setK_self]
    simp only [getKO]
    rw [hG, getK_delK_ne g2ks (by decide), ← hG]
    exact getK_setK_self gks _ sha
  · rw [if_neg ht, getK_setK_self]
    simp only [getKO]
    exact getK_setK_self gks _ sha

/-- Element assignment into an array never leaves a (truthily) legacy
marker behind when the assigned value itself carries none. -/
theorem truthy_getKO_setK_arr (xs : List Json) (k k' : String) (V : Json)
    (hV : truthy (V.getK k') = false) :
    truthy (getKO (((Json.arr xs).setK k (Option.some V)).getK k) k')
      = false := by
  cases hx : (k.toNat? : Option Nat) with
  | none =>
    simp only [Json.setK, Json.getK, hx]
    rfl
  | some i =>
    simp only [Json.setK, Json.getK, hx]
    rw [List.get?_set_eq]
    cases hy : xs.get? i with
    | none => rfl
    | some w =>
      simpa [getKO] using hV

/-- After the marker-update epilogue the legacy `lastSyncedContent`
snapshot is never (truthily) present, whatever the document shape. -/
theorem stampSha_no_legacy (c : Json) (sha : Option Json) :
    truthy (getKO ((stampSha c sha).getK "github") "lastSyncedContent")
      = false := by
  obtain ⟨gks, hg⟩ := spreadObj_shape (c.getK "github")
  obtain ⟨g2ks, hG⟩ := setK_obj_shape gks "lastSyncCommitSha" sha
  simp only [stampSha, hg]
  by_cases ht : truthy (((Json.obj gks).setK "lastSyncCommitSha" sha).getK
      "lastSyncedContent") = true
  · rw [if_pos ht]
    cases c with
    | obj cks =>
      rw [getK_setK_self]
      simp only [getKO]
      rw [hG, getK_delK_self]
      rfl
    | arr xs =>
      exact truthy_getKO_setK_arr xs _ _ _
        (by rw [hG, getK_delK_self]; rfl)
    | null => rfl
    | bool b => rfl
    | num n => rfl
    | str s => rfl
  · rw [if_neg ht]
    cases c with
    | obj cks =>
      rw [getK_setK_self]
      simp only [getKO]
      exact Bool.eq_false_iff.mpr ht
    | arr xs =>
      exact truthy_getKO_setK_arr xs _ _ _ (Bool.eq_false_iff.mpr ht)
    | null => rfl
    | bool b => rfl
    | num n => rfl
    | str s => rfl

/-- Every document placed in `mergedContent` by a pass went through the
marker-update epilogue. -/
theorem syncPass_mergedContent_stamped {env : SyncEnv} {b : Json} {a : Nat}
    {d : Json}
    (h : (syncPass env b a).result.mergedContent = Option.some d) :
    ∃ c sha, d = stampSha c sha := by
  simp only [syncPass] at h
  split at h
  · split at h <;> simp at h
  · split at h
    · simp at h
    · split at h
      · simp at h
      · split at h
        · split at h
          · simp at h
          · simp only at h
            exact ⟨_, _, (Option.some.inj h).symm⟩
        · simp only at h
          exact ⟨_, _, (Option.some.inj h).symm⟩

/-- Environment for the C8 counterexample: the repository has no remote
book file; the first push is rejected with a stale-marker message; the
retried push (attempt 1) would succeed. -/
def c8Env : SyncEnv :=
  SyncEnv.mk (fun _ => Option.none) (fun _ => Option.none)
    (fun a => if a = 0 then
        PushOutcome.fail "409: file sha does not match latest sha"
      else PushOutcome.ok (Option.some "sha2"))
    (fun _ => Option.none)

/-- C8 counterexample: on the no-remote direct-push path a stale-marker
rejection (`error.includes('does not match')`) is returned to the caller
as a failure after a single attempt with no automatic retry — even though
the retried push would succeed — because the retry logic exists only on
the merge path. -/
theorem C8_counterexample_no_retry_on_direct_push :
    strIncludes "409: file sha does not match latest sha" "does not match"
      = true ∧
    c8Env.pushResult 1 = PushOutcome.ok (Option.some "sha2") ∧
    safeSyncWithRepository c8Env (Json.obj []) =
      SyncRun.mk (SyncResult.mk false (Option.some [])
        (Option.some "409: file sha does not match latest sha") false
        Option.none Option.none Option.none) [Json.obj []] 1 :=
  ⟨rfl, rfl, rfl⟩

/-- C8 (amended): on the merge path, a push rejected at attempt 0 with a
stale-marker error (message containing `does not match`) triggers exactly
one automatic retry; when the retried attempt's push is rejected again
(with any message, stale or not), the second failure is returned as a
structured error after exactly two pushes and is never retried again. -/
theorem C8_amended_exactly_one_retry
    (env : SyncEnv) (book : Json) (mr0 mr1 : MergeResult) (m0 m1 : String)
    (hr0 : truthy (env.remoteBook 0) = true)
    (hm0 : mergeContent (syncBaseContent env book 0) (syncCleanRemote env 0)
      (stripSyncMeta book) = Except.ok mr0)
    (hc0 : mr0.hasConflicts = false)
    (hd0 : stripSyncMeta mr0.content ≠ syncCleanRemote env 0)
    (hp0 : env.pushResult 0 = PushOutcome.fail m0)
    (hstale : strIncludes m0 "does not match" = true)
    (hr1 : truthy (env.remoteBook 1) = true)
    (hm1 : mergeContent (syncBaseContent env book 1) (syncCleanRemote env 1)
      (stripSyncMeta book) = Except.ok mr1)
    (hc1 : mr1.hasConflicts = false)
    (hd1 : stripSyncMeta mr1.content ≠ syncCleanRemote env 1)
    (hp1 : env.pushResult 1 = PushOutcome.fail m1) :
    safeSyncWithRepository env book =
      SyncRun.mk (SyncResult.mk false (Option.some []) (Option.some m1)
        false Option.none Option.none Option.none)
        [mr0.content, mr1.content] 2 := by
  have h0 : syncPass env book 0 = PassOut.mk
      (SyncResult.mk false (Option.some []) (Option.some m0) false
        Option.none Option.none Option.none) true [mr0.content] := by
    rw [syncPass, hr0]
    simp only [Bool.not_true, Bool.false_eq_true, if_false]
    simp only [hm0]
    rw [if_neg (by simp [hc0]), if_pos hd0, hp0]
    simp [hstale]
  have h1 : syncPass env book 1 = PassOut.mk
      (SyncResult.mk false (Option.some []) (Option.some m1) false
        Option.none Option.none Option.none) false [mr1.content] := by
    rw [syncPass, hr1]
    simp only [Bool.not_true, Bool.false_eq_true, if_false]
    simp only [hm1]
    rw [if_neg (by simp [hc1]), if_pos hd1, hp1]
    simp
  rw [safeSyncWithRepository, h0, h1]
  rfl

/-- Local book and remote book for the C8 (amended) witness. -/
def c8Book : Json := Json.obj [("title", Json.str "Local")]

def c8Remote : Json := Json.obj [("title", Json.str "Remote")]

/-- Witness environment: remote present on both attempts; both pushes are
rejected with the same stale-marker message. -/
def c8Env2 : SyncEnv :=
  SyncEnv.mk (fun _ => Option.some c8Remote) (fun _ => Option.none)
    (fun _ => PushOutcome.fail "409: file sha does not match latest sha")
    (fun _ => Option.none)

/-- The merge result of the C8 (amended) witness run (identical on both
attempts). -/
def c8Merged : Json := Json.obj [("title", Json.str "Local"),
  ("scenes", Json.arr []), ("characters", Json.arr []),
  ("chapters", Json.arr []), ("parts", Json.arr []),
  ("locations", Json.arr []), ("backgroundFolders", Json.arr []),
  ("frontMatter", Json.arr []),
  ("characterDetectionBlacklist", Json.arr []),
  ("template", Json.obj []), ("github", Json.obj []),
  ("metadata", Json.obj []), ("collaboration", Json.obj [])]

/-- Witness for C8 (amended) at a concrete run: one retry happens, the
second stale rejection is surfaced, two pushes total. -/
theorem C8_amended_witness :
    truthy (c8Env2.remoteBook 0) = true ∧
    c8Env2.pushResult 0 =
      PushOutcome.fail "409: file sha does not match latest sha" ∧
    safeSyncWithRepository c8Env2 c8Book =
      SyncRun.mk (SyncResult.mk false (Option.some [])
        (Option.some "409: file sha does not match latest sha") false
        Option.none Option.none Option.none) [c8Merged, c8Merged] 2 :=
  ⟨rfl, rfl,
    C8_amended_exactly_one_retry c8Env2 c8Book
      (MergeResult.mk c8Merged false []) (MergeResult.mk c8Merged false [])
      "409: file sha does not match latest sha"
      "409: file sha does not match latest sha"
      rfl rfl rfl (by decide) rfl rfl rfl rfl rfl (by decide) rfl⟩

/-- C9: for a conflict-free sync whose merged document is identical to the
remote once sync markers are stripped, no push occurs (`wasPushed: false`,
empty push log, one attempt) and the returned document is stamped with the
remote's current commit SHA in `github.lastSyncCommitSha`; moreover, on
every run of `safeSyncWithRepository` that returns a `mergedContent`
document, that document's `github.lastSyncedContent` legacy snapshot has
been deleted (is not truthily present). -/
theorem C9_identical_no_push_marker_refresh
    (env : SyncEnv) (book : Json) (mr : MergeResult) (s : String)
    (hr : truthy (env.remoteBook 0) = true)
    (hm : mergeContent (syncBaseContent env book 0) (syncCleanRemote env 0)
      (stripSyncMeta book) = Except.ok mr)
    (hc : mr.hasConflicts = false)
    (hid : stripSyncMeta mr.content = syncCleanRemote env 0)
    (hsha : env.latestSha 0 = Option.some s)
    (hobj : Json.isObjB mr.content = true) :
    safeSyncWithRepository env book =
      SyncRun.mk (SyncResult.mk true (Option.some []) Option.none false
        Option.none
        (Option.some (stampSha mr.content (Option.some (Json.str s))))
        (Option.some false)) [] 1 ∧
    getKO ((stampSha mr.content (Option.some (Json.str s))).getK "github")
      "lastSyncCommitSha" = Option.some (Json.str s) ∧
    truthy (getKO ((stampSha mr.content
      (Option.some (Json.str s))).getK "github") "lastSyncedContent")
      = false ∧
    (∀ (env2 : SyncEnv) (b2 d : Json),
      (safeSyncWithRepository env2 b2).result.mergedContent =
        Option.some d →
      truthy (getKO (d.getK "github") "lastSyncedContent") = false) := by
  refine ⟨?_, stampSha_marker _ hobj, stampSha_no_legacy _ _, ?_⟩
  · have h0 : syncPass env book 0 = PassOut.mk
        (SyncResult.mk true (Option.some []) Option.none false Option.none
          (Option.some (stampSha mr.content (Option.some (Json.str s))))
          (Option.some false)) false [] := by
      rw [syncPass, hr]
      simp only [Bool.not_true, Bool.false_eq_true, if_false]
      simp only [hm]
      rw [if_neg (by simp [hc]), if_neg (fun hne => hne hid), hsha]
    rw [safeSyncWithRepository, h0]
    rfl
  · intro env2 b2 d hd
    have hst : ∃ c sha, d = stampSha c sha := by
      rw [safeSyncWithRepository] at hd
      by_cases hrt : (syncPass env2 b2 0).retry = true
      · rw [if_pos hrt] at hd
        exact syncPass_mergedContent_stamped hd
      · rw [if_neg hrt] at hd
        exact syncPass_mergedContent_stamped hd
    obtain ⟨c, sha, rfl⟩ := hst
    exact stampSha_no_legacy c sha

/-- A fully populated document: every schema field present, `github`
object free of sync markers.  Used as both the local and the remote book
of the C9 witness run. -/
def fullDoc : Json := Json.obj [("title", Json.str "T"),
  ("author", Json.str "A"),
  ("scenes", Json.arr []), ("characters", Json.arr []),
  ("chapters", Json.arr [Json.obj [("id", Json.str "1"),
    ("n", Json.num 3)]]),
  ("parts", Json.arr []), ("locations", Json.arr []),
  ("backgroundFolders", Json.arr []), ("frontMatter", Json.arr []),
  ("characterDetectionBlacklist", Json.arr [Json.str "bob"]),
  ("template", Json.obj [("size", Json.str "A4")]),
  ("github", Json.obj []),
  ("metadata", Json.obj [("modified", Json.str "t0")]),
  ("collaboration", Json.obj []), ("extra", Json.num 7)]

/-- Witness environment for C9: local equals remote, so the merge is
conflict-free and identical to the remote; the repository's latest commit
SHA is `sha1`. -/
def c9Env : SyncEnv :=
  SyncEnv.mk (fun _ => Option.some fullDoc) (fun _ => Option.none)
    (fun _ => PushOutcome.ok Option.none) (fun _ => Option.some "sha1")

/-- Witness for C9 at a concrete run. -/
theorem C9_witness :
    truthy (c9Env.remoteBook 0) = true ∧
    c9Env.latestSha 0 = Option.some "sha1" ∧
    safeSyncWithRepository c9Env fullDoc =
      SyncRun.mk (SyncResult.mk true (Option.some []) Option.none false
        Option.none
        (Option.some (stampSha fullDoc (Option.some (Json.str "sha1"))))
        (Option.some false)) [] 1 ∧
    getKO ((stampSha fullDoc (Option.some (Json.str "sha1"))).getK "github")
      "lastSyncCommitSha" = Option.some (Json.str "sha1") :=
  ⟨rfl, rfl,
    (C9_identical_no_push_marker_refresh c9Env fullDoc
      (MergeResult.mk fullDoc false []) "sha1"
      rfl rfl rfl rfl rfl rfl).1,
    (C9_identical_no_push_marker_refresh c9Env fullDoc
      (MergeResult.mk fullDoc false []) "sha1"
      rfl rfl rfl rfl rfl rfl).2.1⟩

/-!
## Claim C4 — idempotence of the identical merge

`mergeContent(X, X, X)` rebuilds every known schema field, so a document
lacking one of them gains it with a default empty value; on documents that
carry all known fields in well-formed shape the merge is the identity.
-/

/-- In a list with duplicate-free ids, `findById` at an item's own id
returns that item. -/
theorem findById_self_of_nodup {xs : List Json}
    (hnd : (xs.map (fun x => x.getK "id")).Nodup) :
    ∀ x ∈ xs, findById xs (x.getK "id") = Option.some x := by
  induction xs with
  | nil => intro x hx; cases hx
  | cons a rest ih =>
    intro x hx
    rcases List.mem_cons.mp hx with h | h
    · subst h; exact findById_cons_self _ _
    · rw [List.map_cons] at hnd
      have hnd' := List.nodup_cons.mp hnd
      have hne : (a.getK "id" == x.getK "id") = false := by
        simp only [beq_eq_false_iff_ne, ne_eq]
        intro he
        exact hnd'.1 (he ▸ List.mem_map_of_mem _ h)
      rw [findById, List.find?_cons_of_neg _ (by simp [hne])]
      exact ih hnd'.2 x h

theorem dedupSeen_triple {α : Type} [DecidableEq α] (l : List α)
    (h : l.Nodup) : dedupSeen [] (l ++ l ++ l) = l := by
  rw [dedupSeen_append [] (l ++ l) l, dedupSeen_append [] l l,
    dedupSeen_of_nodup [] l h (by simp),
    dedupSeen_all_seen ([] ++ l) l (by simp),
    dedupSeen_all_seen ([] ++ (l ++ l)) l (by simp)]
  simp

theorem flatMap_map_singleton {α β : Type} (xs : List α) (keyOf : α → β)
    (F : β → List α) (h : ∀ x ∈ xs, F (keyOf x) = [x]) :
    (xs.map keyOf).flatMap F = xs := by
  induction xs with
  | nil => rfl
  | cons a rest ih =>
    simp only [List.map_cons, List.flatMap_cons,
      h a (List.mem_cons_self _ _)]
    rw [ih (fun x hx => h x (List.mem_cons_of_mem _ hx))]
    rfl

theorem flatMap_map_nil {α β γ : Type} (xs : List α) (keyOf : α → β)
    (F : β → List γ) (h : ∀ x ∈ xs, F (keyOf x) = []) :
    (xs.map keyOf).flatMap F = [] := by
  induction xs with
  | nil => rfl
  | cons a rest ih =>
    simp only [List.map_cons, List.flatMap_cons,
      h a (List.mem_cons_self _ _)]
    simpa using ih (fun x hx => h x (List.mem_cons_of_mem _ hx))

/-- The per-id loop at an id whose (identical) three items coincide keeps
the item unchanged and reports nothing. -/
theorem mergeArrayItem_refl (f : String) (xs : List Json)
    (id : Option Json) (x : Json) (hf : findById xs id = Option.some x)
    (hx : Json.isObjB x = true) :
    mergeArrayItem f xs xs xs id = ([x], []) := by
  simp only [mergeArrayItem, hf, if_true]
  rw [spreadObj_obj hx]

/-- `mergeArrayWithIds` with three identical well-formed collections is the
identity write-back with no conflicts. -/
theorem mergeArrayWithIds_refl (f : String) (X m : Json)
    (c : List Conflict) (xs : List Json)
    (hf : X.getK f = Option.some (Json.arr xs))
    (hobj : ∀ x ∈ xs, Json.isObjB x = true)
    (hnd : (xs.map (fun x => x.getK "id")).Nodup) :
    mergeArrayWithIds f X X X m c =
      Except.ok (m.setK f (Option.some (Json.arr xs)), c) := by
  have ha : asArrThrow (X.getK f) "map" = Except.ok xs := by rw [hf]; rfl
  have hitem : ∀ x ∈ xs, mergeArrayItem f xs xs xs (x.getK "id") = ([x], []) :=
    fun x hx => mergeArrayItem_refl f xs (x.getK "id") x
      (findById_self_of_nodup hnd x hx) (hobj x hx)
  have hids : dedupIds (xs.map (fun x => x.getK "id") ++
      xs.map (fun x => x.getK "id") ++ xs.map (fun x => x.getK "id")) =
      xs.map (fun x => x.getK "id") := dedupSeen_triple _ hnd
  have h1 : (xs.map (fun x => x.getK "id")).flatMap
      (fun id => (mergeArrayItem f xs xs xs id).1) = xs :=
    flatMap_map_singleton xs _ _ (fun x hx => by rw [hitem x hx])
  have h2 : (xs.map (fun x => x.getK "id")).flatMap
      (fun id => (mergeArrayItem f xs xs xs id).2) = [] :=
    flatMap_map_nil xs _ _ (fun x hx => by rw [hitem x hx])
  simp only [mergeArrayWithIds]
  rw [ha]
  show Except.ok
      (m.setK f (Option.some (Json.arr ((dedupIds
        (xs.map (fun x => x.getK "id") ++ xs.map (fun x => x.getK "id") ++
         xs.map (fun x => x.getK "id"))).flatMap
          (fun id => (mergeArrayItem f xs xs xs id).1)))),
       c ++ (dedupIds
        (xs.map (fun x => x.getK "id") ++ xs.map (fun x => x.getK "id") ++
         xs.map (fun x => x.getK "id"))).flatMap
          (fun id => (mergeArrayItem f xs xs xs id).2)) =
    Except.ok (m.setK f (Option.some (Json.arr xs)), c)
  rw [hids, h1, h2, List.append_nil]

/-- The set merge of three identical duplicate-free arrays is the
identity with no contradictions. -/
theorem mergeSimpleArrayCore_refl (xs : List Json) (hnd : xs.Nodup) :
    mergeSimpleArrayCore xs xs xs = (xs, []) := by
  have hfilter : xs.filter (fun x => !(xs.contains x)) = [] :=
    List.filter_eq_nil.mpr (fun a ha => by simp [ha])
  simp only [mergeSimpleArrayCore, hfilter, List.nil_append,
    List.foldl_nil, List.filter_nil, List.map_nil, List.append_nil, dedupJ]
  rw [dedupSeen_of_nodup [] xs hnd (fun x _ => List.not_mem_nil x)]

theorem mergeSimpleArray_refl (f : String) (X m : Json)
    (c : List Conflict) (xs : List Json)
    (hf : X.getK f = Option.some (Json.arr xs)) (hnd : xs.Nodup) :
    mergeSimpleArray f X X X m c =
      Except.ok (m.setK f (Option.some (Json.arr xs)), c) := by
  have ha : ∀ s, asArrThrow (X.getK f) s = Except.ok xs := by
    intro s; rw [hf]; rfl
  simp only [mergeSimpleArray]
  rw [ha "iterate", ha "filter"]
  show Except.ok
      (m.setK f (Option.some (Json.arr (mergeSimpleArrayCore xs xs xs).1)),
       if 0 < (mergeSimpleArrayCore xs xs xs).2.length then
         c ++ [Conflict.arrayContra (f ++ "_array")
           (mergeSimpleArrayCore xs xs xs).2]
       else c) =
    Except.ok (m.setK f (Option.some (Json.arr xs)), c)
  rw [mergeSimpleArrayCore_refl xs hnd]
  rfl

/-- The per-key loop of `mergeObject` on three identical flat records
keeps the present value and reports nothing. -/
theorem mergeObjectKey_refl {gkvs : List (String × Json)} (f key : String)
    (hflat : gkvs.all (fun p => !p.2.objLike) = true) :
    mergeObjectKey (Json.obj gkvs) (Json.obj gkvs) (Json.obj gkvs) f key =
      ((Json.obj gkvs).getK key, []) := by
  cases hv : (Json.obj gkvs).getK key with
  | none => simp only [mergeObjectKey, hv]; rfl
  | some v =>
    have hvo : v.objLike = false := by
      simp only [Json.getK, Option.map_eq_some'] at hv
      obtain ⟨p, hp, hpv⟩ := hv
      have hpm := List.mem_of_find?_eq_some hp
      have hall := List.all_eq_true.mp hflat p hpm
      rw [← hpv]
      simpa using hall
    simp only [mergeObjectKey, hv]
    rw [if_neg (by simp [hvo]), if_pos (by simp [jsEq, hvo])]

theorem mergeObject_refl (f : String) (X m : Json) (c : List Conflict)
    (gkvs : List (String × Json))
    (hf : X.getK f = Option.some (Json.obj gkvs))
    (hnd : (gkvs.map Prod.fst).Nodup)
    (hflat : gkvs.all (fun p => !p.2.objLike) = true) :
    mergeObject f X X X m c =
      (m.setK f (Option.some (Json.obj gkvs)), c) := by
  have hoe : orEmptyObj (X.getK f) = Json.obj gkvs := by rw [hf]; rfl
  have hinner : ∀ keys : List String,
      keys.foldl (fun inner key =>
        inner.setK key (mergeObjectKey (Json.obj gkvs) (Json.obj gkvs)
          (Json.obj gkvs) f key).1) (Json.obj gkvs) = Json.obj gkvs := by
    intro keys
    induction keys with
    | nil => rfl
    | cons k rest ih =>
      simp only [List.foldl_cons, mergeObjectKey_refl f k hflat]
      rw [setK_getK_self k hnd]
      exact ih
  have hconf : ∀ keys : List String,
      keys.flatMap (fun key => (mergeObjectKey (Json.obj gkvs)
        (Json.obj gkvs) (Json.obj gkvs) f key).2) = [] := by
    intro keys
    induction keys with
    | nil => rfl
    | cons k rest ih =>
      simp only [List.flatMap_cons, mergeObjectKey_refl f k hflat]
      simpa using ih
  simp only [mergeObject, hoe]
  rw [hinner, hconf, List.append_nil]

/-- `mergeSimpleField` with identical local and remote writes the shared
value back, the identity on a duplicate-free object. -/
theorem mergeSimpleField_refl (f : String) (B : Json)
    (kvs : List (String × Json)) (hnd : (kvs.map Prod.fst).Nodup)
    (c : List Conflict) :
    mergeSimpleField f B (Json.obj kvs) (Json.obj kvs) (Json.obj kvs) c =
      (Json.obj kvs, c) := by
  simp only [mergeSimpleField, if_pos]
  rw [setK_getK_self f hnd]

theorem mergeRemainingFields_refl (kvs : List (String × Json))
    (hnd : (kvs.map Prod.fst).Nodup) (c : List Conflict) :
    mergeRemainingFields (Json.obj kvs) (Json.obj kvs) (Json.obj kvs)
      (Json.obj kvs) c = (Json.obj kvs, c) := by
  have hstep : ∀ (keys : List String) (c' : List Conflict),
      keys.foldl (fun (acc : Json × List Conflict) key =>
        if handledFields.contains key then acc
        else mergeSimpleField key (Json.obj kvs) (Json.obj kvs)
          (Json.obj kvs) acc.1 acc.2) (Json.obj kvs, c') =
      (Json.obj kvs, c') := by
    intro keys
    induction keys with
    | nil => intro c'; rfl
    | cons k rest ih =>
      intro c'
      simp only [List.foldl_cons]
      by_cases hk : handledFields.contains k = true
      · rw [if_pos hk]; exact ih c'
      · rw [if_neg hk]
        show rest.foldl _ (mergeSimpleField k (Json.obj kvs) (Json.obj kvs)
          (Json.obj kvs) (Json.obj kvs) c') = _
        rw [mergeSimpleField_refl k _ kvs hnd c']
        exact ih c'
  simp only [mergeRemainingFields]
  exact hstep _ c

/-- Well-formed identity collection: an array of objects with
duplicate-free (by structural id value) items. -/
def collOKB : Option Json → Bool
  | Option.some (Json.arr xs) =>
      xs.all Json.isObjB &&
      decide ((xs.map (fun x => x.getK "id")).Nodup)
  | _ => false

/-- Well-formed flat record: an object with duplicate-free keys and no
object/array values. -/
def recOKB : Option Json → Bool
  | Option.some (Json.obj gkvs) =>
      decide ((gkvs.map Prod.fst).Nodup) &&
      gkvs.all (fun p => !p.2.objLike)
  | _ => false

/-- Well-formed scalar set: a duplicate-free array. -/
def setOKB : Option Json → Bool
  | Option.some (Json.arr xs) => decide xs.Nodup
  | _ => false

/-- Documents on which the identical three-way merge is the identity:
every known schema field present and well-formed. -/
def idemWF : Json → Bool
  | Json.obj kvs =>
      decide ((kvs.map Prod.fst).Nodup) &&
      (["scenes", "characters", "chapters", "parts", "locations",
        "backgroundFolders", "frontMatter"].all fun f =>
          collOKB ((Json.obj kvs).getK f)) &&
      setOKB ((Json.obj kvs).getK "characterDetectionBlacklist") &&
      (["template", "github", "metadata", "collaboration"].all fun f =>
        recOKB ((Json.obj kvs).getK f))
  | _ => false

theorem collOKB_elim {v : Option Json} (h : collOKB v = true) :
    ∃ xs, v = Option.some (Json.arr xs) ∧
      (∀ x ∈ xs, Json.isObjB x = true) ∧
      (xs.map (fun x => x.getK "id")).Nodup := by
  match v, h with
  | Option.some (Json.arr xs), h =>
    simp only [collOKB, Bool.and_eq_true, List.all_eq_true,
      decide_eq_true_eq] at h
    exact ⟨xs, rfl, h.1, h.2⟩

theorem recOKB_elim {v : Option Json} (h : recOKB v = true) :
    ∃ gkvs, v = Option.some (Json.obj gkvs) ∧
      (gkvs.map Prod.fst).Nodup ∧
      gkvs.all (fun p => !p.2.objLike) = true := by
  match v, h with
  | Option.some (Json.obj gkvs), h =>
    simp only [recOKB, Bool.and_eq_true, decide_eq_true_eq] at h
    exact ⟨gkvs, rfl, h.1, h.2⟩

theorem setOKB_elim {v : Option Json} (h : setOKB v = true) :
    ∃ xs, v = Option.some (Json.arr xs) ∧ xs.Nodup := by
  match v, h with
  | Option.some (Json.arr xs), h =>
    simp only [setOKB, decide_eq_true_eq] at h
    exact ⟨xs, rfl, h⟩

/-- The document produced by merging three empty documents: every known
schema field has been populated with its default empty value. -/
def c4Defaults : Json := Json.obj [("scenes", Json.arr []),
  ("characters", Json.arr []), ("chapters", Json.arr []),
  ("parts", Json.arr []), ("locations", Json.arr []),
  ("backgroundFolders", Json.arr []), ("frontMatter", Json.arr []),
  ("characterDetectionBlacklist", Json.arr []),
  ("template", Json.obj []), ("github", Json.obj []),
  ("metadata", Json.obj []), ("collaboration", Json.obj [])]

/-- C4 counterexample: for the empty document `X = {}` (which lacks the
known schema fields), `mergeContent(X, X, X)` returns a conflict-free
result whose content is NOT deep-equal to `X`: the merge materialises all
twelve known collection/record fields with default empty values. -/
theorem C4_counterexample_empty_doc_gains_defaults :
    mergeContent (Json.obj []) (Json.obj []) (Json.obj []) =
      Except.ok (MergeResult.mk c4Defaults false []) ∧
    c4Defaults ≠ Json.obj [] :=
  ⟨rfl, by decide⟩

/-- C4 (amended): `mergeContent(X, X, X)` returns content deep-equal to
`X` with no conflicts for every well-formed document that carries all
known schema fields: the seven id collections as arrays of objects with
duplicate-free ids, the blacklist as a duplicate-free array, and the four
record fields as flat duplicate-free objects; a document lacking a known
field is instead completed with that field's default empty value. -/
theorem C4_amended_identical_merge (X : Json) (h : idemWF X = true) :
    mergeContent X X X = Except.ok (MergeResult.mk X false []) := by
  obtain ⟨kvs, rfl⟩ : ∃ kvs, X = Json.obj kvs := by
    cases X <;> first | exact ⟨_, rfl⟩ | simp [idemWF] at h
  simp only [idemWF, Bool.and_eq_true, List.all_eq_true,
    decide_eq_true_eq] at h
  obtain ⟨⟨⟨hnd, hcolls⟩, hset⟩, hrecs⟩ := h
  obtain ⟨sc, hsc, hscO, hscN⟩ := collOKB_elim (hcolls "scenes" (by simp))
  obtain ⟨ch, hch, hchO, hchN⟩ :=
    collOKB_elim (hcolls "characters" (by simp))
  obtain ⟨cp, hcp, hcpO, hcpN⟩ := collOKB_elim (hcolls "chapters" (by simp))
  obtain ⟨pa, hpa, hpaO, hpaN⟩ := collOKB_elim (hcolls "parts" (by simp))
  obtain ⟨lo, hlo, hloO, hloN⟩ :=
    collOKB_elim (hcolls "locations" (by simp))
  obtain ⟨bg, hbg, hbgO, hbgN⟩ :=
    collOKB_elim (hcolls "backgroundFolders" (by simp))
  obtain ⟨fm, hfm, hfmO, hfmN⟩ :=
    collOKB_elim (hcolls "frontMatter" (by simp))
  obtain ⟨bl, hbl, hblN⟩ := setOKB_elim hset
  obtain ⟨tp, htp, htpN, htpF⟩ := recOKB_elim (hrecs "template" (by simp))
  obtain ⟨gh, hgh, hghN, hghF⟩ := recOKB_elim (hrecs "github" (by simp))
  obtain ⟨md, hmd, hmdN, hmdF⟩ := recOKB_elim (hrecs "metadata" (by simp))
  obtain ⟨cl, hcl, hclN, hclF⟩ :=
    recOKB_elim (hrecs "collaboration" (by simp))
  have earr : ∀ (f : String) (xs : List Json),
      (Json.obj kvs).getK f = Option.some (Json.arr xs) →
      (∀ x ∈ xs, Json.isObjB x = true) →
      (xs.map (fun x => x.getK "id")).Nodup →
      mergeArrayWithIds f (Json.obj kvs) (Json.obj kvs) (Json.obj kvs)
        (Json.obj kvs) [] = Except.ok (Json.obj kvs, []) := by
    intro f xs hf hO hN
    rw [mergeArrayWithIds_refl f (Json.obj kvs) (Json.obj kvs) [] xs hf hO hN,
      ← hf, setK_getK_self f hnd]
  have eobj : ∀ (f : String) (gkvs : List (String × Json)),
      (Json.obj kvs).getK f = Option.some (Json.obj gkvs) →
      (gkvs.map Prod.fst).Nodup →
      gkvs.all (fun p => !p.2.objLike) = true →
      mergeObject f (Json.obj kvs) (Json.obj kvs) (Json.obj kvs)
        (Json.obj kvs) [] = (Json.obj kvs, []) := by
    intro f gkvs hf hN hF
    rw [mergeObject_refl f (Json.obj kvs) (Json.obj kvs) [] gkvs hf hN hF,
      ← hf, setK_getK_self f hnd]
  have e10 : mergeSimpleArray "characterDetectionBlacklist" (Json.obj kvs)
      (Json.obj kvs) (Json.obj kvs) (Json.obj kvs) [] =
      Except.ok (Json.obj kvs, []) := by
    rw [mergeSimpleArray_refl "characterDetectionBlacklist" (Json.obj kvs)
      (Json.obj kvs) [] bl hbl hblN, ← hbl, setK_getK_self _ hnd]
  simp only [mergeContent, bind, Except.bind,
    mergeSimpleField_refl "title" (Json.obj kvs) kvs hnd,
    mergeSimpleField_refl "author" (Json.obj kvs) kvs hnd,
    earr "scenes" sc hsc hscO hscN,
    earr "characters" ch hch hchO hchN,
    earr "chapters" cp hcp hcpO hcpN,
    earr "parts" pa hpa hpaO hpaN,
    earr "locations" lo hlo hloO hloN,
    earr "backgroundFolders" bg hbg hbgO hbgN,
    earr "frontMatter" fm hfm hfmO hfmN,
    e10,
    eobj "template" tp htp htpN htpF,
    eobj "github" gh hgh hghN hghF,
    eobj "metadata" md hmd hmdN hmdF,
    eobj "collaboration" cl hcl hclN hclF,
    mergeRemainingFields_refl kvs hnd]
  rfl

/-- Witness for C4 (amended): the fully populated document is a fixed
point of the identical merge. -/
theorem C4_amended_witness :
    idemWF fullDoc = true ∧
    mergeContent fullDoc fullDoc fullDoc =
      Except.ok (MergeResult.mk fullDoc false []) :=
  ⟨by decide, C4_amended_identical_merge fullDoc (by decide)⟩

/-!
## Claim C3 — no-op-side convergence of `mergeContent`

Infrastructure: shape-tracking variants of the `setK`/`getK` lemmas, chains
of keyed assignments, and the dedup shape of the union id list.
-/

theorem setK_isObjB {j : Json} (hj : Json.isObjB j = true) (k : String)
    (v : Option Json) : Json.isObjB (j.setK k v) = true := by
  obtain ⟨kvs, rfl⟩ := isObjB_shape hj
  obtain ⟨kvs', h'⟩ := setK_obj_shape kvs k v
  rw [h']
  rfl

theorem getK_setK_self' {j : Json} (hj : Json.isObjB j = true) (k : String)
    (v : Option Json) : (j.setK k v).getK k = v := by
  obtain ⟨kvs, rfl⟩ := isObjB_shape hj
  exact getK_setK_self kvs k v

theorem getK_setK_ne' {j : Json} (hj : Json.isObjB j = true)
    {k k' : String} (v : Option Json) (hne : k' ≠ k) :
    (j.setK k v).getK k' = j.getK k' := by
  obtain ⟨kvs, rfl⟩ := isObjB_shape hj
  exact getK_setK_ne kvs v hne

theorem getK_eq_none_of_not_mem_keys {kvs : List (String × Json)}
    {k : String} (h : k ∉ kvs.map Prod.fst) :
    (Json.obj kvs).getK k = Option.none := by
  cases hv : (Json.obj kvs).getK k with
  | none => rfl
  | some v => exact absurd (getK_some_mem_keys hv) h

/-- `(x || {})[k]` agrees with `x?.[k]` for every JSON value. -/
theorem orEmptyObj_getK (v : Option Json) (k : String) :
    (orEmptyObj v).getK k = getKO v k := by
  cases v with
  | none => rfl
  | some j =>
    cases j <;> first
      | rfl
      | (simp only [orEmptyObj]; split <;> rfl)

theorem flatMap_eq_map_of_singleton {α β : Type} (l : List α)
    (F : α → List β) (g : α → β) (h : ∀ a ∈ l, F a = [g a]) :
    l.flatMap F = l.map g := by
  induction l with
  | nil => rfl
  | cons a rest ih =>
    simp only [List.flatMap_cons, List.map_cons,
      h a (List.mem_cons_self _ _)]
    rw [ih (fun x hx => h x (List.mem_cons_of_mem _ hx))]
    rfl

theorem flatMap_eq_nil_of_forall {α β : Type} (l : List α)
    (F : α → List β) (h : ∀ a ∈ l, F a = []) : l.flatMap F = [] := by
  induction l with
  | nil => rfl
  | cons a rest ih =>
    simp only [List.flatMap_cons, h a (List.mem_cons_self _ _)]
    simpa using ih (fun x hx => h x (List.mem_cons_of_mem _ hx))

theorem foldl_setK_pairs_isObjB (pairs : List (String × Option Json))
    {j : Json} (hj : Json.isObjB j = true) :
    Json.isObjB (pairs.foldl (fun m p => m.setK p.1 p.2) j) = true := by
  induction pairs generalizing j with
  | nil => exact hj
  | cons p rest ih =>
    simp only [List.foldl_cons]
    exact ih (setK_isObjB hj p.1 p.2)

/-- A chain of keyed assignments: a key outside the chain is untouched. -/
theorem foldl_setK_pairs_getK_not_mem (pairs : List (String × Option Json))
    {j : Json} (hj : Json.isObjB j = true) {k : String}
    (hk : k ∉ pairs.map Prod.fst) :
    (pairs.foldl (fun m p => m.setK p.1 p.2) j).getK k = j.getK k := by
  induction pairs generalizing j with
  | nil => rfl
  | cons p rest ih =>
    simp only [List.map_cons] at hk
    simp only [List.foldl_cons]
    have h1 : k ∉ rest.map Prod.fst :=
      fun h => hk (List.mem_cons_of_mem _ h)
    have h2 : k ≠ p.1 := fun h => hk (h ▸ List.mem_cons_self _ _)
    rw [ih (setK_isObjB hj p.1 p.2) h1]
    exact getK_setK_ne' hj p.2 h2

/-- A chain of keyed assignments with duplicate-free keys: each written key
reads back its written value. -/
theorem foldl_setK_pairs_getK_mem (pairs : List (String × Option Json))
    {j : Json} (hj : Json.isObjB j = true)
    (hnd : (pairs.map Prod.fst).Nodup) {k : String} {v : Option Json}
    (hmem : (k, v) ∈ pairs) :
    (pairs.foldl (fun m p => m.setK p.1 p.2) j).getK k = v := by
  induction pairs generalizing j with
  | nil => cases hmem
  | cons p rest ih =>
    simp only [List.foldl_cons]
    rw [List.map_cons] at hnd
    rcases List.mem_cons.mp hmem with h | h
    · subst h
      rw [foldl_setK_pairs_getK_not_mem rest (setK_isObjB hj k v)
        (List.nodup_cons.mp hnd).1]
      exact getK_setK_self' hj k v
    · exact ih (setK_isObjB hj p.1 p.2) (List.nodup_cons.mp hnd).2 h

/-- Shape of the deduplicated union id list when the first and third chunks
coincide: base ids first, then the new ids of the middle chunk. -/
theorem dedupSeen_bab {α : Type} [DecidableEq α] (b l : List α)
    (hb : b.Nodup) (hl : l.Nodup) :
    dedupSeen [] (b ++ l ++ b) = b ++ l.filter (fun x => decide (x ∉ b)) := by
  rw [dedupSeen_append [] (b ++ l) b, dedupSeen_append [] b l,
    dedupSeen_of_nodup [] b hb (by simp),
    dedupSeen_filter ([] ++ b) l hl,
    dedupSeen_all_seen ([] ++ (b ++ l)) b
      (fun x hx => by simp [hx])]
  simp only [List.append_nil]
  refine congrArg _ (List.filter_congr ?_)
  intro x hx
  simp

/-- Shape of the deduplicated union id list when the first two chunks
coincide: base ids first, then the new ids of the last chunk. -/
theorem dedupSeen_bbr {α : Type} [DecidableEq α] (b r : List α)
    (hb : b.Nodup) (hr : r.Nodup) :
    dedupSeen [] (b ++ b ++ r) = b ++ r.filter (fun x => decide (x ∉ b)) := by
  rw [dedupSeen_append [] (b ++ b) r, dedupSeen_append [] b b,
    dedupSeen_of_nodup [] b hb (by simp),
    dedupSeen_all_seen ([] ++ b) b (by simp),
    dedupSeen_filter ([] ++ (b ++ b)) r hr]
  simp only [List.append_nil]
  refine congrArg _ (List.filter_congr ?_)
  intro x hx
  simp

/-- The base-first union list is a permutation of the superset side. -/
theorem perm_b_filter {α : Type} [DecidableEq α] (b l : List α)
    (hb : b.Nodup) (hl : l.Nodup) (hsub : ∀ x ∈ b, x ∈ l) :
    (b ++ l.filter (fun x => decide (x ∉ b))).Perm l := by
  have hnd : (b ++ l.filter (fun x => decide (x ∉ b))).Nodup := by
    refine List.Nodup.append hb (hl.filter _) ?_
    intro x hxb hxf
    have := (List.mem_filter.mp hxf).2
    simp only [decide_eq_true_eq] at this
    exact this hxb
  refine (List.perm_ext_iff_of_nodup hnd hl).mpr ?_
  intro x
  simp only [List.mem_append, List.mem_filter, decide_eq_true_eq]
  constructor
  · rintro (h | ⟨h, _⟩)
    · exact hsub x h
    · exact h
  · intro h
    by_cases hxb : x ∈ b
    · exact Or.inl hxb
    · exact Or.inr ⟨h, hxb⟩

theorem nodup_setAdd {s : List Json} (hs : s.Nodup) (x : Json) :
    (setAdd s x).Nodup := by
  rw [setAdd]
  split
  · exact hs
  · refine List.Nodup.append hs (List.nodup_singleton x) ?_
    intro y hy hy1
    rw [List.mem_singleton] at hy1
    subst hy1
    rename_i hc
    exact hc (by simpa using hy)

theorem nodup_foldl_setAdd (xs : List Json) {s : List Json}
    (hs : s.Nodup) : (xs.foldl setAdd s).Nodup := by
  induction xs generalizing s with
  | nil => exact hs
  | cons a rest ih =>
    simp only [List.foldl_cons]
    exact ih (nodup_setAdd hs a)

theorem nodup_foldl_removeAll (del guard : List Json) {s : List Json}
    (hs : s.Nodup) :
    (del.foldl (fun s x =>
      if guard.contains x then s else s.filter (fun z => z ≠ x)) s).Nodup := by
  induction del generalizing s with
  | nil => exact hs
  | cons a rest ih =>
    simp only [List.foldl_cons]
    split
    · exact ih hs
    · exact ih (hs.filter _)

/-- The merged scalar set is always duplicate-free. -/
theorem mergeSimpleArrayCore_nodup (bs ls rs : List Json) :
    (mergeSimpleArrayCore bs ls rs).1.Nodup := by
  simp only [mergeSimpleArrayCore]
  exact nodup_foldl_removeAll _ _
    (nodup_foldl_removeAll _ _
      (nodup_foldl_setAdd _ (nodup_dedupSeen [] bs)))

/-- When local equals base, `mergeSimpleField` always writes the remote
value with no conflict. -/
theorem mergeSimpleField_local_base (f : String) (B R m : Json)
    (c : List Conflict) :
    mergeSimpleField f B B R m c = (m.setK f (R.getK f), c) := by
  by_cases h : B.getK f = R.getK f <;> simp [mergeSimpleField, h]

/-- When remote equals base, `mergeSimpleField` always writes the local
value with no conflict. -/
theorem mergeSimpleField_remote_base (f : String) (B L m : Json)
    (c : List Conflict) :
    mergeSimpleField f B L B m c = (m.setK f (L.getK f), c) := by
  by_cases h : L.getK f = B.getK f <;> simp [mergeSimpleField, h]

/-- Per-id loop, local = base, id present on both sides: the remote item
survives with no conflict. -/
theorem mergeArrayItem_lb_both (f : String) (bs rs : List Json)
    (id : Option Json) {bi ri : Json}
    (hb : findById bs id = Option.some bi)
    (hbo : Json.isObjB bi = true)
    (hr : findById rs id = Option.some ri)
    (hro : Json.isObjB ri = true) :
    mergeArrayItem f bs bs rs id = ([ri], []) := by
  simp only [mergeArrayItem, hb, hr]
  by_cases heq : bi = ri
  · rw [if_pos heq, spreadObj_obj (heq ▸ hbo), heq]
  · rw [if_neg heq,
      if_pos (by simp [truthy_of_isObjB hbo]), spreadObj_obj hro]

/-- Per-id loop, local = base, id only on the remote side: the remote item
is added with no conflict. -/
theorem mergeArrayItem_lb_remote_only (f : String) (bs rs : List Json)
    (id : Option Json) {ri : Json}
    (hb : findById bs id = Option.none)
    (hr : findById rs id = Option.some ri)
    (hro : Json.isObjB ri = true) :
    mergeArrayItem f bs bs rs id = ([ri], []) := by
  simp only [mergeArrayItem, hb, hr]
  rw [if_neg (by simp [truthy]), spreadObj_obj hro]

/-- Per-id loop, remote = base, id present on both sides: the local item
survives with no conflict. -/
theorem mergeArrayItem_rb_both (f : String) (bs ls : List Json)
    (id : Option Json) {bi li : Json}
    (hb : findById bs id = Option.some bi)
    (hbo : Json.isObjB bi = true)
    (hl : findById ls id = Option.some li)
    (hlo : Json.isObjB li = true) :
    mergeArrayItem f bs ls bs id = ([li], []) := by
  simp only [mergeArrayItem, hb, hl]
  by_cases heq : li = bi
  · rw [if_pos heq, spreadObj_obj hlo]
  · rw [if_neg heq, if_neg (by simp [heq]),
      if_pos (by simp [truthy_of_isObjB hbo]), spreadObj_obj hlo]

/-- Per-id loop, remote = base, id only on the local side: the local item
is added with no conflict. -/
theorem mergeArrayItem_rb_local_only (f : String) (bs ls : List Json)
    (id : Option Json) {li : Json}
    (hb : findById bs id = Option.none)
    (hl : findById ls id = Option.some li)
    (hlo : Json.isObjB li = true) :
    mergeArrayItem f bs ls bs id = ([li], []) := by
  simp only [mergeArrayItem, hb, hl]
  rw [if_neg (by simp [truthy]), spreadObj_obj hlo]

/-- The merged item list built by the per-id loop of `mergeArrayWithIds`
(the value written into `merged[fieldName]`). -/
def mergedIdColl (f : String) (bs ls rs : List Json) : List Json :=
  (dedupIds (bs.map (fun x => x.getK "id") ++
    ls.map (fun x => x.getK "id") ++
    rs.map (fun x => x.getK "id"))).flatMap
    (fun id => (mergeArrayItem f bs ls rs id).1)

/-- `mergeArrayWithIds` with local = base and no remote-side deletions:
the merged collection is written with no conflicts. -/
theorem mergeArrayWithIds_local_base_eq (f : String) (B R : Json)
    (bs rs : List Json)
    (hfB : B.getK f = Option.some (Json.arr bs))
    (hfR : R.getK f = Option.some (Json.arr rs))
    (hbsO : ∀ x ∈ bs, Json.isObjB x = true)
    (hrsO : ∀ x ∈ rs, Json.isObjB x = true)
    (hsub : ∀ id ∈ bs.map (fun x => x.getK "id"),
      id ∈ rs.map (fun x => x.getK "id"))
    (m : Json) (c : List Conflict) :
    mergeArrayWithIds f B B R m c =
      Except.ok (m.setK f (Option.some (Json.arr (mergedIdColl f bs bs rs))),
        c) := by
  have hconf : (dedupIds (bs.map (fun x => x.getK "id") ++
      bs.map (fun x => x.getK "id") ++ rs.map (fun x => x.getK "id"))).flatMap
      (fun id => (mergeArrayItem f bs bs rs id).2) = [] := by
    refine flatMap_eq_nil_of_forall _ _ ?_
    intro id hid
    have hidU := ((mem_dedupSeen _ _ _).mp hid).1
    have hidR : id ∈ rs.map (fun x => x.getK "id") := by
      rcases List.mem_append.mp hidU with h | h
      · rcases List.mem_append.mp h with h1 | h1 <;> exact hsub id h1
      · exact h
    obtain ⟨ri, hri⟩ :=
      Option.isSome_iff_exists.mp (findById_isSome_iff.mpr hidR)
    have hriO := hrsO ri (findById_eq_some hri).1
    by_cases hib : id ∈ bs.map (fun x => x.getK "id")
    · obtain ⟨bi, hbi⟩ :=
        Option.isSome_iff_exists.mp (findById_isSome_iff.mpr hib)
      have hbiO := hbsO bi (findById_eq_some hbi).1
      rw [mergeArrayItem_lb_both f bs rs id hbi hbiO hri hriO]
    · rw [mergeArrayItem_lb_remote_only f bs rs id
        (findById_eq_none hib) hri hriO]
  have ha : asArrThrow (B.getK f) "map" = Except.ok bs := by rw [hfB]; rfl
  have hr : asArrThrow (R.getK f) "map" = Except.ok rs := by rw [hfR]; rfl
  simp only [mergeArrayWithIds]
  rw [ha, hr]
  show Except.ok
      (m.setK f (Option.some (Json.arr (mergedIdColl f bs bs rs))),
       c ++ (dedupIds (bs.map (fun x => x.getK "id") ++
         bs.map (fun x => x.getK "id") ++
         rs.map (fun x => x.getK "id"))).flatMap
           (fun id => (mergeArrayItem f bs bs rs id).2)) =
    Except.ok (m.setK f (Option.some (Json.arr (mergedIdColl f bs bs rs))),
      c)
  rw [hconf, List.append_nil]

/-- `mergeArrayWithIds` with remote = base and no local-side deletions:
the merged collection is written with no conflicts. -/
theorem mergeArrayWithIds_remote_base_eq (f : String) (B L : Json)
    (bs ls : List Json)
    (hfB : B.getK f = Option.some (Json.arr bs))
    (hfL : L.getK f = Option.some (Json.arr ls))
    (hbsO : ∀ x ∈ bs, Json.isObjB x = true)
    (hlsO : ∀ x ∈ ls, Json.isObjB x = true)
    (hsub : ∀ id ∈ bs.map (fun x => x.getK "id"),
      id ∈ ls.map (fun x => x.getK "id"))
    (m : Json) (c : List Conflict) :
    mergeArrayWithIds f B L B m c =
      Except.ok (m.setK f (Option.some (Json.arr (mergedIdColl f bs ls bs))),
        c) := by
  have hconf : (dedupIds (bs.map (fun x => x.getK "id") ++
      ls.map (fun x => x.getK "id") ++ bs.map (fun x => x.getK "id"))).flatMap
      (fun id => (mergeArrayItem f bs ls bs id).2) = [] := by
    refine flatMap_eq_nil_of_forall _ _ ?_
    intro id hid
    have hidU := ((mem_dedupSeen _ _ _).mp hid).1
    have hidL : id ∈ ls.map (fun x => x.getK "id") := by
      rcases List.mem_append.mp hidU with h | h
      · rcases List.mem_append.mp h with h1 | h1
        · exact hsub id h1
        · exact h1
      · exact hsub id h
    obtain ⟨li, hli⟩ :=
      Option.isSome_iff_exists.mp (findById_isSome_iff.mpr hidL)
    have hliO := hlsO li (findById_eq_some hli).1
    by_cases hib : id ∈ bs.map (fun x => x.getK "id")
    · obtain ⟨bi, hbi⟩ :=
        Option.isSome_iff_exists.mp (findById_isSome_iff.mpr hib)
      have hbiO := hbsO bi (findById_eq_some hbi).1
      rw [mergeArrayItem_rb_both f bs ls id hbi hbiO hli hliO]
    · rw [mergeArrayItem_rb_local_only f bs ls id
        (findById_eq_none hib) hli hliO]
  have ha : asArrThrow (B.getK f) "map" = Except.ok bs := by rw [hfB]; rfl
  have hl : asArrThrow (L.getK f) "map" = Except.ok ls := by rw [hfL]; rfl
  simp only [mergeArrayWithIds]
  rw [ha, hl]
  show Except.ok
      (m.setK f (Option.some (Json.arr (mergedIdColl f bs ls bs))),
       c ++ (dedupIds (bs.map (fun x => x.getK "id") ++
         ls.map (fun x => x.getK "id") ++
         bs.map (fun x => x.getK "id"))).flatMap
           (fun id => (mergeArrayItem f bs ls bs id).2)) =
    Except.ok (m.setK f (Option.some (Json.arr (mergedIdColl f bs ls bs))),
      c)
  rw [hconf, List.append_nil]

/-- With local = base and no remote deletions the merged collection is a
permutation of the remote collection. -/
theorem mergedIdColl_local_base_perm (f : String) (bs rs : List Json)
    (hbsO : ∀ x ∈ bs, Json.isObjB x = true)
    (hrsO : ∀ x ∈ rs, Json.isObjB x = true)
    (hbsN : (bs.map (fun x => x.getK "id")).Nodup)
    (hrsN : (rs.map (fun x => x.getK "id")).Nodup)
    (hsub : ∀ id ∈ bs.map (fun x => x.getK "id"),
      id ∈ rs.map (fun x => x.getK "id")) :
    (mergedIdColl f bs bs rs).Perm rs := by
  have hpt : ∀ id ∈ dedupIds (bs.map (fun x => x.getK "id") ++
      bs.map (fun x => x.getK "id") ++ rs.map (fun x => x.getK "id")),
      (mergeArrayItem f bs bs rs id).1 =
        [(findById rs id).getD (Json.obj [])] := by
    intro id hid
    have hidU := ((mem_dedupSeen _ _ _).mp hid).1
    have hidR : id ∈ rs.map (fun x => x.getK "id") := by
      rcases List.mem_append.mp hidU with h | h
      · rcases List.mem_append.mp h with h1 | h1 <;> exact hsub id h1
      · exact h
    obtain ⟨ri, hri⟩ :=
      Option.isSome_iff_exists.mp (findById_isSome_iff.mpr hidR)
    have hriO := hrsO ri (findById_eq_some hri).1
    by_cases hib : id ∈ bs.map (fun x => x.getK "id")
    · obtain ⟨bi, hbi⟩ :=
        Option.isSome_iff_exists.mp (findById_isSome_iff.mpr hib)
      have hbiO := hbsO bi (findById_eq_some hbi).1
      rw [mergeArrayItem_lb_both f bs rs id hbi hbiO hri hriO, hri]
      rfl
    · rw [mergeArrayItem_lb_remote_only f bs rs id
        (findById_eq_none hib) hri hriO, hri]
      rfl
  have hmapR : (rs.map (fun x => x.getK "id")).map
      (fun id => (findById rs id).getD (Json.obj [])) = rs := by
    rw [List.map_map]
    calc rs.map ((fun id => (findById rs id).getD (Json.obj [])) ∘
          (fun x => x.getK "id"))
        = rs.map (fun x => x) := List.map_congr_left (fun x hx => by
          simp only [Function.comp_apply,
            findById_self_of_nodup hrsN x hx, Option.getD_some])
      _ = rs := by simp
  have hd := dedupSeen_bbr (bs.map (fun x => x.getK "id"))
    (rs.map (fun x => x.getK "id")) hbsN hrsN
  rw [mergedIdColl, flatMap_eq_map_of_singleton _ _ _ hpt, dedupIds, hd]
  refine List.Perm.trans
    (List.Perm.map _ (perm_b_filter _ _ hbsN hrsN hsub)) ?_
  rw [hmapR]

/-- With remote = base and no local deletions the merged collection is a
permutation of the local collection. -/
theorem mergedIdColl_remote_base_perm (f : String) (bs ls : List Json)
    (hbsO : ∀ x ∈ bs, Json.isObjB x = true)
    (hlsO : ∀ x ∈ ls, Json.isObjB x = true)
    (hbsN : (bs.map (fun x => x.getK "id")).Nodup)
    (hlsN : (ls.map (fun x => x.getK "id")).Nodup)
    (hsub : ∀ id ∈ bs.map (fun x => x.getK "id"),
      id ∈ ls.map (fun x => x.getK "id")) :
    (mergedIdColl f bs ls bs).Perm ls := by
  have hpt : ∀ id ∈ dedupIds (bs.map (fun x => x.getK "id") ++
      ls.map (fun x => x.getK "id") ++ bs.map (fun x => x.getK "id")),
      (mergeArrayItem f bs ls bs id).1 =
        [(findById ls id).getD (Json.obj [])] := by
    intro id hid
    have hidU := ((mem_dedupSeen _ _ _).mp hid).1
    have hidL : id ∈ ls.map (fun x => x.getK "id") := by
      rcases List.mem_append.mp hidU with h | h
      · rcases List.mem_append.mp h with h1 | h1
        · exact hsub id h1
        · exact h1
      · exact hsub id h
    obtain ⟨li, hli⟩ :=
      Option.isSome_iff_exists.mp (findById_isSome_iff.mpr hidL)
    have hliO := hlsO li (findById_eq_some hli).1
    by_cases hib : id ∈ bs.map (fun x => x.getK "id")
    · obtain ⟨bi, hbi⟩ :=
        Option.isSome_iff_exists.mp (findById_isSome_iff.mpr hib)
      have hbiO := hbsO bi (findById_eq_some hbi).1
      rw [mergeArrayItem_rb_both f bs ls id hbi hbiO hli hliO, hli]
      rfl
    · rw [mergeArrayItem_rb_local_only f bs ls id
        (findById_eq_none hib) hli hliO, hli]
      rfl
  have hmapL : (ls.map (fun x => x.getK "id")).map
      (fun id => (findById ls id).getD (Json.obj [])) = ls := by
    rw [List.map_map]
    calc ls.map ((fun id => (findById ls id).getD (Json.obj [])) ∘
          (fun x => x.getK "id"))
        = ls.map (fun x => x) := List.map_congr_left (fun x hx => by
          simp only [Function.comp_apply,
            findById_self_of_nodup hlsN x hx, Option.getD_some])
      _ = ls := by simp
  have hd := dedupSeen_bab (bs.map (fun x => x.getK "id"))
    (ls.map (fun x => x.getK "id")) hbsN hlsN
  rw [mergedIdColl, flatMap_eq_map_of_singleton _ _ _ hpt, dedupIds, hd]
  refine List.Perm.trans
    (List.Perm.map _ (perm_b_filter _ _ hbsN hlsN hsub)) ?_
  rw [hmapL]

/-- `mergeSimpleArray` never reports and always writes the set-merged
array (the contradiction branch is dead for all inputs). -/
theorem mergeSimpleArray_eq (f : String) (B L R m : Json)
    (c : List Conflict) (bs ls rs : List Json)
    (hfB : B.getK f = Option.some (Json.arr bs))
    (hfL : L.getK f = Option.some (Json.arr ls))
    (hfR : R.getK f = Option.some (Json.arr rs)) :
    mergeSimpleArray f B L R m c =
      Except.ok (m.setK f (Option.some
        (Json.arr (mergeSimpleArrayCore bs ls rs).1)), c) := by
  have hb : asArrThrow (B.getK f) "iterate" = Except.ok bs := by
    rw [hfB]; rfl
  have hl : asArrThrow (L.getK f) "filter" = Except.ok ls := by
    rw [hfL]; rfl
  have hr : asArrThrow (R.getK f) "filter" = Except.ok rs := by
    rw [hfR]; rfl
  simp only [mergeSimpleArray]
  rw [hb, hl, hr]
  show Except.ok
      (m.setK f (Option.some (Json.arr (mergeSimpleArrayCore bs ls rs).1)),
       if 0 < (mergeSimpleArrayCore bs ls rs).2.length then
         c ++ [Conflict.arrayContra (f ++ "_array")
           (mergeSimpleArrayCore bs ls rs).2]
       else c) =
    Except.ok
      (m.setK f (Option.some (Json.arr (mergeSimpleArrayCore bs ls rs).1)),
       c)
  rw [mergeSimpleArrayCore_no_contradictions]
  rfl

/-- With local = base the merged scalar set is a permutation of the remote
set (removals and additions both take effect silently). -/
theorem mergeSimpleArrayCore_local_base_perm (bs rs : List Json)
    (hrsN : rs.Nodup) : (mergeSimpleArrayCore bs bs rs).1.Perm rs := by
  refine (List.perm_ext_iff_of_nodup
    (mergeSimpleArrayCore_nodup bs bs rs) hrsN).mpr ?_
  intro y
  rw [mergeSimpleArrayCore_mem]
  constructor
  · rintro (⟨_, _, h⟩ | ⟨h, hnb⟩)
    · exact h
    · rcases h with h | h
      · exact absurd h hnb
      · exact h
  · intro h
    by_cases hb : y ∈ bs
    · exact Or.inl ⟨hb, hb, h⟩
    · exact Or.inr ⟨Or.inr h, hb⟩

/-- With remote = base the merged scalar set is a permutation of the local
set. -/
theorem mergeSimpleArrayCore_remote_base_perm (bs ls : List Json)
    (hlsN : ls.Nodup) : (mergeSimpleArrayCore bs ls bs).1.Perm ls := by
  refine (List.perm_ext_iff_of_nodup
    (mergeSimpleArrayCore_nodup bs ls bs) hlsN).mpr ?_
  intro y
  rw [mergeSimpleArrayCore_mem]
  constructor
  · rintro (⟨_, h, _⟩ | ⟨h, hnb⟩)
    · exact h
    · rcases h with h | h
      · exact h
      · exact absurd h hnb
  · intro h
    by_cases hb : y ∈ bs
    · exact Or.inl ⟨hb, h, hb⟩
    · exact Or.inr ⟨Or.inl h, hb⟩

/-- Per-key record merge with local = base: the remote value is taken with
no conflict (the base record is flat). -/
theorem mergeObjectKey_local_base {gkvs : List (String × Json)}
    (rObj : Json) (f key : String)
    (hflat : gkvs.all (fun p => !p.2.objLike) = true) :
    mergeObjectKey (Json.obj gkvs) (Json.obj gkvs) rObj f key =
      (rObj.getK key, []) := by
  have hvo : ∀ v, (Json.obj gkvs).getK key = Option.some v →
      v.objLike = false := by
    intro v hv
    simp only [Json.getK, Option.map_eq_some'] at hv
    obtain ⟨p, hp, hpv⟩ := hv
    have hall := List.all_eq_true.mp hflat p (List.mem_of_find?_eq_some hp)
    rw [← hpv]
    simpa using hall
  cases hbv : (Json.obj gkvs).getK key with
  | none =>
    cases hrv : rObj.getK key with
    | none => simp only [mergeObjectKey, hbv, hrv]; rfl
    | some r => simp only [mergeObjectKey, hbv, hrv]; rfl
  | some v =>
    have hv := hvo v hbv
    cases hrv : rObj.getK key with
    | none =>
      simp only [mergeObjectKey, hbv, hrv]
      rw [if_neg (by simp [jsEq]), if_pos (by simp [jsEq, hv])]
    | some r =>
      simp only [mergeObjectKey, hbv, hrv]
      rw [if_neg (by simp [hv])]
      by_cases heq : v = r
      · subst heq
        rw [if_pos (by simp [jsEq, hv])]
      · rw [if_neg (by simp [jsEq, heq]), if_pos (by simp [jsEq, hv])]

/-- Per-key record merge with remote = base: the local value is taken with
no conflict (the base record is flat). -/
theorem mergeObjectKey_remote_base {gkvs : List (String × Json)}
    (lObj : Json) (f key : String)
    (hflat : gkvs.all (fun p => !p.2.objLike) = true) :
    mergeObjectKey (Json.obj gkvs) lObj (Json.obj gkvs) f key =
      (lObj.getK key, []) := by
  have hvo : ∀ v, (Json.obj gkvs).getK key = Option.some v →
      v.objLike = false := by
    intro v hv
    simp only [Json.getK, Option.map_eq_some'] at hv
    obtain ⟨p, hp, hpv⟩ := hv
    have hall := List.all_eq_true.mp hflat p (List.mem_of_find?_eq_some hp)
    rw [← hpv]
    simpa using hall
  cases hlv : lObj.getK key with
  | none =>
    cases hbv : (Json.obj gkvs).getK key with
    | none => simp only [mergeObjectKey, hbv, hlv]; rfl
    | some v =>
      have hv := hvo v hbv
      simp only [mergeObjectKey, hbv, hlv]
      rw [if_neg (by simp [jsEq]), if_neg (by simp [jsEq]),
        if_pos (by simp [jsEq, hv])]
  | some l =>
    cases hbv : (Json.obj gkvs).getK key with
    | none => simp only [mergeObjectKey, hbv, hlv]; rfl
    | some v =>
      have hv := hvo v hbv
      simp only [mergeObjectKey, hbv, hlv]
      rw [if_neg (by simp [hv])]
      by_cases heq : l = v
      · subst heq
        rw [if_pos (by simp [jsEq, hv])]
      · rw [if_neg (by simp [jsEq, heq]), if_neg (by simp [jsEq, heq]),
          if_pos (by simp [jsEq, hv])]

/-- The record object built by the per-key loop of `mergeObject` (the
value written into `merged[fieldName]`). -/
def mergedRecord (f : String) (bObj lObj rObj : Json) : Json :=
  (dedupStr (bObj.keysOf ++ lObj.keysOf ++ rObj.keysOf)).foldl
    (fun inner key => inner.setK key (mergeObjectKey bObj lObj rObj f key).1)
    bObj

/-- `mergeObject` with local = base and a flat base record: the merged
record is written with no conflicts. -/
theorem mergeObject_local_base_eq (f : String) (B R : Json)
    (gkvs : List (String × Json))
    (hfB : B.getK f = Option.some (Json.obj gkvs))
    (hflat : gkvs.all (fun p => !p.2.objLike) = true)
    (m : Json) (c : List Conflict) :
    mergeObject f B B R m c =
      (m.setK f (Option.some (mergedRecord f (Json.obj gkvs)
        (Json.obj gkvs) (orEmptyObj (R.getK f)))), c) := by
  have hoe : orEmptyObj (B.getK f) = Json.obj gkvs := by rw [hfB]; rfl
  have hconf : ((dedupStr ((Json.obj gkvs).keysOf ++
      (Json.obj gkvs).keysOf ++ (orEmptyObj (R.getK f)).keysOf)).flatMap
      (fun key => (mergeObjectKey (Json.obj gkvs) (Json.obj gkvs)
        (orEmptyObj (R.getK f)) f key).2)) = [] :=
    flatMap_eq_nil_of_forall _ _ (fun k _ => by
      rw [mergeObjectKey_local_base _ f k hflat])
  simp only [mergeObject, hoe]
  rw [hconf, List.append_nil]
  rfl

/-- `mergeObject` with remote = base and a flat base record: the merged
record is written with no conflicts. -/
theorem mergeObject_remote_base_eq (f : String) (B L : Json)
    (gkvs : List (String × Json))
    (hfB : B.getK f = Option.some (Json.obj gkvs))
    (hflat : gkvs.all (fun p => !p.2.objLike) = true)
    (m : Json) (c : List Conflict) :
    mergeObject f B L B m c =
      (m.setK f (Option.some (mergedRecord f (Json.obj gkvs)
        (orEmptyObj (L.getK f)) (Json.obj gkvs))), c) := by
  have hoe : orEmptyObj (B.getK f) = Json.obj gkvs := by rw [hfB]; rfl
  have hconf : ((dedupStr ((Json.obj gkvs).keysOf ++
      (orEmptyObj (L.getK f)).keysOf ++ (Json.obj gkvs).keysOf)).flatMap
      (fun key => (mergeObjectKey (Json.obj gkvs) (orEmptyObj (L.getK f))
        (Json.obj gkvs) f key).2)) = [] :=
    flatMap_eq_nil_of_forall _ _ (fun k _ => by
      rw [mergeObjectKey_remote_base _ f k hflat])
  simp only [mergeObject, hoe]
  rw [hconf, List.append_nil]
  rfl

/-- Characterisation of a keyed-assignment fold driven by a value
function. -/
theorem foldl_setK_fun_getK (keys : List String) (G : String → Option Json)
    {j : Json} (hj : Json.isObjB j = true) (k : String) :
    (keys.foldl (fun m key => m.setK key (G key)) j).getK k =
      if k ∈ keys then G k else j.getK k := by
  induction keys generalizing j with
  | nil => simp
  | cons a rest ih =>
    simp only [List.foldl_cons]
    rw [ih (setK_isObjB hj a (G a))]
    by_cases hk : k ∈ rest
    · rw [if_pos hk, if_pos (List.mem_cons_of_mem _ hk)]
    · rw [if_neg hk]
      by_cases hka : k = a
      · subst hka
        rw [if_pos (List.mem_cons_self _ _)]
        exact getK_setK_self' hj k (G k)
      · rw [if_neg (by simp [hka, hk])]
        exact getK_setK_ne' hj (G a) hka

/-- With local = base (flat), every key of the merged record reads the
remote record's value. -/
theorem mergedRecord_local_base_getK (f : String)
    (gkvs g2 : List (String × Json))
    (hflat : gkvs.all (fun p => !p.2.objLike) = true) (k : String) :
    (mergedRecord f (Json.obj gkvs) (Json.obj gkvs) (Json.obj g2)).getK k =
      (Json.obj g2).getK k := by
  have h1 : (mergedRecord f (Json.obj gkvs) (Json.obj gkvs)
      (Json.obj g2)).getK k =
      if k ∈ dedupStr ((Json.obj gkvs).keysOf ++ (Json.obj gkvs).keysOf ++
        (Json.obj g2).keysOf) then
        (mergeObjectKey (Json.obj gkvs) (Json.obj gkvs) (Json.obj g2)
          f k).1
      else (Json.obj gkvs).getK k :=
    foldl_setK_fun_getK _ _ (show Json.isObjB (Json.obj gkvs) = true from rfl) k
  rw [h1]
  by_cases hk : k ∈ dedupStr ((Json.obj gkvs).keysOf ++
      (Json.obj gkvs).keysOf ++ (Json.obj g2).keysOf)
  · rw [if_pos hk, mergeObjectKey_local_base _ f k hflat]
  · rw [if_neg hk]
    have hkL : k ∉ ((Json.obj gkvs).keysOf ++ (Json.obj gkvs).keysOf ++
        (Json.obj g2).keysOf) :=
      fun h => hk ((mem_dedupSeen _ _ _).mpr ⟨h, List.not_mem_nil _⟩)
    have hkB : k ∉ gkvs.map Prod.fst := by
      intro h
      exact hkL (List.mem_append.mpr (Or.inl (List.mem_append.mpr
        (Or.inl (by simpa [Json.keysOf] using h)))))
    have hkR : k ∉ g2.map Prod.fst := by
      intro h
      exact hkL (List.mem_append.mpr (Or.inr
        (by simpa [Json.keysOf] using h)))
    rw [getK_eq_none_of_not_mem_keys hkB, getK_eq_none_of_not_mem_keys hkR]

/-- With remote = base (flat), every key of the merged record reads the
local record's value. -/
theorem mergedRecord_remote_base_getK (f : String)
    (gkvs g2 : List (String × Json))
    (hflat : gkvs.all (fun p => !p.2.objLike) = true) (k : String) :
    (mergedRecord f (Json.obj gkvs) (Json.obj g2) (Json.obj gkvs)).getK k =
      (Json.obj g2).getK k := by
  have h1 : (mergedRecord f (Json.obj gkvs) (Json.obj g2)
      (Json.obj gkvs)).getK k =
      if k ∈ dedupStr ((Json.obj gkvs).keysOf ++ (Json.obj g2).keysOf ++
        (Json.obj gkvs).keysOf) then
        (mergeObjectKey (Json.obj gkvs) (Json.obj g2) (Json.obj gkvs)
          f k).1
      else (Json.obj gkvs).getK k :=
    foldl_setK_fun_getK _ _ (show Json.isObjB (Json.obj gkvs) = true from rfl) k
  rw [h1]
  by_cases hk : k ∈ dedupStr ((Json.obj gkvs).keysOf ++
      (Json.obj g2).keysOf ++ (Json.obj gkvs).keysOf)
  · rw [if_pos hk, mergeObjectKey_remote_base _ f k hflat]
  · rw [if_neg hk]
    have hkL : k ∉ ((Json.obj gkvs).keysOf ++ (Json.obj g2).keysOf ++
        (Json.obj gkvs).keysOf) :=
      fun h => hk ((mem_dedupSeen _ _ _).mpr ⟨h, List.not_mem_nil _⟩)
    have hkB : k ∉ gkvs.map Prod.fst := by
      intro h
      exact hkL (List.mem_append.mpr (Or.inl (List.mem_append.mpr
        (Or.inl (by simpa [Json.keysOf] using h)))))
    have hkM : k ∉ g2.map Prod.fst := by
      intro h
      exact hkL (List.mem_append.mpr (Or.inl (List.mem_append.mpr
        (Or.inr (by simpa [Json.keysOf] using h)))))
    rw [getK_eq_none_of_not_mem_keys hkB, getK_eq_none_of_not_mem_keys hkM]

/-- The document part of the `mergeRemainingFields` fold, with the written
value abstracted as a function of the key. -/
def remFoldJson (V : String → Option Json) (keys : List String)
    (m : Json) : Json :=
  keys.foldl (fun mm key =>
    if handledFields.contains key then mm else mm.setK key (V key)) m

theorem remainingFold_eq (b l r : Json) (V : String → Option Json)
    (hstep : ∀ (key : String) (m' : Json) (c' : List Conflict),
      mergeSimpleField key b l r m' c' = (m'.setK key (V key), c')) :
    ∀ (keys : List String) (m : Json) (c : List Conflict),
      keys.foldl (fun (acc : Json × List Conflict) key =>
        if handledFields.contains key then acc
        else mergeSimpleField key b l r acc.1 acc.2) (m, c) =
      (remFoldJson V keys m, c) := by
  intro keys
  induction keys with
  | nil => intro m c; rfl
  | cons k rest ih =>
    intro m c
    simp only [List.foldl_cons, remFoldJson]
    by_cases hk : handledFields.contains k = true
    · rw [if_pos hk, if_pos hk]
      exact ih m c
    · rw [if_neg hk, if_neg hk, hstep k m c]
      exact ih (m.setK k (V k)) c

theorem remFoldJson_isObjB (V : String → Option Json)
    (keys : List String) {m : Json} (hm : Json.isObjB m = true) :
    Json.isObjB (remFoldJson V keys m) = true := by
  induction keys generalizing m with
  | nil => exact hm
  | cons a rest ih =>
    simp only [remFoldJson, List.foldl_cons]
    by_cases ha : handledFields.contains a = true
    · rw [if_pos ha]
      exact ih hm
    · rw [if_neg ha]
      exact ih (setK_isObjB hm a (V a))

theorem remFoldJson_getK (V : String → Option Json) (keys : List String)
    {m : Json} (hm : Json.isObjB m = true) (k : String) :
    (remFoldJson V keys m).getK k =
      if k ∈ keys ∧ handledFields.contains k = false then V k
      else m.getK k := by
  induction keys generalizing m with
  | nil => simp [remFoldJson]
  | cons a rest ih
  =>
    simp only [remFoldJson, List.foldl_cons]
    by_cases ha : handledFields.contains a = true
    · rw [if_pos ha]
      rw [show rest.foldl (fun mm key =>
          if handledFields.contains key then mm
          else mm.setK key (V key)) m = remFoldJson V rest m from rfl,
        ih hm]
      by_cases h1 : k ∈ rest ∧ handledFields.contains k = false
      · rw [if_pos h1, if_pos ⟨List.mem_cons_of_mem _ h1.1, h1.2⟩]
      · rw [if_neg h1, if_neg (fun hc => ?_)]
        rcases List.mem_cons.mp hc.1 with he | he
        · subst he
          rw [hc.2] at ha
          cases ha
        · exact h1 ⟨he, hc.2⟩
    · rw [if_neg ha]
      rw [show rest.foldl (fun mm key =>
          if handledFields.contains key then mm
          else mm.setK key (V key)) (m.setK a (V a)) =
        remFoldJson V rest (m.setK a (V a)) from rfl,
        ih (setK_isObjB hm a (V a))]
      by_cases h1 : k ∈ rest ∧ handledFields.contains k = false
      · rw [if_pos h1, if_pos ⟨List.mem_cons_of_mem _ h1.1, h1.2⟩]
      · rw [if_neg h1]
        by_cases hka : k = a
        · subst hka
          rw [if_pos ⟨List.mem_cons_self _ _,
            Bool.eq_false_iff.mpr ha⟩]
          exact getK_setK_self' hm k (V k)
        · rw [if_neg (fun hc => ?_)]
          · exact getK_setK_ne' hm (V a) hka
          · rcases List.mem_cons.mp hc.1 with he | he
            · exact hka he
            · exact h1 ⟨he, hc.2⟩

/-- `mergeRemainingFields` with local = base writes the remote value into
every unhandled key and keeps the conflicts. -/
theorem mergeRemainingFields_local_base (B R m : Json)
    (c : List Conflict) :
    mergeRemainingFields B B R m c =
      (remFoldJson (fun k => R.getK k)
        (dedupStr (B.keysOf ++ B.keysOf ++ R.keysOf)) m, c) := by
  simp only [mergeRemainingFields]
  exact remainingFold_eq B B R _
    (fun key m' c' => mergeSimpleField_local_base key B R m' c') _ m c

/-- `mergeRemainingFields` with remote = base writes the local value into
every unhandled key and keeps the conflicts. -/
theorem mergeRemainingFields_remote_base (B L m : Json)
    (c : List Conflict) :
    mergeRemainingFields B L B m c =
      (remFoldJson (fun k => L.getK k)
        (dedupStr (B.keysOf ++ L.keysOf ++ B.keysOf)) m, c) := by
  simp only [mergeRemainingFields]
  exact remainingFold_eq B L B _
    (fun key m' c' => mergeSimpleField_remote_base key B L m' c') _ m c

/-- The seven id-bearing collection fields of the schema. -/
def idCollFields : List String :=
  ["scenes", "characters", "chapters", "parts", "locations",
   "backgroundFolders", "frontMatter"]

/-- The four record fields of the schema. -/
def recordFields : List String :=
  ["template", "github", "metadata", "collaboration"]

/-- Every id of the first collection also occurs in the second (the
changing side deletes no item of the base). -/
def noDelB : Option Json → Option Json → Bool
  | Option.some (Json.arr bs), Option.some (Json.arr xs) =>
      bs.all (fun x =>
        (xs.map (fun y => y.getK "id")).contains (x.getK "id"))
  | _, _ => false

/-- Well-formedness for no-op-side convergence toward `X` from base `B`:
both documents are objects carrying all known schema fields with
well-formed shapes, and `X` deletes no id of `B`'s collections. -/
def convergeWF (B X : Json) : Bool :=
  Json.isObjB B && Json.isObjB X &&
  (idCollFields.all fun f =>
    collOKB (B.getK f) && collOKB (X.getK f) &&
    noDelB (B.getK f) (X.getK f)) &&
  setOKB (B.getK "characterDetectionBlacklist") &&
  setOKB (X.getK "characterDetectionBlacklist") &&
  (recordFields.all fun f => recOKB (B.getK f) && recOKB (X.getK f))

/-- The merged document agrees with `X` on every field: scalar and
unknown fields exactly, id collections and the blacklist as sets
(up to order), record fields key-by-key. -/
def mergesToward (M X : Json) : Prop :=
  M.getK "title" = X.getK "title" ∧
  M.getK "author" = X.getK "author" ∧
  (∀ f ∈ idCollFields, ∃ ms xs, M.getK f = Option.some (Json.arr ms) ∧
    X.getK f = Option.some (Json.arr xs) ∧ ms.Perm xs) ∧
  (∃ ms xs,
    M.getK "characterDetectionBlacklist" = Option.some (Json.arr ms) ∧
    X.getK "characterDetectionBlacklist" = Option.some (Json.arr xs) ∧
    ms.Perm xs) ∧
  (∀ f ∈ recordFields, ∀ k, getKO (M.getK f) k = getKO (X.getK f) k) ∧
  (∀ k, k ∉ handledFields → M.getK k = X.getK k)

theorem noDelB_elim {bs xs : List Json}
    (h : noDelB (Option.some (Json.arr bs))
      (Option.some (Json.arr xs)) = true) :
    ∀ id ∈ bs.map (fun b => b.getK "id"),
      id ∈ xs.map (fun y => y.getK "id") := by
  simp only [noDelB, List.all_eq_true] at h
  intro id hid
  obtain ⟨b, hb, rfl⟩ := List.mem_map.mp hid
  simpa using h b hb

/-- Packaged facts for one id collection with local = base. -/
theorem idColl_local_base (f : String) (B R : Json)
    (h1 : collOKB (B.getK f) = true) (h2 : collOKB (R.getK f) = true)
    (h3 : noDelB (B.getK f) (R.getK f) = true) :
    ∃ bs rs, B.getK f = Option.some (Json.arr bs) ∧
      R.getK f = Option.some (Json.arr rs) ∧
      (∀ m c, mergeArrayWithIds f B B R m c =
        Except.ok (m.setK f (Option.some
          (Json.arr (mergedIdColl f bs bs rs))), c)) ∧
      (mergedIdColl f bs bs rs).Perm rs := by
  obtain ⟨bs, hB, hBO, hBN⟩ := collOKB_elim h1
  obtain ⟨rs, hR, hRO, hRN⟩ := collOKB_elim h2
  rw [hB, hR] at h3
  have hsub := noDelB_elim h3
  exact ⟨bs, rs, hB, hR,
    fun m c => mergeArrayWithIds_local_base_eq f B R bs rs hB hR hBO hRO
      hsub m c,
    mergedIdColl_local_base_perm f bs rs hBO hRO hBN hRN hsub⟩

/-- Packaged facts for one id collection with remote = base. -/
theorem idColl_remote_base (f : String) (B L : Json)
    (h1 : collOKB (B.getK f) = true) (h2 : collOKB (L.getK f) = true)
    (h3 : noDelB (B.getK f) (L.getK f) = true) :
    ∃ bs ls, B.getK f = Option.some (Json.arr bs) ∧
      L.getK f = Option.some (Json.arr ls) ∧
      (∀ m c, mergeArrayWithIds f B L B m c =
        Except.ok (m.setK f (Option.some
          (Json.arr (mergedIdColl f bs ls bs))), c)) ∧
      (mergedIdColl f bs ls bs).Perm ls := by
  obtain ⟨bs, hB, hBO, hBN⟩ := collOKB_elim h1
  obtain ⟨ls, hL, hLO, hLN⟩ := collOKB_elim h2
  rw [hB, hL] at h3
  have hsub := noDelB_elim h3
  exact ⟨bs, ls, hB, hL,
    fun m c => mergeArrayWithIds_remote_base_eq f B L bs ls hB hL hBO hLO
      hsub m c,
    mergedIdColl_remote_base_perm f bs ls hBO hLO hBN hLN hsub⟩

/-- Packaged facts for one record field with local = base. -/
theorem record_local_base (f : String) (B R : Json)
    (h1 : recOKB (B.getK f) = true) (h2 : recOKB (R.getK f) = true) :
    ∃ gb g2, B.getK f = Option.some (Json.obj gb) ∧
      R.getK f = Option.some (Json.obj g2) ∧
      (∀ m c, mergeObject f B B R m c =
        (m.setK f (Option.some (mergedRecord f (Json.obj gb)
          (Json.obj gb) (Json.obj g2))), c)) ∧
      (∀ k, (mergedRecord f (Json.obj gb) (Json.obj gb)
        (Json.obj g2)).getK k = getKO (R.getK f) k) := by
  obtain ⟨gb, hB, hBN, hBF⟩ := recOKB_elim h1
  obtain ⟨g2, hR, hRN, hRF⟩ := recOKB_elim h2
  have hoe : orEmptyObj (R.getK f) = Json.obj g2 := by rw [hR]; rfl
  refine ⟨gb, g2, hB, hR, ?_, ?_⟩
  · intro m c
    have := mergeObject_local_base_eq f B R gb hB hBF m c
    rw [hoe] at this
    exact this
  · intro k
    rw [mergedRecord_local_base_getK f gb g2 hBF k, hR]
    rfl

/-- Packaged facts for one record field with remote = base. -/
theorem record_remote_base (f : String) (B L : Json)
    (h1 : recOKB (B.getK f) = true) (h2 : recOKB (L.getK f) = true) :
    ∃ gb g2, B.getK f = Option.some (Json.obj gb) ∧
      L.getK f = Option.some (Json.obj g2) ∧
      (∀ m c, mergeObject f B L B m c =
        (m.setK f (Option.some (mergedRecord f (Json.obj gb)
          (Json.obj g2) (Json.obj gb))), c)) ∧
      (∀ k, (mergedRecord f (Json.obj gb) (Json.obj g2)
        (Json.obj gb)).getK k = getKO (L.getK f) k) := by
  obtain ⟨gb, hB, hBN, hBF⟩ := recOKB_elim h1
  obtain ⟨g2, hL, hLN, hLF⟩ := recOKB_elim h2
  have hoe : orEmptyObj (L.getK f) = Json.obj g2 := by rw [hL]; rfl
  refine ⟨gb, g2, hB, hL, ?_, ?_⟩
  · intro m c
    have := mergeObject_remote_base_eq f B L gb hB hBF m c
    rw [hoe] at this
    exact this
  · intro k
    rw [mergedRecord_remote_base_getK f gb g2 hBF k, hL]
    rfl

/-- Assembly: a document built by writing the fourteen handled fields over
the base and then the unhandled keys of the union merges toward `X` when
each written value does. -/
theorem mergesToward_assembled (B X : Json)
    (hBo : Json.isObjB B = true) (ks : List String)
    (hks : ∀ k, k ∉ ks → B.getK k = X.getK k)
    (osc och ocp opa olo obg ofm obl : List Json)
    (ot og omd ocl : Json)
    (hsc : ∃ xs, X.getK "scenes" = Option.some (Json.arr xs) ∧ osc.Perm xs)
    (hch : ∃ xs, X.getK "characters" = Option.some (Json.arr xs) ∧
      och.Perm xs)
    (hcp : ∃ xs, X.getK "chapters" = Option.some (Json.arr xs) ∧
      ocp.Perm xs)
    (hpa : ∃ xs, X.getK "parts" = Option.some (Json.arr xs) ∧ opa.Perm xs)
    (hlo : ∃ xs, X.getK "locations" = Option.some (Json.arr xs) ∧
      olo.Perm xs)
    (hbg : ∃ xs, X.getK "backgroundFolders" = Option.some (Json.arr xs) ∧
      obg.Perm xs)
    (hfm : ∃ xs, X.getK "frontMatter" = Option.some (Json.arr xs) ∧
      ofm.Perm xs)
    (hbl : ∃ xs, X.getK "characterDetectionBlacklist" =
      Option.some (Json.arr xs) ∧ obl.Perm xs)
    (hrt : ∀ k, ot.getK k = getKO (X.getK "template") k)
    (hrg : ∀ k, og.getK k = getKO (X.getK "github") k)
    (hrm : ∀ k, omd.getK k = getKO (X.getK "metadata") k)
    (hrc : ∀ k, ocl.getK k = getKO (X.getK "collaboration") k) :
    mergesToward (remFoldJson (fun k => X.getK k) ks
      (([("title", X.getK "title"), ("author", X.getK "author"),
         ("scenes", Option.some (Json.arr osc)),
         ("characters", Option.some (Json.arr och)),
         ("chapters", Option.some (Json.arr ocp)),
         ("parts", Option.some (Json.arr opa)),
         ("locations", Option.some (Json.arr olo)),
         ("backgroundFolders", Option.some (Json.arr obg)),
         ("frontMatter", Option.some (Json.arr ofm)),
         ("characterDetectionBlacklist", Option.some (Json.arr obl)),
         ("template", Option.some ot), ("github", Option.some og),
         ("metadata", Option.some omd),
         ("collaboration", Option.some ocl)] :
           List (String × Option Json)).foldl
          (fun m p => m.setK p.1 p.2) B)) X := by
  have hchain : Json.isObjB
      (([("title", X.getK "title"), ("author", X.getK "author"),
         ("scenes", Option.some (Json.arr osc)),
         ("characters", Option.some (Json.arr och)),
         ("chapters", Option.some (Json.arr ocp)),
         ("parts", Option.some (Json.arr opa)),
         ("locations", Option.some (Json.arr olo)),
         ("backgroundFolders", Option.some (Json.arr obg)),
         ("frontMatter", Option.some (Json.arr ofm)),
         ("characterDetectionBlacklist", Option.some (Json.arr obl)),
         ("template", Option.some ot), ("github", Option.some og),
         ("metadata", Option.some omd),
         ("collaboration", Option.some ocl)] :
           List (String × Option Json)).foldl
          (fun m p => m.setK p.1 p.2) B) = true :=
    foldl_setK_pairs_isObjB _ hBo
  have hnd : (([("title", X.getK "title"), ("author", X.getK "author"),
         ("scenes", Option.some (Json.arr osc)),
         ("characters", Option.some (Json.arr och)),
         ("chapters", Option.some (Json.arr ocp)),
         ("parts", Option.some (Json.arr opa)),
         ("locations", Option.some (Json.arr olo)),
         ("backgroundFolders", Option.some (Json.arr obg)),
         ("frontMatter", Option.some (Json.arr ofm)),
         ("characterDetectionBlacklist", Option.some (Json.arr obl)),
         ("template", Option.some ot), ("github", Option.some og),
         ("metadata", Option.some omd),
         ("collaboration", Option.some ocl)] :
           List (String × Option Json)).map Prod.fst).Nodup := by
    simp [List.nodup_cons]
  have hfield : ∀ (f : String) (v : Option Json),
      handledFields.contains f = true →
      (f, v) ∈ ([("title", X.getK "title"), ("author", X.getK "author"),
         ("scenes", Option.some (Json.arr osc)),
         ("characters", Option.some (Json.arr och)),
         ("chapters", Option.some (Json.arr ocp)),
         ("parts", Option.some (Json.arr opa)),
         ("locations", Option.some (Json.arr olo)),
         ("backgroundFolders", Option.some (Json.arr obg)),
         ("frontMatter", Option.some (Json.arr ofm)),
         ("characterDetectionBlacklist", Option.some (Json.arr obl)),
         ("template", Option.some ot), ("github", Option.some og),
         ("metadata", Option.some omd),
         ("collaboration", Option.some ocl)] :
           List (String × Option Json)) →
      (remFoldJson (fun k => X.getK k) ks
        (([("title", X.getK "title"), ("author", X.getK "author"),
         ("scenes", Option.some (Json.arr osc)),
         ("characters", Option.some (Json.arr och)),
         ("chapters", Option.some (Json.arr ocp)),
         ("parts", Option.some (Json.arr opa)),
         ("locations", Option.some (Json.arr olo)),
         ("backgroundFolders", Option.some (Json.arr obg)),
         ("frontMatter", Option.some (Json.arr ofm)),
         ("characterDetectionBlacklist", Option.some (Json.arr obl)),
         ("template", Option.some ot), ("github", Option.some og),
         ("metadata", Option.some omd),
         ("collaboration", Option.some ocl)] :
           List (String × Option Json)).foldl
          (fun m p => m.setK p.1 p.2) B)).getK f = v := by
    intro f v hf hmem
    rw [remFoldJson_getK _ _ hchain,
      if_neg (fun hc => by rw [hf] at hc; exact absurd hc.2 (by simp))]
    exact foldl_setK_pairs_getK_mem _ hBo hnd hmem
  refine ⟨?_, ?_, ?_, ?_, ?_, ?_⟩
  · exact hfield "title" _ (by decide) (by simp)
  · exact hfield "author" _ (by decide) (by simp)
  · intro f hf
    simp only [idCollFields, List.mem_cons, List.not_mem_nil,
      or_false] at hf
    rcases hf with rfl | rfl | rfl | rfl | rfl | rfl | rfl
    · obtain ⟨xs, hx, hp⟩ := hsc
      exact ⟨osc, xs, hfield "scenes" _ (by decide) (by simp), hx, hp⟩
    · obtain ⟨xs, hx, hp⟩ := hch
      exact ⟨och, xs, hfield "characters" _ (by decide) (by simp), hx, hp⟩
    · obtain ⟨xs, hx, hp⟩ := hcp
      exact ⟨ocp, xs, hfield "chapters" _ (by decide) (by simp), hx, hp⟩
    · obtain ⟨xs, hx, hp⟩ := hpa
      exact ⟨opa, xs, hfield "parts" _ (by decide) (by simp), hx, hp⟩
    · obtain ⟨xs, hx, hp⟩ := hlo
      exact ⟨olo, xs, hfield "locations" _ (by decide) (by simp), hx, hp⟩
    · obtain ⟨xs, hx, hp⟩ := hbg
      exact ⟨obg, xs, hfield "backgroundFolders" _ (by decide) (by simp),
        hx, hp⟩
    · obtain ⟨xs, hx, hp⟩ := hfm
      exact ⟨ofm, xs, hfield "frontMatter" _ (by decide) (by simp), hx, hp⟩
  · obtain ⟨xs, hx, hp⟩ := hbl
    exact ⟨obl, xs,
      hfield "characterDetectionBlacklist" _ (by decide) (by simp), hx, hp⟩
  · intro f hf
    simp only [recordFields, List.mem_cons, List.not_mem_nil,
      or_false] at hf
    rcases hf with rfl | rfl | rfl | rfl
    · intro k
      rw [hfield "template" (Option.some ot) (by decide) (by simp)]
      exact hrt k
    · intro k
      rw [hfield "github" (Option.some og) (by decide) (by simp)]
      exact hrg k
    · intro k
      rw [hfield "metadata" (Option.some omd) (by decide) (by simp)]
      exact hrm k
    · intro k
      rw [hfield "collaboration" (Option.some ocl) (by decide) (by simp)]
      exact hrc k
  · intro k hk
    rw [remFoldJson_getK _ _ hchain]
    by_cases hkk : k ∈ ks
    · rw [if_pos ⟨hkk, by simpa [handledFields] using hk⟩]
    · rw [if_neg (fun hc => hkk hc.1)]
      rw [foldl_setK_pairs_getK_not_mem _ hBo
        (by simpa [handledFields] using hk)]
      exact hks k hkk

/-- Direction 1: when local deep-equals base (and `convergeWF B R`), the
merge returns with no conflicts and converges field-wise toward remote. -/
theorem mergeContent_local_base (B R : Json)
    (h : convergeWF B R = true) :
    ∃ M, mergeContent B R B = Except.ok (MergeResult.mk M false []) ∧
      mergesToward M R := by
  simp only [convergeWF, Bool.and_eq_true] at h
  obtain ⟨⟨⟨⟨⟨hBo, hRo⟩, hcolls⟩, hsetB⟩, hsetR⟩, hrecs⟩ := h
  rw [List.all_eq_true] at hcolls hrecs
  have hco : ∀ f ∈ idCollFields, collOKB (B.getK f) = true ∧
      collOKB (R.getK f) = true ∧
      noDelB (B.getK f) (R.getK f) = true := by
    intro f hf
    have h2 := hcolls f hf
    simp only [Bool.and_eq_true] at h2
    exact ⟨h2.1.1, h2.1.2, h2.2⟩
  have hre : ∀ f ∈ recordFields, recOKB (B.getK f) = true ∧
      recOKB (R.getK f) = true := by
    intro f hf
    have h2 := hrecs f hf
    simpa only [Bool.and_eq_true] using h2
  obtain ⟨bsc, rsc, hBsc, hRsc, Esc, Psc⟩ := idColl_local_base "scenes" B R
    (hco _ (by simp [idCollFields])).1 (hco _ (by simp [idCollFields])).2.1
    (hco _ (by simp [idCollFields])).2.2
  obtain ⟨bch, rch, hBch, hRch, Ech, Pch⟩ :=
    idColl_local_base "characters" B R
    (hco _ (by simp [idCollFields])).1 (hco _ (by simp [idCollFields])).2.1
    (hco _ (by simp [idCollFields])).2.2
  obtain ⟨bcp, rcp, hBcp, hRcp, Ecp, Pcp⟩ :=
    idColl_local_base "chapters" B R
    (hco _ (by simp [idCollFields])).1 (hco _ (by simp [idCollFields])).2.1
    (hco _ (by simp [idCollFields])).2.2
  obtain ⟨bpa, rpa, hBpa, hRpa, Epa, Ppa⟩ := idColl_local_base "parts" B R
    (hco _ (by simp [idCollFields])).1 (hco _ (by simp [idCollFields])).2.1
    (hco _ (by simp [idCollFields])).2.2
  obtain ⟨blo, rlo, hBlo, hRlo, Elo, Plo⟩ :=
    idColl_local_base "locations" B R
    (hco _ (by simp [idCollFields])).1 (hco _ (by simp [idCollFields])).2.1
    (hco _ (by simp [idCollFields])).2.2
  obtain ⟨bbg, rbg, hBbg, hRbg, Ebg, Pbg⟩ :=
    idColl_local_base "backgroundFolders" B R
    (hco _ (by simp [idCollFields])).1 (hco _ (by simp [idCollFields])).2.1
    (hco _ (by simp [idCollFields])).2.2
  obtain ⟨bfm, rfm, hBfm, hRfm, Efm, Pfm⟩ :=
    idColl_local_base "frontMatter" B R
    (hco _ (by simp [idCollFields])).1 (hco _ (by simp [idCollFields])).2.1
    (hco _ (by simp [idCollFields])).2.2
  obtain ⟨bbl, hBbl, hBblN⟩ := setOKB_elim hsetB
  obtain ⟨rbl, hRbl, hRblN⟩ := setOKB_elim hsetR
  have Ebl : ∀ m c,
      mergeSimpleArray "characterDetectionBlacklist" B B R m c =
      Except.ok (m.setK "characterDetectionBlacklist" (Option.some
        (Json.arr (mergeSimpleArrayCore bbl bbl rbl).1)), c) :=
    fun m c => mergeSimpleArray_eq "characterDetectionBlacklist" B B R m c
      bbl bbl rbl hBbl hBbl hRbl
  have Pbl : (mergeSimpleArrayCore bbl bbl rbl).1.Perm rbl :=
    mergeSimpleArrayCore_local_base_perm bbl rbl hRblN
  obtain ⟨gt, rt, hBt, hRt, Etp, Ct⟩ := record_local_base "template" B R
    (hre _ (by simp [recordFields])).1 (hre _ (by simp [recordFields])).2
  obtain ⟨gg, rg, hBg, hRg, Egh, Cg⟩ := record_local_base "github" B R
    (hre _ (by simp [recordFields])).1 (hre _ (by simp [recordFields])).2
  obtain ⟨gm, rm, hBm, hRm, Emd, Cm⟩ := record_local_base "metadata" B R
    (hre _ (by simp [recordFields])).1 (hre _ (by simp [recordFields])).2
  obtain ⟨gc, rc, hBc, hRc, Ecl, Cc⟩ :=
    record_local_base "collaboration" B R
    (hre _ (by simp [recordFields])).1 (hre _ (by simp [recordFields])).2
  have Eti : ∀ m c, mergeSimpleField "title" B B R m c =
      (m.setK "title" (R.getK "title"), c) :=
    fun m c => mergeSimpleField_local_base "title" B R m c
  have Eau : ∀ m c, mergeSimpleField "author" B B R m c =
      (m.setK "author" (R.getK "author"), c) :=
    fun m c => mergeSimpleField_local_base "author" B R m c
  have hks : ∀ k, k ∉ dedupStr (B.keysOf ++ B.keysOf ++ R.keysOf) →
      B.getK k = R.getK k := by
    intro k hk
    have hkL : k ∉ (B.keysOf ++ B.keysOf ++ R.keysOf) :=
      fun hmem => hk ((mem_dedupSeen _ _ _).mpr ⟨hmem, List.not_mem_nil _⟩)
    obtain ⟨kB, hkB⟩ := isObjB_shape hBo
    obtain ⟨kR, hkR⟩ := isObjB_shape hRo
    rw [hkB, hkR]
    rw [hkB, hkR] at hkL
    have h1 : k ∉ kB.map Prod.fst := fun hmem => hkL
      (List.mem_append.mpr (Or.inl (List.mem_append.mpr
        (Or.inl (by simpa [Json.keysOf] using hmem)))))
    have h2 : k ∉ kR.map Prod.fst := fun hmem => hkL
      (List.mem_append.mpr (Or.inr (by simpa [Json.keysOf] using hmem)))
    rw [getK_eq_none_of_not_mem_keys h1, getK_eq_none_of_not_mem_keys h2]
  refine ⟨remFoldJson (fun k => R.getK k)
    (dedupStr (B.keysOf ++ B.keysOf ++ R.keysOf))
    (([("title", R.getK "title"), ("author", R.getK "author"),
       ("scenes", Option.some (Json.arr (mergedIdColl "scenes" bsc bsc rsc))),
       ("characters",
         Option.some (Json.arr (mergedIdColl "characters" bch bch rch))),
       ("chapters",
         Option.some (Json.arr (mergedIdColl "chapters" bcp bcp rcp))),
       ("parts", Option.some (Json.arr (mergedIdColl "parts" bpa bpa rpa))),
       ("locations",
         Option.some (Json.arr (mergedIdColl "locations" blo blo rlo))),
       ("backgroundFolders", Option.some
         (Json.arr (mergedIdColl "backgroundFolders" bbg bbg rbg))),
       ("frontMatter",
         Option.some (Json.arr (mergedIdColl "frontMatter" bfm bfm rfm))),
       ("characterDetectionBlacklist",
         Option.some (Json.arr (mergeSimpleArrayCore bbl bbl rbl).1)),
       ("template", Option.some (mergedRecord "template" (Json.obj gt)
         (Json.obj gt) (Json.obj rt))),
       ("github", Option.some (mergedRecord "github" (Json.obj gg)
         (Json.obj gg) (Json.obj rg))),
       ("metadata", Option.some (mergedRecord "metadata" (Json.obj gm)
         (Json.obj gm) (Json.obj rm))),
       ("collaboration", Option.some (mergedRecord "collaboration"
         (Json.obj gc) (Json.obj gc) (Json.obj rc)))] :
         List (String × Option Json)).foldl
        (fun m p => m.setK p.1 p.2) B), ?_, ?_⟩
  · simp only [mergeContent, bind, Except.bind, Eti, Eau, Esc, Ech, Ecp,
      Epa, Elo, Ebg, Efm, Ebl, Etp, Egh, Emd, Ecl,
      mergeRemainingFields_local_base]
    rfl
  · exact mergesToward_assembled B R hBo _ hks
      (mergedIdColl "scenes" bsc bsc rsc)
      (mergedIdColl "characters" bch bch rch)
      (mergedIdColl "chapters" bcp bcp rcp)
      (mergedIdColl "parts" bpa bpa rpa)
      (mergedIdColl "locations" blo blo rlo)
      (mergedIdColl "backgroundFolders" bbg bbg rbg)
      (mergedIdColl "frontMatter" bfm bfm rfm)
      (mergeSimpleArrayCore bbl bbl rbl).1
      (mergedRecord "template" (Json.obj gt) (Json.obj gt) (Json.obj rt))
      (mergedRecord "github" (Json.obj gg) (Json.obj gg) (Json.obj rg))
      (mergedRecord "metadata" (Json.obj gm) (Json.obj gm) (Json.obj rm))
      (mergedRecord "collaboration" (Json.obj gc) (Json.obj gc)
        (Json.obj rc))
      ⟨rsc, hRsc, Psc⟩ ⟨rch, hRch, Pch⟩ ⟨rcp, hRcp, Pcp⟩ ⟨rpa, hRpa, Ppa⟩
      ⟨rlo, hRlo, Plo⟩ ⟨rbg, hRbg, Pbg⟩ ⟨rfm, hRfm, Pfm⟩ ⟨rbl, hRbl, Pbl⟩
      Ct Cg Cm Cc

/-- Direction 2: when remote deep-equals base (and `convergeWF B L`), the
merge returns with no conflicts and converges field-wise toward local. -/
theorem mergeContent_remote_base (B L : Json)
    (h : convergeWF B L = true) :
    ∃ M, mergeContent B B L = Except.ok (MergeResult.mk M false []) ∧
      mergesToward M L := by
  simp only [convergeWF, Bool.and_eq_true] at h
  obtain ⟨⟨⟨⟨⟨hBo, hLo⟩, hcolls⟩, hsetB⟩, hsetL⟩, hrecs⟩ := h
  rw [List.all_eq_true] at hcolls hrecs
  have hco : ∀ f ∈ idCollFields, collOKB (B.getK f) = true ∧
      collOKB (L.getK f) = true ∧
      noDelB (B.getK f) (L.getK f) = true := by
    intro f hf
    have h2 := hcolls f hf
    simp only [Bool.and_eq_true] at h2
    exact ⟨h2.1.1, h2.1.2, h2.2⟩
  have hre : ∀ f ∈ recordFields, recOKB (B.getK f) = true ∧
      recOKB (L.getK f) = true := by
    intro f hf
    have h2 := hrecs f hf
    simpa only [Bool.and_eq_true] using h2
  obtain ⟨bsc, lsc, hBsc, hLsc, Esc, Psc⟩ := idColl_remote_base "scenes" B L
    (hco _ (by simp [idCollFields])).1 (hco _ (by simp [idCollFields])).2.1
    (hco _ (by simp [idCollFields])).2.2
  obtain ⟨bch, lch, hBch, hLch, Ech, Pch⟩ :=
    idColl_remote_base "characters" B L
    (hco _ (by simp [idCollFields])).1 (hco _ (by simp [idCollFields])).2.1
    (hco _ (by simp [idCollFields])).2.2
  obtain ⟨bcp, lcp, hBcp, hLcp, Ecp, Pcp⟩ :=
    idColl_remote_base "chapters" B L
    (hco _ (by simp [idCollFields])).1 (hco _ (by simp [idCollFields])).2.1
    (hco _ (by simp [idCollFields])).2.2
  obtain ⟨bpa, lpa, hBpa, hLpa, Epa, Ppa⟩ := idColl_remote_base "parts" B L
    (hco _ (by simp [idCollFields])).1 (hco _ (by simp [idCollFields])).2.1
    (hco _ (by simp [idCollFields])).2.2
  obtain ⟨blo, llo, hBlo, hLlo, Elo, Plo⟩ :=
    idColl_remote_base "locations" B L
    (hco _ (by simp [idCollFields])).1 (hco _ (by simp [idCollFields])).2.1
    (hco _ (by simp [idCollFields])).2.2
  obtain ⟨bbg, lbg, hBbg, hLbg, Ebg, Pbg⟩ :=
    idColl_remote_base "backgroundFolders" B L
    (hco _ (by simp [idCollFields])).1 (hco _ (by simp [idCollFields])).2.1
    (hco _ (by simp [idCollFields])).2.2
  obtain ⟨bfm, lfm, hBfm, hLfm, Efm, Pfm⟩ :=
    idColl_remote_base "frontMatter" B L
    (hco _ (by simp [idCollFields])).1 (hco _ (by simp [idCollFields])).2.1
    (hco _ (by simp [idCollFields])).2.2
  obtain ⟨bbl, hBbl, hBblN⟩ := setOKB_elim hsetB
  obtain ⟨lbl, hLbl, hLblN⟩ := setOKB_elim hsetL
  have Ebl : ∀ m c,
      mergeSimpleArray "characterDetectionBlacklist" B L B m c =
      Except.ok (m.setK "characterDetectionBlacklist" (Option.some
        (Json.arr (mergeSimpleArrayCore bbl lbl bbl).1)), c) :=
    fun m c => mergeSimpleArray_eq "characterDetectionBlacklist" B L B m c
      bbl lbl bbl hBbl hLbl hBbl
  have Pbl : (mergeSimpleArrayCore bbl lbl bbl).1.Perm lbl :=
    mergeSimpleArrayCore_remote_base_perm bbl lbl hLblN
  obtain ⟨gt, lt2, hBt, hLt, Etp, Ct⟩ := record_remote_base "template" B L
    (hre _ (by simp [recordFields])).1 (hre _ (by simp [recordFields])).2
  obtain ⟨gg, lg2, hBg, hLg, Egh, Cg⟩ := record_remote_base "github" B L
    (hre _ (by simp [recordFields])).1 (hre _ (by simp [recordFields])).2
  obtain ⟨gm, lm2, hBm, hLm, Emd, Cm⟩ := record_remote_base "metadata" B L
    (hre _ (by simp [recordFields])).1 (hre _ (by simp [recordFields])).2
  obtain ⟨gc, lc2, hBc, hLc, Ecl, Cc⟩ :=
    record_remote_base "collaboration" B L
    (hre _ (by simp [recordFields])).1 (hre _ (by simp [recordFields])).2
  have Eti : ∀ m c, mergeSimpleField "title" B L B m c =
      (m.setK "title" (L.getK "title"), c) :=
    fun m c => mergeSimpleField_remote_base "title" B L m c
  have Eau : ∀ m c, mergeSimpleField "author" B L B m c =
      (m.setK "author" (L.getK "author"), c) :=
    fun m c => mergeSimpleField_remote_base "author" B L m c
  have hks : ∀ k, k ∉ dedupStr (B.keysOf ++ L.keysOf ++ B.keysOf) →
      B.getK k = L.getK k := by
    intro k hk
    have hkL : k ∉ (B.keysOf ++ L.keysOf ++ B.keysOf) :=
      fun hmem => hk ((mem_dedupSeen _ _ _).mpr ⟨hmem, List.not_mem_nil _⟩)
    obtain ⟨kB, hkB⟩ := isObjB_shape hBo
    obtain ⟨kL, hkL2⟩ := isObjB_shape hLo
    rw [hkB, hkL2]
    rw [hkB, hkL2] at hkL
    have h1 : k ∉ kB.map Prod.fst := fun hmem => hkL
      (List.mem_append.mpr (Or.inl (List.mem_append.mpr
        (Or.inl (by simpa [Json.keysOf] using hmem)))))
    have h2 : k ∉ kL.map Prod.fst := fun hmem => hkL
      (List.mem_append.mpr (Or.inl (List.mem_append.mpr
        (Or.inr (by simpa [Json.keysOf] using hmem)))))
    rw [getK_eq_none_of_not_mem_keys h1, getK_eq_none_of_not_mem_keys h2]
  refine ⟨remFoldJson (fun k => L.getK k)
    (dedupStr (B.keysOf ++ L.keysOf ++ B.keysOf))
    (([("title", L.getK "title"), ("author", L.getK "author"),
       ("scenes", Option.some (Json.arr (mergedIdColl "scenes" bsc lsc bsc))),
       ("characters",
         Option.some (Json.arr (mergedIdColl "characters" bch lch bch))),
       ("chapters",
         Option.some (Json.arr (mergedIdColl "chapters" bcp lcp bcp))),
       ("parts", Option.some (Json.arr (mergedIdColl "parts" bpa lpa bpa))),
       ("locations",
         Option.some (Json.arr (mergedIdColl "locations" blo llo blo))),
       ("backgroundFolders", Option.some
         (Json.arr (mergedIdColl "backgroundFolders" bbg lbg bbg))),
       ("frontMatter",
         Option.some (Json.arr (mergedIdColl "frontMatter" bfm lfm bfm))),
       ("characterDetectionBlacklist",
         Option.some (Json.arr (mergeSimpleArrayCore bbl lbl bbl).1)),
       ("template", Option.some (mergedRecord "template" (Json.obj gt)
         (Json.obj lt2) (Json.obj gt))),
       ("github", Option.some (mergedRecord "github" (Json.obj gg)
         (Json.obj lg2) (Json.obj gg))),
       ("metadata", Option.some (mergedRecord "metadata" (Json.obj gm)
         (Json.obj lm2) (Json.obj gm))),
       ("collaboration", Option.some (mergedRecord "collaboration"
         (Json.obj gc) (Json.obj lc2) (Json.obj gc)))] :
         List (String × Option Json)).foldl
        (fun m p => m.setK p.1 p.2) B), ?_, ?_⟩
  · simp only [mergeContent, bind, Except.bind, Eti, Eau, Esc, Ech, Ecp,
      Epa, Elo, Ebg, Efm, Ebl, Etp, Egh, Emd, Ecl,
      mergeRemainingFields_remote_base]
    rfl
  · exact mergesToward_assembled B L hBo _ hks
      (mergedIdColl "scenes" bsc lsc bsc)
      (mergedIdColl "characters" bch lch bch)
      (mergedIdColl "chapters" bcp lcp bcp)
      (mergedIdColl "parts" bpa lpa bpa)
      (mergedIdColl "locations" blo llo blo)
      (mergedIdColl "backgroundFolders" bbg lbg bbg)
      (mergedIdColl "frontMatter" bfm lfm bfm)
      (mergeSimpleArrayCore bbl lbl bbl).1
      (mergedRecord "template" (Json.obj gt) (Json.obj lt2) (Json.obj gt))
      (mergedRecord "github" (Json.obj gg) (Json.obj lg2) (Json.obj gg))
      (mergedRecord "metadata" (Json.obj gm) (Json.obj lm2) (Json.obj gm))
      (mergedRecord "collaboration" (Json.obj gc) (Json.obj lc2)
        (Json.obj gc))
      ⟨lsc, hLsc, Psc⟩ ⟨lch, hLch, Pch⟩ ⟨lcp, hLcp, Pcp⟩ ⟨lpa, hLpa, Ppa⟩
      ⟨llo, hLlo, Plo⟩ ⟨lbg, hLbg, Pbg⟩ ⟨lfm, hLfm, Pfm⟩ ⟨lbl, hLbl, Pbl⟩
      Ct Cg Cm Cc

/-- Base (= local) document of the C3 counterexample. -/
def c3cBase : Json :=
  Json.obj [("chapters", Json.arr [Json.obj [("id", Json.str "1")]])]

/-- Remote document of the C3 counterexample: chapter 1 deleted. -/
def c3cRemote : Json := Json.obj [("chapters", Json.arr [])]

/-- Merged content of the C3 counterexample run: the deleted chapter is
kept. -/
def c3cMerged : Json := Json.obj
  [("chapters", Json.arr [Json.obj [("id", Json.str "1")]]),
   ("scenes", Json.arr []), ("characters", Json.arr []),
   ("parts", Json.arr []), ("locations", Json.arr []),
   ("backgroundFolders", Json.arr []), ("frontMatter", Json.arr []),
   ("characterDetectionBlacklist", Json.arr []),
   ("template", Json.obj []), ("github", Json.obj []),
   ("metadata", Json.obj []), ("collaboration", Json.obj [])]

/-- C3 counterexample: with local deep-equal to base and a remote-side
deletion of an unchanged item, `mergeContent(base, remote, local)` does
NOT return content equal to remote with an empty conflict list — it keeps
the deleted chapter and reports a `chapters_deleted` conflict. -/
theorem C3_counterexample_remote_deletion_reported :
    mergeContent c3cBase c3cRemote c3cBase =
      Except.ok (MergeResult.mk c3cMerged true
        [Conflict.withId "chapters_deleted" (Option.some (Json.str "1"))
          (Option.some (Json.obj [("id", Json.str "1")]))
          (Option.some Json.null)
          (Option.some (Json.obj [("id", Json.str "1")]))]) ∧
    c3cMerged.getK "chapters" ≠ c3cRemote.getK "chapters" :=
  ⟨rfl, by decide⟩

/-- C3 (amended): convergence toward the changed side holds only in the
absence of deletions: for well-formed documents (`convergeWF`) in which
the changing side deletes no base item, a merge whose local equals base
returns no conflicts and agrees with remote on every field (id
collections and the blacklist up to order, record fields up to key
order), and symmetrically when remote equals base; a deletion by the
changing side is instead kept and reported as a `<field>_deleted`
conflict. -/
theorem C3_amended_convergence_without_deletions (B R L : Json)
    (h1 : convergeWF B R = true) (h2 : convergeWF B L = true) :
    (∃ M, mergeContent B R B = Except.ok (MergeResult.mk M false []) ∧
      mergesToward M R) ∧
    (∃ M, mergeContent B B L = Except.ok (MergeResult.mk M false []) ∧
      mergesToward M L) :=
  ⟨mergeContent_local_base B R h1, mergeContent_remote_base B L h2⟩

/-- Base document of the C3 (amended) witness. -/
def c3Base : Json := Json.obj [("title", Json.str "T"),
  ("scenes", Json.arr []), ("characters", Json.arr []),
  ("chapters", Json.arr
    [Json.obj [("id", Json.str "1"), ("n", Json.num 3)]]),
  ("parts", Json.arr []), ("locations", Json.arr []),
  ("backgroundFolders", Json.arr []), ("frontMatter", Json.arr []),
  ("characterDetectionBlacklist", Json.arr [Json.str "bob"]),
  ("template", Json.obj [("size", Json.str "A4")]),
  ("github", Json.obj []),
  ("metadata", Json.obj [("modified", Json.str "t0")]),
  ("collaboration", Json.obj [])]

/-- Remote document of the C3 (amended) witness: edits chapter 1, adds
chapter 2, extends the blacklist, changes the template and metadata. -/
def c3Remote : Json := Json.obj [("title", Json.str "R"),
  ("scenes", Json.arr []), ("characters", Json.arr []),
  ("chapters", Json.arr
    [Json.obj [("id", Json.str "1"), ("n", Json.num 5)],
     Json.obj [("id", Json.str "2")]]),
  ("parts", Json.arr []), ("locations", Json.arr []),
  ("backgroundFolders", Json.arr []), ("frontMatter", Json.arr []),
  ("characterDetectionBlacklist",
    Json.arr [Json.str "bob", Json.str "alice"]),
  ("template", Json.obj [("size", Json.str "A5")]),
  ("github", Json.obj []),
  ("metadata", Json.obj [("modified", Json.str "t1")]),
  ("collaboration", Json.obj [])]

/-- Local document of the C3 (amended) witness: edits chapter 1, rewrites
the blacklist, changes the metadata. -/
def c3Local : Json := Json.obj [("title", Json.str "L"),
  ("scenes", Json.arr []), ("characters", Json.arr []),
  ("chapters", Json.arr
    [Json.obj [("id", Json.str "1"), ("n", Json.num 9)]]),
  ("parts", Json.arr []), ("locations", Json.arr []),
  ("backgroundFolders", Json.arr []), ("frontMatter", Json.arr []),
  ("characterDetectionBlacklist", Json.arr [Json.str "carol"]),
  ("template", Json.obj [("size", Json.str "A4")]),
  ("github", Json.obj []),
  ("metadata", Json.obj [("modified", Json.str "t2")]),
  ("collaboration", Json.obj [])]

/-- Witness for C3 (amended) at concrete documents. -/
theorem C3_amended_witness :
    convergeWF c3Base c3Remote = true ∧
    convergeWF c3Base c3Local = true ∧
    ((∃ M, mergeContent c3Base c3Remote c3Base =
        Except.ok (MergeResult.mk M false []) ∧ mergesToward M c3Remote) ∧
     (∃ M, mergeContent c3Base c3Base c3Local =
        Except.ok (MergeResult.mk M false []) ∧ mergesToward M c3Local)) :=
  ⟨by decide, by decide,
    C3_amended_convergence_without_deletions c3Base c3Remote c3Local
      (by decide) (by decide)⟩

end AbsScenes
